import Mathlib

/-!
Verification of the column-reconciliation and deduplicated-append engine of
PiramieExcelMaker (file PiramieExcelMaker_append.py).

The Python code is shallowly embedded:
* spreadsheet cells and pandas values become the inductive type Value
  (None/NaN/NaT are all merged into Value.vnone: openpyxl returns None for
  empty cells, and pandas missing markers only flow through pd.isna checks);
* Python floats become Rat (all claim-relevant float operations are exact
  decimal parsing and equality);
* datetimes become the record PyDateTime; pandas to_datetime is modelled on
  the value shapes that occur in the engine: datetimes pass through, strings
  parse in ISO format YYYY-MM-DD[ HH:MM:SS[.ffffff]], anything else fails;
* a worksheet is a list of rows of values (row 1 = headers) plus the
  AutoFilter reference and table references;
* a pandas DataFrame is a list of column labels plus rows of values.

Each Python function of the append engine is translated one-to-one below,
keeping the source names (underscores dropped where Lean prefers).
-/

/-- Model of a Python datetime: calendar components plus microseconds. -/
structure PyDateTime where
  year : Nat
  month : Nat
  day : Nat
  hour : Nat
  minute : Nat
  second : Nat
  micro : Nat
deriving DecidableEq, Repr

/-- Model of a dynamically typed cell / pandas value.  vnone stands for all
of Python None, pandas NA, NaN and NaT (the engine only ever distinguishes
them through pd.isna / `is None`, which are all true exactly here). -/
inductive Value where
  | vnone : Value
  | vstr : String → Value
  | vnum : Rat → Value
  | vdate : PyDateTime → Value
deriving DecidableEq, Repr

instance : Inhabited Value := ⟨Value.vnone⟩

/-- Characters treated as whitespace by Python str.strip() / regex \s
(ASCII fragment; the engine only meets ASCII whitespace). -/
def isPySpace (c : Char) : Bool :=
  c = ' ' || c = '\t' || c = '\n' || c = '\x0d' || c = '\x0c' || c = '\x0b'

/-- Python str.strip() on a character list. -/
def pyStripL (l : List Char) : List Char :=
  ((l.dropWhile isPySpace).reverse.dropWhile isPySpace).reverse

/-- Python str.strip(). -/
def pyStrip (s : String) : String :=
  String.mk (pyStripL s.data)

/-- Collapse every whitespace run to a single space: re.sub(r"\s+", " ", s).
The boolean records whether the previous character was inside a run. -/
def collapseWsGo : Bool → List Char → List Char
  | _, [] => []
  | prevWs, c :: t =>
    if isPySpace c then
      if prevWs then collapseWsGo true t else ' ' :: collapseWsGo true t
    else c :: collapseWsGo false t

/-- Collapse every whitespace run to a single space. -/
def collapseWsL (l : List Char) : List Char :=
  collapseWsGo false l

/-- Python str.lower() (ASCII case folding, matching the headers in use). -/
def toLowerStr (s : String) : String :=
  String.mk (s.data.map Char.toLower)

/-- Digit characters of a natural number, most significant first
(fuel-based structural recursion so that it reduces definitionally). -/
def natDigitsGo : Nat → Nat → List Char
  | 0, _ => []
  | _ + 1, 0 => []
  | fuel + 1, n => natDigitsGo fuel (n / 10) ++ [Char.ofNat (48 + n % 10)]

/-- Decimal string of a natural number (model of Python str on ints). -/
def natToStr (n : Nat) : String :=
  if n = 0 then "0" else String.mk (natDigitsGo n n)

/-- Decimal string of an integer. -/
def intToStr (i : Int) : String :=
  if i < 0 then "-" ++ natToStr i.natAbs else natToStr i.natAbs

/-- Model of Python str on a float value (kept as a rational).  Integral
values print as their integer part; non-integral values use a
numerator/denominator rendering.  The engine only ever feeds the result to
numeric or date re-parsing, for which only "parses back to the same number /
fails to parse as a date" matters, and that is proved below. -/
def ratToStr (q : Rat) : String :=
  if q.den = 1 then intToStr q.num else intToStr q.num ++ "/" ++ natToStr q.den

/-- Zero-padded two-digit decimal rendering. -/
def pad2 (n : Nat) : String :=
  if n < 10 then "0" ++ natToStr n else natToStr n

/-- Model of Python str on a datetime. -/
def dateToStr (d : PyDateTime) : String :=
  natToStr d.year ++ "-" ++ pad2 d.month ++ "-" ++ pad2 d.day ++ " " ++
    pad2 d.hour ++ ":" ++ pad2 d.minute ++ ":" ++ pad2 d.second ++
    (if d.micro = 0 then "" else "." ++ natToStr d.micro)

/-- Model of Python str(value) / pandas astype(str) on a cell value.
astype(str) renders missing values as the string nan, str(None) is None;
both spellings are treated alike by the one consumer (MSISDN cleanup). -/
def valToStr : Value → String
  | Value.vnone => "nan"
  | Value.vstr s => s
  | Value.vnum q => ratToStr q
  | Value.vdate d => dateToStr d

/-- Numeric value of a digit list (most significant first). -/
def digitsToNat (l : List Char) : Nat :=
  l.foldl (fun a c => a * 10 + (c.toNat - 48)) 0

/-- Parse the exponent tail of a float literal: optional sign then digits. -/
def parseExpTail (base : Rat) (l : List Char) : Option Rat :=
  let (sgn, l) : Int × List Char :=
    match l with
    | '-' :: r => (-1, r)
    | '+' :: r => (1, r)
    | r => (1, r)
  let ds := l.takeWhile Char.isDigit
  let rest := l.dropWhile Char.isDigit
  if ds = [] ∨ rest ≠ [] then none
  else if sgn < 0 then some (base / ((10 : Rat) ^ digitsToNat ds))
  else some (base * ((10 : Rat) ^ digitsToNat ds))

/-- Parse what follows the mantissa digits of a float literal. -/
def parseFloatRest (mant : Rat) (intDs : List Char) (l : List Char) : Option Rat :=
  match l with
  | [] => if intDs = [] then none else some mant
  | '.' :: r =>
    let fds := r.takeWhile Char.isDigit
    let rest := r.dropWhile Char.isDigit
    if intDs = [] ∧ fds = [] then none
    else
      let m := mant + (digitsToNat fds : Rat) / ((10 : Rat) ^ fds.length)
      match rest with
      | [] => some m
      | e :: r2 => if e = 'e' ∨ e = 'E' then parseExpTail m r2 else none
  | e :: r2 =>
    if (e = 'e' ∨ e = 'E') ∧ intDs ≠ [] then parseExpTail mant r2 else none

/-- Model of Python float(s) / pd.to_numeric on an already cleaned string:
optional sign, decimal digits with optional fraction and exponent; the whole
string must be consumed.  Returns none where Python raises / coerces to NaN. -/
def parseFloat (s : String) : Option Rat :=
  let cs := s.data
  let (sgn, cs) : Rat × List Char :=
    match cs with
    | '-' :: r => (-1, r)
    | '+' :: r => (1, r)
    | r => (1, r)
  let intDs := cs.takeWhile Char.isDigit
  let rest := cs.dropWhile Char.isDigit
  (parseFloatRest (digitsToNat intDs : Rat) intDs rest).map (fun q => sgn * q)

/-- Take exactly n digit characters from the front, returning their value. -/
def takeDigits (n : Nat) (l : List Char) : Option (Nat × List Char) :=
  let ds := l.take n
  if ds.length = n ∧ ds.all Char.isDigit then some (digitsToNat ds, l.drop n)
  else none

/-- Expect one literal character at the head, returning the rest. -/
def expectChar (ch : Char) : List Char → Option (List Char)
  | [] => none
  | c :: t => if c = ch then some t else none

/-- Parse the optional clock part HH:MM:SS[.ffffff] of an ISO datetime. -/
def parseClock (y mo d : Nat) (l : List Char) : Option PyDateTime :=
  match takeDigits 2 l with
  | none => none
  | some (hh, l) =>
    match l with
    | ':' :: l =>
      match takeDigits 2 l with
      | none => none
      | some (mi, l) =>
        match l with
        | ':' :: l =>
          match takeDigits 2 l with
          | none => none
          | some (ss, l) =>
            if hh < 24 ∧ mi < 60 ∧ ss < 60 then
              match l with
              | [] => some ⟨y, mo, d, hh, mi, ss, 0⟩
              | '.' :: fr =>
                if fr ≠ [] ∧ fr.length ≤ 6 ∧ fr.all Char.isDigit then
                  some ⟨y, mo, d, hh, mi, ss,
                    digitsToNat fr * 10 ^ (6 - fr.length)⟩
                else none
              | _ => none
            else none
        | _ => none
    | _ => none

/-- The compact all-digit datetime spellings pandas accepts: %Y, %Y%m and
%Y%m%d.  These are the shapes str() of an integer cell can take, so they
reach the parser through the Purchase Date renormalization pass. -/
def parseCompactDigits (l : List Char) : Option PyDateTime :=
  if l.length = 4 then some ⟨digitsToNat l, 1, 1, 0, 0, 0, 0⟩
  else if l.length = 6 then
    let mo := digitsToNat (l.drop 4)
    if 1 ≤ mo ∧ mo ≤ 12 then some ⟨digitsToNat (l.take 4), mo, 1, 0, 0, 0, 0⟩ else none
  else if l.length = 8 then
    let mo := digitsToNat ((l.drop 4).take 2)
    let d := digitsToNat (l.drop 6)
    if 1 ≤ mo ∧ mo ≤ 12 ∧ 1 ≤ d ∧ d ≤ 31 then
      some ⟨digitsToNat (l.take 4), mo, d, 0, 0, 0, 0⟩
    else none
  else none

/-- Model of pandas string-to-datetime parsing, on the shapes the engine
produces and consumes: the compact all-digit forms %Y / %Y%m / %Y%m%d and
the ISO shapes YYYY-MM-DD and YYYY-MM-DD HH:MM:SS[.ffffff] (pandas accepts
further spellings; none arise in the modelled flows). -/
def parseDateString (s : String) : Option PyDateTime :=
  if s.data ≠ [] ∧ s.data.all Char.isDigit then parseCompactDigits s.data
  else
  match takeDigits 4 s.data with
  | none => none
  | some (y, l1) =>
    match expectChar '-' l1 with
    | none => none
    | some l2 =>
      match takeDigits 2 l2 with
      | none => none
      | some (mo, l3) =>
        match expectChar '-' l3 with
        | none => none
        | some l4 =>
          match takeDigits 2 l4 with
          | none => none
          | some (d, l5) =>
            if 1 ≤ mo ∧ mo ≤ 12 ∧ 1 ≤ d ∧ d ≤ 31 then
              match l5 with
              | [] => some ⟨y, mo, d, 0, 0, 0, 0⟩
              | ' ' :: rest => parseClock y mo d rest
              | 'T' :: rest => parseClock y mo d rest
              | _ => none
            else none

/-- Days since 1970-01-01 to a proleptic-Gregorian civil date (year, month,
day): the calendar arithmetic behind pandas Timestamps. -/
def civilFromDays (z0 : Int) : Nat × Nat × Nat :=
  let z := z0 + 719468
  let era := z.fdiv 146097
  let doe := (z - era * 146097).toNat
  let yoe := (doe - doe / 1460 + doe / 36524 - doe / 146096) / 365
  let doy := doe - (365 * yoe + yoe / 4 - yoe / 100)
  let mp := (5 * doy + 2) / 153
  let d := doy - (153 * mp + 2) / 5 + 1
  let m := if mp < 10 then mp + 3 else mp - 9
  let y := era * 400 + (yoe : Int) + (if m ≤ 2 then 1 else 0)
  (y.toNat, m, d)

/-- pandas Timestamp(n) for n nanoseconds since the Unix epoch, floored to
microseconds (sub-microsecond detail is below the model's resolution: every
consumer truncates to seconds). -/
def pdFromEpochNs (n : Int) : PyDateTime :=
  let s := n.fdiv 1000000000
  let ns := (n - 1000000000 * s).toNat
  let days := s.fdiv 86400
  let sod := (s - 86400 * days).toNat
  let ymd := civilFromDays days
  ⟨ymd.1, ymd.2.1, ymd.2.2, sod / 3600, sod % 3600 / 60, sod % 60, ns / 1000⟩

/-- The int64 nanosecond bound of pandas Timestamps: a numeric value beyond
it makes pd.to_datetime(..., errors="coerce") give NaT. -/
def TS_NS_BOUND : Int := 9223372036854775807

/-- Model of pd.to_datetime(value): datetimes pass through, strings parse
(surrounding whitespace tolerated), a numeric value is read as nanoseconds
since the Unix epoch (NaT beyond the int64 Timestamp range), and None / NaN
give NaT. -/
def pdToDatetime : Value → Option PyDateTime
  | Value.vdate d => some d
  | Value.vstr s => parseDateString (pyStrip s)
  | Value.vnum q =>
    if q.floor < -TS_NS_BOUND ∨ TS_NS_BOUND < q.floor then none
    else some (pdFromEpochNs q.floor)
  | Value.vnone => none

/-- Python datetime.replace with microsecond set to 0 (key truncation). -/
def truncSeconds (d : PyDateTime) : PyDateTime :=
  { d with micro := 0 }

/-- Remove every comma and dollar sign: the two str.replace calls / the
regex re.sub applied to amount strings. -/
def removeCommaDollar (s : String) : String :=
  String.mk (s.data.filter (fun c => ¬(c = ',' ∨ c = '$')))

/-- str(v).replace(",", "").replace("$", "").strip() from the key builders. -/
def cleanAmtStr (s : String) : String :=
  pyStrip (removeCommaDollar s)

/-- Header normalization _norm: collapse whitespace, strip, lowercase. -/
def normStr (s : String) : String :=
  toLowerStr (pyStrip (String.mk (collapseWsL s.data)))

/-- Write a value at index i of a list, padding with pad as needed
(models openpyxl cell creation on demand). -/
def setAt {α : Type} : List α → Nat → α → α → List α
  | [], 0, _, a => [a]
  | [], n + 1, pad, a => pad :: setAt [] n pad a
  | _ :: t, 0, _, a => a :: t
  | h :: t, n + 1, pad, a => h :: setAt t n pad a

/-- Range reference of an AutoFilter or a structured table, written
startCol startRow : endCol endRow (e.g. A1:G25). -/
structure RangeRef where
  startCol : String
  startRow : Nat
  endCol : String
  endRow : Nat
deriving DecidableEq, Repr

/-- Model of an openpyxl worksheet: the cell grid (index 0 = Excel row 1,
the header row), the AutoFilter reference and the structured table
references. -/
structure Sheet where
  grid : List (List Value)
  autoFilterRef : Option RangeRef
  tables : List RangeRef
deriving DecidableEq, Repr

instance : Inhabited Sheet := ⟨⟨[], none, []⟩⟩

/-- ws.cell(row=r, column=c).value for 1-based r, c: missing cells read as
None. -/
def getCell (ws : Sheet) (r c : Nat) : Value :=
  (ws.grid.getD (r - 1) []).getD (c - 1) Value.vnone

/-- ws.cell(row=r, column=c, value=v) for 1-based r, c, creating rows and
cells on demand as openpyxl does. -/
def setCell (ws : Sheet) (r c : Nat) (v : Value) : Sheet :=
  let newRow := setAt (ws.grid.getD (r - 1) []) (c - 1) Value.vnone v
  { ws with grid := setAt ws.grid (r - 1) [] newRow }

/-- ws.max_row (at least 1, as in openpyxl). -/
def maxRow (ws : Sheet) : Nat :=
  max ws.grid.length 1

/-- ws.max_column (at least 1, as in openpyxl). -/
def maxCol (ws : Sheet) : Nat :=
  max (ws.grid.foldl (fun a row => max a row.length) 0) 1

/-- The header row ws[1] as a list of cell values. -/
def headers (ws : Sheet) : List Value :=
  ws.grid.getD 0 []

/-- Width used by _last_used_row: the greatest column whose row-1 header is
not None, defaulting to ws.max_column when there is no header at all. -/
def headerWidth (ws : Sheet) : Nat :=
  let hs := headers ws
  let nonNone := ((List.range hs.length).filter
    (fun i => hs.getD i Value.vnone ≠ Value.vnone)).map (fun i => i + 1)
  if nonNone = [] then maxCol ws else nonNone.foldl max 0

/-- Does row r have any value in columns 1..tc? (the generator inside
_last_used_row). -/
def rowNonblank (ws : Sheet) (r tc : Nat) : Bool :=
  (List.range' 1 tc).any (fun c => getCell ws r c ≠ Value.vnone)

/-- The fold at the heart of _last_used_row: the last row of the scan for
which the predicate holds, else the initial value 1. -/
def lastFold (P : Nat → Bool) (init : Nat) (l : List Nat) : Nat :=
  l.foldl (fun last r => if P r then r else last) init

/-- _last_used_row(ws, from_row=2): last row holding any value within
columns 1..to_col, paired with to_col (the engine always calls it with
from_row = 2 and to_col defaulted). -/
def lastUsedRow (ws : Sheet) : Nat × Nat :=
  let tc := headerWidth ws
  (lastFold (fun r => rowNonblank ws r tc) 1 (List.range' 2 (maxRow ws - 1)), tc)

/-- get_column_letter, via fuel-based structural recursion. -/
def colLetterGo : Nat → Nat → List Char
  | 0, _ => []
  | _ + 1, 0 => []
  | fuel + 1, n => colLetterGo fuel ((n - 1) / 26) ++ [Char.ofNat (65 + (n - 1) % 26)]

/-- openpyxl get_column_letter. -/
def colLetter (n : Nat) : String :=
  String.mk (colLetterGo n n)

/-- The monthly-to-APR column mapping COLUMN_MAP (insertion order kept). -/
def COLUMN_MAP : List (String × List String) :=
  [("Cust Name", ["CUSTOMER_NAME"]),
   ("Cust Type", ["CUSTOMER_TYPE"]),
   ("MSISDN", ["MSISDN"]),
   ("Purchase Date", ["Purchase Date"]),
   ("Prod Name", ["PRODUCT_NAME"]),
   ("Amount", ["PURCHASE_AMT"]),
   ("Package Status", ["STAT"]),
   ("API Credit Type", ["API Credit Type", "API  Credit Type"]),
   ("Prod Code", ["PRODUCT_ID"]),
   ("CRTR_ID", ["CONTRACT_ID"])]

/-- The identity-key fields DEDUPE_FIELDS, in source order. -/
def DEDUPE_FIELDS : List String :=
  ["MSISDN", "Purchase Date", "PRODUCT_NAME", "PURCHASE_AMT", "CONTRACT_ID", "PRODUCT_ID"]

/-- The required ledger sheet name. -/
def APR_SHEET : String := "APR Bundle"

/-- Lookup in the dict built by _build_apr_header_index: normalized row-1
headers map to their 1-based column; on normalization collisions the later
column wins, as with Python dict assignment. -/
def aprHeaderLookup (ws : Sheet) (key : String) : Option Nat :=
  (List.range (headers ws).length).foldl
    (fun acc i =>
      match (headers ws).getD i Value.vnone with
      | Value.vnone => acc
      | v => if normStr (valToStr v) = key then some (i + 1) else acc)
    none

/-- _resolve_target_col: first candidate APR name present in the header
index. -/
def resolveTargetCol (ws : Sheet) : List String → Option Nat
  | [] => none
  | n :: rest =>
    match aprHeaderLookup ws (normStr n) with
    | some c => some c
    | none => resolveTargetCol ws rest

/-- _find_header_col: first row-1 column whose normalized header equals the
normalized target. -/
def findHeaderCol (ws : Sheet) (h : String) : Option Nat :=
  (List.range (headers ws).length).findSome?
    (fun i =>
      match (headers ws).getD i Value.vnone with
      | Value.vnone => none
      | v => if normStr (valToStr v) = normStr h then some (i + 1) else none)

/-- Normalization of one identity-key position inside _read_existing_keys:
dates truncate to whole seconds, amounts parse as floats with raw-value
fallback, strings are stripped, None stays None. -/
def existingKeyPart (f : String) (v : Value) : Value :=
  if v = Value.vnone then Value.vnone
  else if f = "Purchase Date" then
    match pdToDatetime v with
    | none => Value.vnone
    | some d => Value.vdate (truncSeconds d)
  else if f = "PURCHASE_AMT" then
    match parseFloat (cleanAmtStr (valToStr v)) with
    | some q => Value.vnum q
    | none => v
  else
    match v with
    | Value.vstr s => Value.vstr (pyStrip s)
    | x => x

/-- Normalization of one identity-key position inside _make_row_key; the
missing-field / pd.isna guard is the vnone case.  (Textually the same
normalization as in _read_existing_keys: the source duplicates the code;
their equality is proved below as claim C2.) -/
def makeRowKeyPart (f : String) (v : Value) : Value :=
  if v = Value.vnone then Value.vnone
  else if f = "Purchase Date" then
    match pdToDatetime v with
    | none => Value.vnone
    | some d => Value.vdate (truncSeconds d)
  else if f = "PURCHASE_AMT" then
    match parseFloat (cleanAmtStr (valToStr v)) with
    | some q => Value.vnum q
    | none => v
  else
    match v with
    | Value.vstr s => Value.vstr (pyStrip s)
    | x => x

/-- The (field, ledger column) pairs of DEDUPE_FIELDS present on the APR
sheet (the present list of _read_existing_keys). -/
def presentFields (ws : Sheet) : List (String × Nat) :=
  DEDUPE_FIELDS.filterMap (fun f => (findHeaderCol ws f).map (fun c => (f, c)))

/-- The identity key _read_existing_keys builds from ledger row r. -/
def rowKeyAt (ws : Sheet) (present : List (String × Nat)) (r : Nat) : List Value :=
  present.map (fun fc => existingKeyPart fc.1 (getCell ws r fc.2))

/-- _read_existing_keys: identity keys of all current ledger data rows
(a Python set; modelled as the list in row order, used only through
membership, for which the two agree). -/
def readExistingKeys (ws : Sheet) : List (List Value) :=
  let present := presentFields ws
  if present = [] then []
  else (List.range' 2 ((lastUsedRow ws).1 - 1)).map (rowKeyAt ws present)

/-- Model of a pandas DataFrame: column labels plus rows of values (each
row aligned with cols positionally; short rows read as missing). -/
structure DataFrame where
  cols : List String
  rows : List (List Value)
deriving DecidableEq, Repr

/-- series[c] / df-cell access by column label; a missing label or a
missing value reads as vnone (pandas NA). -/
def dfGet (cols : List String) (row : List Value) (c : String) : Value :=
  match cols.indexOf? c with
  | some i => row.getD i Value.vnone
  | none => Value.vnone

/-- df[c] = df[c].map(f): transform one column in place (no-op when the
label is absent, matching the `if c in df.columns` guards around each use). -/
def dfMapCol (df : DataFrame) (c : String) (f : Value → Value) : DataFrame :=
  match df.cols.indexOf? c with
  | none => df
  | some i =>
    let newRows := df.rows.map (fun row => setAt row i Value.vnone (f (row.getD i Value.vnone)))
    { df with rows := newRows }

/-- df[c] = rows.map f: pandas column assignment, overwriting an existing
column or appending a new one at the end. -/
def dfSetColFrom (df : DataFrame) (c : String) (f : List Value → Value) : DataFrame :=
  match df.cols.indexOf? c with
  | some i =>
    { df with rows := df.rows.map (fun row => setAt row i Value.vnone (f row)) }
  | none =>
    let newRows := df.rows.map
      (fun row => row ++ List.replicate (df.cols.length - row.length) Value.vnone ++ [f row])
    { cols := df.cols ++ [c], rows := newRows }

/-- The normalized-header alias table of _normalize_columns. -/
def MONTH_ALIASES : List (String × String) :=
  [("cust name", "Cust Name"), ("customer name", "Cust Name"),
   ("cust type", "Cust Type"), ("customer type", "Cust Type"),
   ("msisdn", "MSISDN"),
   ("purchase date", "Purchase Date"), ("date", "Purchase Date"),
   ("prod name", "Prod Name"), ("product name", "Prod Name"),
   ("amount", "Amount"), ("purchase amount", "Amount"), ("purchase amt", "Amount"),
   ("package status", "Package Status"), ("stat", "Package Status"),
   ("api credit type", "API Credit Type"),
   ("prod code", "Prod Code"), ("product id", "Prod Code"),
   ("crtr_id", "CRTR_ID"), ("crtr id", "CRTR_ID"), ("contract id", "CRTR_ID")]

/-- The monthly header list after the alias rename of _normalize_columns
(unrecognized headers pass through).  When two headers land on the same
canonical label the renamed frame has duplicate columns and the
empty-column scan of _normalize_columns raises (df[c] is then a DataFrame
and bool(df[c].isna().all()) is ambiguous); that error path is modelled at
readMonthFile. -/
def canonCols (df : DataFrame) : List String :=
  df.cols.map (fun c =>
    match MONTH_ALIASES.lookup (normStr c) with
    | some canon => canon
    | none => c)

/-- _normalize_columns on the non-raising inputs (duplicate-free renamed
headers): rename headers through the alias table, then drop columns whose
every value is missing. -/
def normalizeColumns (df : DataFrame) : DataFrame :=
  let renamed : DataFrame :=
    { df with cols := df.cols.map (fun c =>
        match MONTH_ALIASES.lookup (normStr c) with
        | some canon => canon
        | none => c) }
  let keep := (List.range renamed.cols.length).filter
    (fun i => ¬ renamed.rows.all (fun row => row.getD i Value.vnone = Value.vnone))
  { cols := keep.map (fun i => renamed.cols.getD i ""),
    rows := renamed.rows.map (fun row => keep.map (fun i => row.getD i Value.vnone)) }

/-- The MSISDN cleanup of _coerce_and_derive: astype(str).str.strip() with
the textual artifacts nan / none / empty replaced by NA. -/
def msisdnClean (v : Value) : Value :=
  let s := pyStrip (valToStr v)
  if toLowerStr s = "nan" ∨ toLowerStr s = "none" ∨ s = "" then Value.vnone
  else Value.vstr s

/-- The amount coercion of _coerce_and_derive:
pd.to_numeric(astype(str) with commas and dollar signs removed, strip,
errors="coerce"); non-numeric text coerces to NA.  A value that is already
a float round-trips exactly through str and to_numeric, so numbers pass
through unchanged. -/
def toNumericCleaned (v : Value) : Value :=
  match v with
  | Value.vnum q => Value.vnum q
  | v2 =>
    match parseFloat (cleanAmtStr (valToStr v2)) with
    | some q => Value.vnum q
    | none => Value.vnone

/-- The per-field step of the dedupe-column guarantee at the end of
_coerce_and_derive: a missing dedupe column is created filled with NA. -/
def dfEnsureStep (d : DataFrame) (c : String) : DataFrame :=
  if d.cols.contains c then d else dfSetColFrom d c (fun _ => Value.vnone)

/-- Stages of _coerce_and_derive, named df1..df6 after its locals.
df1: Purchase Date coerced to datetimes (errors="coerce"). -/
def cadDf1 (df0 : DataFrame) : DataFrame :=
  dfMapCol df0 "Purchase Date"
    (fun v => match pdToDatetime v with
      | some d => Value.vdate d
      | none => Value.vnone)

/-- df2: MSISDN cleaned to stripped text with nan/none/empty as NA. -/
def cadDf2 (df0 : DataFrame) : DataFrame :=
  dfMapCol (cadDf1 df0) "MSISDN" msisdnClean

/-- df3: PURCHASE_AMT derived from Amount through pd.to_numeric on the
cleaned text (an absent Amount column leaves it all-NA). -/
def cadDf3 (df0 : DataFrame) : DataFrame :=
  if (cadDf2 df0).cols.contains "Amount" then
    dfSetColFrom (cadDf2 df0) "PURCHASE_AMT"
      (fun row => toNumericCleaned (dfGet (cadDf2 df0).cols row "Amount"))
  else
    dfSetColFrom (cadDf2 df0) "PURCHASE_AMT" (fun _ => Value.vnone)

/-- df4: PRODUCT_NAME copied from Prod Name. -/
def cadDf4 (df0 : DataFrame) : DataFrame :=
  dfSetColFrom (cadDf3 df0) "PRODUCT_NAME"
    (fun row => if (cadDf3 df0).cols.contains "Prod Name" then
      dfGet (cadDf3 df0).cols row "Prod Name" else Value.vnone)

/-- df5: PRODUCT_ID copied from Prod Code. -/
def cadDf5 (df0 : DataFrame) : DataFrame :=
  dfSetColFrom (cadDf4 df0) "PRODUCT_ID"
    (fun row => if (cadDf4 df0).cols.contains "Prod Code" then
      dfGet (cadDf4 df0).cols row "Prod Code" else Value.vnone)

/-- df6: CONTRACT_ID copied from CRTR_ID. -/
def cadDf6 (df0 : DataFrame) : DataFrame :=
  dfSetColFrom (cadDf5 df0) "CONTRACT_ID"
    (fun row => if (cadDf5 df0).cols.contains "CRTR_ID" then
      dfGet (cadDf5 df0).cols row "CRTR_ID" else Value.vnone)

/-- _coerce_and_derive: coerce Purchase Date to datetimes, clean MSISDN,
derive the APR-style dedupe columns PURCHASE_AMT / PRODUCT_NAME /
PRODUCT_ID / CONTRACT_ID from their monthly labels, and make sure every
dedupe column exists (filled with NA). -/
def coerceAndDerive (df0 : DataFrame) : DataFrame :=
  DEDUPE_FIELDS.foldl dfEnsureStep (cadDf6 df0)

/-- _read_month_file: read (abstracted to the already-loaded raw frame; an
unreadable file raises), then normalize headers and coerce/derive.  The
header normalization itself raises an uncaught ValueError when the alias
rename leaves two monthly columns with the same label (the empty-column
scan of _normalize_columns evaluates the truth of a DataFrame then). -/
def readMonthFile (monthReadable : Bool) (raw : DataFrame) : Except String DataFrame :=
  if monthReadable then
    if (canonCols raw).Nodup then Except.ok (coerceAndDerive (normalizeColumns raw))
    else Except.error "The truth value of a Series is ambiguous"
  else Except.error "Failed to read monthly file"

/-- _make_row_key: the identity key of a monthly DataFrame row. -/
def makeRowKey (cols : List String) (row : List Value) : List Value :=
  DEDUPE_FIELDS.map (fun f => makeRowKeyPart f (dfGet cols row f))

/-- _coerce_for_excel: pandas NA to None, strings stripped, rest as-is. -/
def coerceForExcel (v : Value) : Value :=
  match v with
  | Value.vnone => Value.vnone
  | Value.vstr s => Value.vstr (pyStrip s)
  | x => x

/-- The per-cell write transformation of the write loop: _coerce_for_excel,
then the Amount string cleanup with numeric parse (falling back to the
cleaned string), then the Purchase Date coercion to a seconds-truncated
datetime. -/
def writeVal (mcol : String) (v0 : Value) : Value :=
  let val := coerceForExcel v0
  let val :=
    if mcol = "Amount" then
      match val with
      | Value.vstr s =>
        let s2 := pyStrip (removeCommaDollar s)
        match parseFloat s2 with
        | some q => Value.vnum q
        | none => Value.vstr s2
      | x => x
    else val
  if mcol = "Purchase Date" then
    match pdToDatetime val with
    | none => Value.vnone
    | some d => Value.vdate (truncSeconds d)
  else val

/-- The mutable state of the write loop: the sheet being written, the
written counter (the write cursor is start_row + written), the duplicate
counter and the running key set. -/
structure LoopState where
  sheet : Sheet
  written : Nat
  dups : Nat
  keys : List (List Value)
deriving Repr

/-- The inner cell-writing loop over the resolved mapping: writes every
resolved field of the row at target and reports whether any written value
was not None (row_has_any). -/
def writeCells (resolved : List (String × Nat)) (cols : List String)
    (row : List Value) (target : Nat) (s0 : Sheet) : Sheet × Bool :=
  resolved.foldl
    (fun acc mc =>
      let val := writeVal mc.1 (dfGet cols row mc.1)
      (setCell acc.1 target mc.2 val, acc.2 || (val ≠ Value.vnone)))
    (s0, false)

/-- One iteration of the write loop: skip duplicates, otherwise write the
row at start_row + written and advance the cursor / extend the key set only
when some value was actually written. -/
def processRow (resolved : List (String × Nat)) (cols : List String)
    (startRow : Nat) (st : LoopState) (row : List Value) : LoopState :=
  let key := makeRowKey cols row
  if key ∈ st.keys then
    { st with dups := st.dups + 1 }
  else
    let wc := writeCells resolved cols row (startRow + st.written) st.sheet
    if wc.2 then
      { sheet := wc.1, written := st.written + 1, dups := st.dups, keys := key :: st.keys }
    else
      { st with sheet := wc.1 }

/-- _expand_filters_and_tables: reset the AutoFilter reference to
A1:(last column letter)(last used row), and extend every table anchored at
row 1 down to the last used row, keeping its column letters. -/
def expandFiltersAndTables (ws : Sheet) : Sheet :=
  let lu := lastUsedRow ws
  let af :=
    match ws.autoFilterRef with
    | some _ => some (RangeRef.mk "A" 1 (colLetter lu.2) lu.1)
    | none => none
  { ws with
      autoFilterRef := af,
      tables := ws.tables.map
        (fun t => if t.startRow = 1 then RangeRef.mk t.startCol 1 t.endCol lu.1 else t) }

/-- One row of the date-renormalization scan: empty cells and genuine
datetimes are left alone; any other value is re-parsed from its string form
and replaced by a real datetime on success, left untouched on failure. -/
def normalizeDateStep (col : Nat) (s : Sheet) (r : Nat) : Sheet :=
  match getCell s r col with
  | Value.vnone => s
  | Value.vdate _ => s
  | v =>
    match parseDateString (pyStrip (valToStr v)) with
    | some d => setCell s r col (Value.vdate d)
    | none => s

/-- _normalize_purchase_date_column: coerce every Purchase Date cell of the
data area to a true datetime where its text parses. -/
def normalizePurchaseDateColumn (ws : Sheet) : Sheet :=
  match findHeaderCol ws "Purchase Date" with
  | none => ws
  | some col =>
    (List.range' 2 ((lastUsedRow ws).1 - 1)).foldl (normalizeDateStep col) ws

/-- The column-resolution loop of the main API: for each COLUMN_MAP entry
either record the monthly label as missing from the input, or resolve its
APR target column, or record the unresolved targets.  Returns
(resolved mapping, unresolved targets, missing monthly labels). -/
def resolveStep (ws : Sheet) (monthCols : List String)
    (acc : List (String × Nat) × List (String × List String) × List String)
    (entry : String × List String) :
    List (String × Nat) × List (String × List String) × List String :=
  if ¬ monthCols.contains entry.1 then
    (acc.1, acc.2.1, acc.2.2 ++ [entry.1])
  else
    match resolveTargetCol ws entry.2 with
    | none => (acc.1, acc.2.1 ++ [entry], acc.2.2)
    | some c => (acc.1 ++ [(entry.1, c)], acc.2.1, acc.2.2)

def resolveMapping (ws : Sheet) (monthCols : List String) :
    List (String × Nat) × List (String × List String) × List String :=
  COLUMN_MAP.foldl (resolveStep ws monthCols) ([], [], [])

/-- The GUI-friendly summary dict returned by ingest_month_into_apr_bundle,
plus the persisted APR sheet (the save step made explicit).  The backup
path is modelled by the flag master_backup (the copy itself is file I/O). -/
structure IngestResult where
  master_backup : Bool
  rows_before : Nat
  rows_added : Nat
  rows_after : Nat
  dedupe_skipped : Nat
  unmapped_monthly_columns : List String
  unresolved_targets : List (String × List String)
  resolved_map : List (String × Nat)
  sheet : Sheet
deriving DecidableEq, Repr

instance : Inhabited IngestResult := ⟨⟨false, 0, 0, 0, 0, [], [], [], default⟩⟩

/-- ingest_month_into_apr_bundle.  File-system facts (master exists, month
file exists, month file readable) are explicit booleans; the workbook is the
named-sheet list wb; raw is the monthly sheet as read with header row 4.
Errors model the raised exceptions; every error is raised before the ledger
is mutated (the result sheet only exists on the ok path). -/
def ingest_month_into_apr_bundle (masterExists monthExists monthReadable : Bool)
    (wb : List (String × Sheet)) (raw : DataFrame) : Except String IngestResult :=
  if ¬ masterExists then Except.error "Master not found"
  else if ¬ monthExists then Except.error "Month file not found"
  else
    match readMonthFile monthReadable raw with
    | Except.error e => Except.error e
    | Except.ok month_df =>
      match wb.lookup APR_SHEET with
      | none => Except.error "APR Bundle sheet not found in master"
      | some ws =>
        let existing_keys := readExistingKeys ws
        let lu := lastUsedRow ws
        let rows_before := lu.1 - 1
        let rsm := resolveMapping ws month_df.cols
        let resolved := rsm.1
        let skipped_targets := rsm.2.1
        let missing_monthly := rsm.2.2
        if resolved = [] then
          Except.ok
            { master_backup := true, rows_before := rows_before, rows_added := 0,
              rows_after := rows_before, dedupe_skipped := 0,
              unmapped_monthly_columns := missing_monthly,
              unresolved_targets := skipped_targets, resolved_map := [], sheet := ws }
        else
          let start_row := lu.1 + 1
          let final := month_df.rows.foldl (processRow resolved month_df.cols start_row)
            (LoopState.mk ws 0 0 existing_keys)
          let ws2 := normalizePurchaseDateColumn (expandFiltersAndTables final.sheet)
          let lu2 := lastUsedRow ws2
          Except.ok
            { master_backup := true, rows_before := rows_before,
              rows_added := final.written, rows_after := lu2.1 - 1,
              dedupe_skipped := final.dups,
              unmapped_monthly_columns :=
                COLUMN_MAP.filterMap
                  (fun e => if month_df.cols.contains e.1 then none else some e.1),
              unresolved_targets := skipped_targets,
              resolved_map := resolved, sheet := ws2 }

/-- The final state of the write loop of ingest_month_into_apr_bundle (the
local `written/dups` accumulation, named for reuse in the theorems). -/
def ingestFinalState (ws : Sheet) (month_df : DataFrame) : LoopState :=
  month_df.rows.foldl
    (processRow (resolveMapping ws month_df.cols).1 month_df.cols ((lastUsedRow ws).1 + 1))
    (LoopState.mk ws 0 0 (readExistingKeys ws))

/-- The sheet persisted by ingest_month_into_apr_bundle on the write path
(the local ws2 of the source). -/
def ingestFinalSheet (ws : Sheet) (month_df : DataFrame) : Sheet :=
  normalizePurchaseDateColumn (expandFiltersAndTables (ingestFinalState ws month_df).sheet)

/-- The ledger column of a dedupe field (meaningful when _find_header_col
resolves it). -/
def dcol (ws : Sheet) (f : String) : Nat := (findHeaderCol ws f).getD 0

/-- The well-formed-ledger condition under which deduplication is coherent:
every dedupe field has a ledger header column, and the first-match lookup of
_find_header_col agrees with the last-wins header index of
_build_apr_header_index (true whenever the normalized ledger headers are
distinct, as on the real APR bundle). -/
def dedupeHeadersOk (ws : Sheet) : Bool :=
  DEDUPE_FIELDS.all (fun f =>
    match findHeaderCol ws f, aprHeaderLookup ws (normStr f) with
    | some c1, some c2 => c1 == c2
    | _, _ => false)

/-- The monthly label COLUMN_MAP pairs with each dedupe field. -/
def dedupeSrc (f : String) : String :=
  if f = "PURCHASE_AMT" then "Amount"
  else if f = "PRODUCT_NAME" then "Prod Name"
  else if f = "PRODUCT_ID" then "Prod Code"
  else if f = "CONTRACT_ID" then "CRTR_ID"
  else f

/-- The character filter of removeCommaDollar. -/
def keepCD (c : Char) : Bool := ¬(c = ',' ∨ c = '$')

/-- Whether the monthly value in the Amount column is empty, numeric, or a
string that parses as a number once commas and dollar signs are removed
(the condition under which write-back and dedupe agree on amounts). -/
def amountValOk (v : Value) : Bool :=
  match v with
  | Value.vnone => true
  | Value.vnum _ => true
  | Value.vstr s => (parseFloat (cleanAmtStr s)).isSome
  | Value.vdate _ => false

/-- row_has_any as a predicate on the row: some resolved field writes a
non-None value. -/
def rowHasAny (resolved : List (String × Nat)) (cols : List String) (row : List Value) : Bool :=
  resolved.any (fun mc => writeVal mc.1 (dfGet cols row mc.1) ≠ Value.vnone)

/-- The invariant carried through the write loop: rows below start are
untouched, rows at start..start+written-1 hold exactly the written values of
the accepted rows (in acceptance order, with every other column in the used
width still blank), rows beyond are blank in the used width, and the key
set is the accepted keys on top of the initial keys. -/
structure LoopInv (ws0 : Sheet) (resolved : List (String × Nat)) (cols : List String)
    (start tc : Nat) (keys0 : List (List Value)) (src : List (List Value))
    (accepted : List (List Value)) (st : LoopState) : Prop where
  low : ∀ r c, 1 ≤ r → r < start → 1 ≤ c → getCell st.sheet r c = getCell ws0 r c
  high : ∀ r c, start + st.written ≤ r → 1 ≤ c → c ≤ tc → getCell st.sheet r c = Value.vnone
  acc_len : accepted.length = st.written
  acc_cells : ∀ k, k < st.written → ∀ mc ∈ resolved,
    getCell st.sheet (start + k) mc.2 = writeVal mc.1 (dfGet cols (accepted.getD k []) mc.1)
  acc_blank : ∀ k, k < st.written → ∀ c, 1 ≤ c → c ≤ tc → c ∉ resolved.map Prod.snd →
    getCell st.sheet (start + k) c = Value.vnone
  acc_any : ∀ k, k < st.written → rowHasAny resolved cols (accepted.getD k []) = true
  keys_eq : st.keys = (accepted.map (makeRowKey cols)).reverse ++ keys0
  glen : ws0.grid.length ≤ st.sheet.grid.length
  glen2 : st.written = 0 ∨ start + st.written - 1 ≤ st.sheet.grid.length
  hdr : headers st.sheet = headers ws0
  acc_src : ∀ a ∈ accepted, a ∈ src

/-- The per-cell effect of the date renormalization: empty cells and true
datetimes stay, other values are replaced by a parsed datetime when their
string form parses. -/
def normDateVal (v : Value) : Value :=
  match v with
  | Value.vnone => v
  | Value.vdate _ => v
  | v2 =>
    match parseDateString (pyStrip (valToStr v2)) with
    | some d => Value.vdate d
    | none => v2

/-- The list of 1-based columns whose row-1 header is not None (the
candidate set of _last_used_row's default to_col). -/
def hdrNonNone (ws : Sheet) : List Nat :=
  ((List.range (headers ws).length).filter
    (fun i => (headers ws).getD i Value.vnone ≠ Value.vnone)).map (fun i => i + 1)

/-- The frames the pipeline manipulates have rows no wider than their
column list (pandas keeps rows and columns aligned). -/
def dfWF (df : DataFrame) : Prop := ∀ row ∈ df.rows, row.length ≤ df.cols.length

/-! Concrete fixtures used by the witnesses and counterexamples. -/

/-- A ledger header row holding every dedupe field plus CUSTOMER_NAME. -/
def exHdr : List Value :=
  [Value.vstr "MSISDN", Value.vstr "Purchase Date", Value.vstr "PRODUCT_NAME",
   Value.vstr "PURCHASE_AMT", Value.vstr "CONTRACT_ID", Value.vstr "PRODUCT_ID",
   Value.vstr "CUSTOMER_NAME"]

/-- An empty ledger: the header row only. -/
def exLedger : Sheet := Sheet.mk [exHdr] (some (RangeRef.mk "A" 1 "G" 1)) []

/-- A monthly sheet with a non-numeric Amount value. -/
def exRawAmt : DataFrame :=
  DataFrame.mk ["MSISDN", "Amount", "Cust Name"]
    [[Value.vstr "123", Value.vstr "abc", Value.vstr "Al"]]

/-- A monthly sheet whose two rows carry no dedupe field at all. -/
def exRawNull : DataFrame :=
  DataFrame.mk ["Cust Name"] [[Value.vstr "A"], [Value.vstr "B"]]

/-- A ledger with three data rows whose identity keys differ in MSISDN. -/
def exLedger6 : Sheet :=
  Sheet.mk [exHdr, [Value.vstr "1"], [Value.vstr "2"], [Value.vstr "3"]] none []

/-- Five monthly rows with keys K2, K4, K5, K4, K6. -/
def exRaw6 : DataFrame :=
  DataFrame.mk ["MSISDN"]
    [[Value.vstr "2"], [Value.vstr "4"], [Value.vstr "5"], [Value.vstr "4"], [Value.vstr "6"]]

/-- A monthly sheet whose two headers alias to the same canonical label. -/
def exRawDup : DataFrame :=
  DataFrame.mk ["Amount", "Purchase Amount"] [[Value.vstr "1", Value.vstr "2"]]

/-- A ledger whose one data row holds a raw numeric Purchase Date cell. -/
def exLedgerNumDate : Sheet :=
  Sheet.mk [exHdr, [Value.vstr "5", Value.vnum 20240102]] none []

/-- A monthly row whose key equals the epoch reading of that numeric
Purchase Date cell. -/
def exRawNumDate : DataFrame :=
  DataFrame.mk ["MSISDN", "Purchase Date"]
    [[Value.vstr "5", Value.vstr "1970-01-01 00:00:00"]]

/-- The APR sheet produced by ingesting exRaw6 into exLedger once. -/
def exRun1Sheet : Sheet :=
  Sheet.mk [exHdr,
    [Value.vstr "2", Value.vnone], [Value.vstr "4", Value.vnone],
    [Value.vstr "5", Value.vnone], [Value.vstr "6", Value.vnone]]
    (some (RangeRef.mk "A" 1 "G" 5)) []

/-- A ledger whose AutoFilter covers B1:B2 and whose tables sit at A1:C2 and
B2:C2. -/
def exLedger9 : Sheet :=
  Sheet.mk [exHdr, [Value.vstr "x"], [Value.vstr "y"]]
    (some (RangeRef.mk "B" 1 "B" 2))
    [RangeRef.mk "A" 1 "C" 2, RangeRef.mk "B" 2 "C" 2]

/-! Basic lemmas about the cell grid. -/

theorem length_setAt {α : Type} (l : List α) (i : Nat) (pad a : α) :
    (setAt l i pad a).length = max l.length (i + 1) := by
  induction l generalizing i with
  | nil =>
    induction i with
    | zero => simp [setAt]
    | succ n ih => simp [setAt, ih]; try omega
  | cons h t ih =>
    cases i with
    | zero => simp [setAt]; try omega
    | succ n => simp [setAt, ih]; try omega

theorem getD_setAt_self {α : Type} (l : List α) (i : Nat) (pad a : α) :
    (setAt l i pad a).getD i pad = a := by
  induction l generalizing i with
  | nil =>
    induction i with
    | zero => simp [setAt]
    | succ n ih => simpa [setAt] using ih
  | cons h t ih =>
    cases i with
    | zero => simp [setAt]
    | succ n => simpa [setAt] using ih n

theorem getD_setAt_ne {α : Type} (l : List α) (i j : Nat) (pad a : α) (hij : j ≠ i) :
    (setAt l i pad a).getD j pad = l.getD j pad := by
  induction l generalizing i j with
  | nil =>
    induction i generalizing j with
    | zero =>
      cases j with
      | zero => exact absurd rfl hij
      | succ m => simp [setAt]
    | succ n ih =>
      cases j with
      | zero => simp [setAt]
      | succ m => simpa [setAt] using ih m (by omega)
  | cons h t ih =>
    cases i with
    | zero =>
      cases j with
      | zero => exact absurd rfl hij
      | succ m => simp [setAt]
    | succ n =>
      cases j with
      | zero => simp [setAt]
      | succ m => simpa [setAt] using ih n m (by omega)

theorem getCell_setCell_self (ws : Sheet) (r c : Nat) (v : Value)
    (hr : 1 ≤ r) (hc : 1 ≤ c) :
    getCell (setCell ws r c v) r c = v := by
  unfold getCell setCell
  simp only [getD_setAt_self]

theorem getCell_setCell_ne (ws : Sheet) (r c : Nat) (v : Value) (r2 c2 : Nat)
    (hr : 1 ≤ r) (hc : 1 ≤ c) (hr2 : 1 ≤ r2) (hc2 : 1 ≤ c2)
    (hne : r2 ≠ r ∨ c2 ≠ c) :
    getCell (setCell ws r c v) r2 c2 = getCell ws r2 c2 := by
  unfold getCell setCell
  by_cases hrr : r2 = r
  · rcases hne with h | h
    · exact absurd hrr h
    · subst hrr
      simp only [getD_setAt_self]
      exact getD_setAt_ne _ _ _ _ _ (by omega)
  · rw [getD_setAt_ne _ _ _ _ _ (by omega)]

theorem grid_length_setCell (ws : Sheet) (r c : Nat) (v : Value) (hr : 1 ≤ r) :
    (setCell ws r c v).grid.length = max ws.grid.length r := by
  unfold setCell
  simp only [length_setAt]
  omega

theorem headers_setCell (ws : Sheet) (r c : Nat) (v : Value) (hr : 2 ≤ r) :
    headers (setCell ws r c v) = headers ws := by
  unfold headers setCell
  exact getD_setAt_ne _ _ _ _ _ (by omega)

theorem autoFilterRef_setCell (ws : Sheet) (r c : Nat) (v : Value) :
    (setCell ws r c v).autoFilterRef = ws.autoFilterRef := rfl

theorem tables_setCell (ws : Sheet) (r c : Nat) (v : Value) :
    (setCell ws r c v).tables = ws.tables := rfl

/-! Lemmas about the string normalizers. -/

theorem eqFalseOfNeTrue (b : Bool) (h : ¬ b = true) : b = false := by
  cases b with
  | false => rfl
  | true => exact absurd rfl h

theorem dropWhile_eq_self_of_all (p : Char → Bool) (l : List Char)
    (h : ∀ c ∈ l, p c = false) : l.dropWhile p = l := by
  cases l with
  | nil => rfl
  | cons c t => simp [List.dropWhile_cons, h c (List.mem_cons_self c t)]

theorem pyStripL_of_no_space (l : List Char)
    (h : ∀ c ∈ l, isPySpace c = false) : pyStripL l = l := by
  unfold pyStripL
  rw [dropWhile_eq_self_of_all _ _ h]
  rw [dropWhile_eq_self_of_all _ _ (fun c hc => h c (List.mem_reverse.mp hc))]
  exact List.reverse_reverse l

theorem mem_of_mem_pyStripL (l : List Char) (c : Char) (h : c ∈ pyStripL l) : c ∈ l := by
  unfold pyStripL at h
  rw [List.mem_reverse] at h
  have h2 := (List.dropWhile_suffix isPySpace).mem h
  rw [List.mem_reverse] at h2
  exact (List.dropWhile_suffix isPySpace).mem h2

theorem pyStripL_idempotent (l : List Char) : pyStripL (pyStripL l) = pyStripL l := by
  show pyStripL (List.rdropWhile isPySpace (l.dropWhile isPySpace)) = _
  set A := l.dropWhile isPySpace with hA
  have hdropA : A.dropWhile isPySpace = A := List.dropWhile_idempotent isPySpace l
  have hpre : List.rdropWhile isPySpace A <+: A := List.rdropWhile_prefix isPySpace A
  have hdrop : (List.rdropWhile isPySpace A).dropWhile isPySpace
      = List.rdropWhile isPySpace A := by
    rcases hpre with ⟨t, ht⟩
    cases hB : List.rdropWhile isPySpace A with
    | nil => rfl
    | cons c cs =>
      have hAc : A = c :: (cs ++ t) := by rw [← ht, hB]; simp
      have hc : isPySpace c = false := by
        by_contra hcc
        have hcc2 : isPySpace c = true := by
          cases hcx : isPySpace c with
          | false => exact absurd hcx hcc
          | true => rfl
        have hd := hdropA
        rw [hAc, List.dropWhile_cons, hcc2] at hd
        simp only [if_true] at hd
        have hlen := congrArg List.length hd
        simp only [List.length_cons, List.length_append] at hlen
        have hle := ((List.dropWhile_suffix (l := cs ++ t) isPySpace).sublist).length_le
        simp only [List.length_append] at hle
        omega
      rw [List.dropWhile_cons, hc]
      simp
  show List.rdropWhile isPySpace ((List.rdropWhile isPySpace A).dropWhile isPySpace) = _
  rw [hdrop, List.rdropWhile_idempotent, hA]
  rfl

theorem pyStrip_idempotent (s : String) : pyStrip (pyStrip s) = pyStrip s := by
  unfold pyStrip
  exact congrArg String.mk (pyStripL_idempotent s.data)

theorem removeCommaDollar_eq_filter (s : String) :
    removeCommaDollar s = String.mk (s.data.filter keepCD) := rfl

theorem isPySpace_keepCD (c : Char) (h : isPySpace c = true) : keepCD c = true := by
  have h6 : c = ' ' ∨ c = '\t' ∨ c = '\n' ∨ c = '\x0d' ∨ c = '\x0c' ∨ c = '\x0b' := by
    simpa [isPySpace, or_assoc] using h
  rcases h6 with h | h | h | h | h | h <;> subst h <;> decide

/-- Dropping leading whitespace before or after the comma/dollar filter
makes no difference to a subsequent leading-whitespace drop. -/
theorem dropWhile_filter_dropWhile (l : List Char) :
    ((l.dropWhile isPySpace).filter keepCD).dropWhile isPySpace
      = (l.filter keepCD).dropWhile isPySpace := by
  induction l with
  | nil => rfl
  | cons c t ih =>
    by_cases hp : isPySpace c = true
    · have hk := isPySpace_keepCD c hp
      have e1 : List.dropWhile isPySpace (c :: t) = List.dropWhile isPySpace t := by
        rw [List.dropWhile_cons, hp]
        simp
      have e2 : List.filter keepCD (c :: t) = c :: List.filter keepCD t := by
        rw [List.filter_cons, hk]
        simp
      have e3 : List.dropWhile isPySpace (c :: List.filter keepCD t)
          = List.dropWhile isPySpace (List.filter keepCD t) := by
        rw [List.dropWhile_cons, hp]
        simp
      rw [e1, e2, e3]
      exact ih
    · have hp2 : isPySpace c = false := eqFalseOfNeTrue _ hp
      have e1 : List.dropWhile isPySpace (c :: t) = c :: t := by
        rw [List.dropWhile_cons, hp2]
        simp
      rw [e1]

theorem rdropWhile_filter_rdropWhile (l : List Char) :
    List.rdropWhile isPySpace ((List.rdropWhile isPySpace l).filter keepCD)
      = List.rdropWhile isPySpace (l.filter keepCD) := by
  unfold List.rdropWhile
  rw [List.filter_reverse]
  rw [List.reverse_reverse]
  rw [← List.filter_reverse]
  rw [dropWhile_filter_dropWhile l.reverse]

/-- Leading and trailing whitespace drops commute. -/
theorem dropWhile_rdropWhile_comm (l : List Char) :
    (List.rdropWhile isPySpace l).dropWhile isPySpace
      = List.rdropWhile isPySpace (l.dropWhile isPySpace) := by
  induction l using List.reverseRecOn with
  | nil => rfl
  | append_singleton t a ih =>
    by_cases hp : isPySpace a = true
    · have e1 : List.rdropWhile isPySpace (t ++ [a]) = List.rdropWhile isPySpace t := by
        rw [List.rdropWhile_concat, hp]
        simp
      rw [e1, ih]
      rw [List.dropWhile_append]
      by_cases he : (t.dropWhile isPySpace).isEmpty = true
      · have ht : t.dropWhile isPySpace = [] := by
          cases hx : List.dropWhile isPySpace t with
          | nil => rfl
          | cons u v => rw [hx] at he; simp at he
        rw [if_pos he, ht, List.rdropWhile_nil]
        have e2 : List.dropWhile isPySpace [a] = [] := by
          rw [List.dropWhile_cons, hp]
          simp
        rw [e2, List.rdropWhile_nil]
      · rw [if_neg he]
        rw [List.rdropWhile_concat, hp]
        try simp
    · have hp2 : isPySpace a = false := eqFalseOfNeTrue _ hp
      have e1 : List.rdropWhile isPySpace (t ++ [a]) = t ++ [a] := by
        rw [List.rdropWhile_concat, hp2]
        simp
      rw [e1]
      rw [List.dropWhile_append]
      by_cases he : (t.dropWhile isPySpace).isEmpty = true
      · rw [if_pos he]
        have e2 : List.dropWhile isPySpace [a] = [a] := by
          rw [List.dropWhile_cons, hp2]
          simp
        rw [e2]
        rw [List.rdropWhile_singleton, hp2]
        try simp
      · rw [if_neg he]
        rw [List.rdropWhile_concat, hp2]
        try simp

theorem pyStripL_eq_rdrop_drop (l : List Char) :
    pyStripL l = List.rdropWhile isPySpace (l.dropWhile isPySpace) := rfl

/-- Stripping before the comma/dollar filter changes nothing after the
final strip: the list form of cleanAmtStr (pyStrip s) = cleanAmtStr s. -/
theorem pyStripL_filter_pyStripL (l : List Char) :
    pyStripL ((pyStripL l).filter keepCD) = pyStripL (l.filter keepCD) := by
  calc pyStripL ((pyStripL l).filter keepCD)
      = List.dropWhile isPySpace (List.rdropWhile isPySpace ((pyStripL l).filter keepCD)) :=
        (dropWhile_rdropWhile_comm _).symm
    _ = List.dropWhile isPySpace
          (List.rdropWhile isPySpace ((l.dropWhile isPySpace).filter keepCD)) := by
        rw [pyStripL_eq_rdrop_drop, rdropWhile_filter_rdropWhile]
    _ = List.rdropWhile isPySpace
          (((l.dropWhile isPySpace).filter keepCD).dropWhile isPySpace) :=
        dropWhile_rdropWhile_comm _
    _ = List.rdropWhile isPySpace ((l.filter keepCD).dropWhile isPySpace) := by
        rw [dropWhile_filter_dropWhile]
    _ = pyStripL (l.filter keepCD) := rfl

/-- cleanAmtStr ignores an earlier strip: the Amount write path and the
Amount coercion path clean identically. -/
theorem cleanAmtStr_pyStrip (s : String) :
    pyStrip (removeCommaDollar (pyStrip s)) = cleanAmtStr s := by
  show String.mk (pyStripL ((pyStripL s.data).filter keepCD))
      = String.mk (pyStripL (s.data.filter keepCD))
  exact congrArg String.mk (pyStripL_filter_pyStripL s.data)

/-! Lemmas about decimal renderings and the date parser. -/

theorem isDigit_ofNat_digit (m : Nat) (hm : m < 10) :
    (Char.ofNat (48 + m)).isDigit = true := by
  interval_cases m <;> decide

theorem natDigitsGo_digits (fuel n : Nat) (c : Char) (h : c ∈ natDigitsGo fuel n) :
    c.isDigit = true := by
  induction fuel generalizing n with
  | zero => simp [natDigitsGo] at h
  | succ f ih =>
    cases n with
    | zero => simp [natDigitsGo] at h
    | succ k =>
      simp only [natDigitsGo] at h
      rcases List.mem_append.mp h with h2 | h2
      · exact ih _ h2
      · rcases List.mem_singleton.mp h2 with rfl
        exact isDigit_ofNat_digit _ (Nat.mod_lt _ (by omega))

theorem natToStr_digits (n : Nat) (c : Char) (h : c ∈ (natToStr n).data) :
    c.isDigit = true := by
  unfold natToStr at h
  by_cases hn : n = 0
  · rw [if_pos hn] at h
    have e : ("0" : String).data = ['0'] := rfl
    rw [e] at h
    rcases List.mem_singleton.mp h with rfl
    decide
  · rw [if_neg hn] at h
    exact natDigitsGo_digits n n c h

theorem isDigit_not_space (c : Char) (h : c.isDigit = true) : isPySpace c = false := by
  by_contra hs
  have hs2 : isPySpace c = true := by
    cases hx : isPySpace c with
    | false => exact absurd hx hs
    | true => rfl
  have h6 : c = ' ' ∨ c = '\t' ∨ c = '\n' ∨ c = '\x0d' ∨ c = '\x0c' ∨ c = '\x0b' := by
    simpa [isPySpace, or_assoc] using hs2
  rcases h6 with h5 | h5 | h5 | h5 | h5 | h5 <;> subst h5 <;> simp at h

theorem parseDateString_empty (s : String) (h : s.data = []) : parseDateString s = none := by
  unfold parseDateString takeDigits
  rw [h]
  simp

theorem parseDateString_head_not_digit (s : String) (c : Char) (t : List Char)
    (hdata : s.data = c :: t) (hc : c.isDigit = false) : parseDateString s = none := by
  unfold parseDateString takeDigits
  rw [hdata]
  simp [List.take_succ_cons, List.all_cons, hc]

theorem pyStrip_of_no_space (s : String) (h : ∀ c ∈ s.data, isPySpace c = false) :
    pyStrip s = s := by
  unfold pyStrip
  rw [pyStripL_of_no_space _ h]

theorem intToStr_nonneg (i : Int) (h : ¬ i < 0) : intToStr i = natToStr i.natAbs := by
  unfold intToStr
  rw [if_neg h]

theorem intToStr_neg (i : Int) (h : i < 0) : intToStr i = "-" ++ natToStr i.natAbs := by
  unfold intToStr
  rw [if_pos h]

theorem ratToStr_nonneg_chars (q : Rat) (h : ¬ q.num < 0) :
    ∀ c ∈ (ratToStr q).data, c.isDigit = true ∨ c = '/' := by
  intro c hc
  unfold ratToStr at hc
  by_cases hd : q.den = 1
  · rw [if_pos hd, intToStr_nonneg _ h] at hc
    exact Or.inl (natToStr_digits _ _ hc)
  · rw [if_neg hd, intToStr_nonneg _ h] at hc
    rw [String.data_append, String.data_append] at hc
    rcases List.mem_append.mp hc with h1 | h1
    · rcases List.mem_append.mp h1 with h2 | h2
      · exact Or.inl (natToStr_digits _ _ h2)
      · have e : ("/" : String).data = ['/'] := rfl
        rw [e] at h2
        rcases List.mem_singleton.mp h2 with rfl
        exact Or.inr rfl
    · exact Or.inl (natToStr_digits _ _ h1)

theorem ratToStr_neg_head (q : Rat) (h : q.num < 0) :
    ∃ t, (ratToStr q).data = '-' :: t := by
  unfold ratToStr
  by_cases hd : q.den = 1
  · rw [if_pos hd, intToStr_neg _ h]
    refine ⟨(natToStr q.num.natAbs).data, ?_⟩
    rw [String.data_append]
    rfl
  · rw [if_neg hd, intToStr_neg _ h]
    refine ⟨(natToStr q.num.natAbs).data ++ ['/'] ++ (natToStr q.den).data, ?_⟩
    rw [String.data_append, String.data_append, String.data_append]
    simp

theorem ratToStr_chars (q : Rat) :
    ∀ c ∈ (ratToStr q).data, c.isDigit = true ∨ c = '/' ∨ c = '-' := by
  intro c hc
  by_cases hneg : q.num < 0
  · unfold ratToStr at hc
    by_cases hd : q.den = 1
    · rw [if_pos hd, intToStr_neg _ hneg, String.data_append] at hc
      rcases List.mem_append.mp hc with h1 | h1
      · have e : ("-" : String).data = ['-'] := rfl
        rw [e] at h1
        rcases List.mem_singleton.mp h1 with rfl
        exact Or.inr (Or.inr rfl)
      · exact Or.inl (natToStr_digits _ _ h1)
    · rw [if_neg hd, intToStr_neg _ hneg] at hc
      rw [String.data_append, String.data_append, String.data_append] at hc
      rcases List.mem_append.mp hc with h1 | h1
      · rcases List.mem_append.mp h1 with h2 | h2
        · rcases List.mem_append.mp h2 with h3 | h3
          · have e : ("-" : String).data = ['-'] := rfl
            rw [e] at h3
            rcases List.mem_singleton.mp h3 with rfl
            exact Or.inr (Or.inr rfl)
          · exact Or.inl (natToStr_digits _ _ h3)
        · have e : ("/" : String).data = ['/'] := rfl
          rw [e] at h2
          rcases List.mem_singleton.mp h2 with rfl
          exact Or.inr (Or.inl rfl)
      · exact Or.inl (natToStr_digits _ _ h1)
  · rcases ratToStr_nonneg_chars q hneg c hc with h1 | h1
    · exact Or.inl h1
    · exact Or.inr (Or.inl h1)

theorem ratToStr_no_space (q : Rat) :
    ∀ c ∈ (ratToStr q).data, isPySpace c = false := by
  intro c hc
  rcases ratToStr_chars q c hc with h1 | h1 | h1
  · exact isDigit_not_space c h1
  · subst h1; decide
  · subst h1; decide

/-! Key-builder lemmas. -/

/-- The two key builders normalize each position identically (claim C2,
pointwise form): the source duplicates the normalization code verbatim. -/
theorem makeRowKeyPart_eq_existingKeyPart (f : String) (v : Value) :
    makeRowKeyPart f v = existingKeyPart f v := rfl

theorem existingKeyPart_vnone (f : String) :
    existingKeyPart f Value.vnone = Value.vnone := rfl

theorem existingKeyPart_date (v : Value) (hv : v ≠ Value.vnone) :
    existingKeyPart "Purchase Date" v =
      (match pdToDatetime v with
       | none => Value.vnone
       | some d => Value.vdate (truncSeconds d)) := by
  unfold existingKeyPart
  rw [if_neg hv, if_pos rfl]

theorem existingKeyPart_amt (v : Value) (hv : v ≠ Value.vnone) :
    existingKeyPart "PURCHASE_AMT" v =
      (match parseFloat (cleanAmtStr (valToStr v)) with
       | some q => Value.vnum q
       | none => v) := by
  unfold existingKeyPart
  rw [if_neg hv, if_neg (by decide), if_pos rfl]

theorem existingKeyPart_other (f : String) (hf1 : f ≠ "Purchase Date")
    (hf2 : f ≠ "PURCHASE_AMT") (v : Value) (hv : v ≠ Value.vnone) :
    existingKeyPart f v =
      (match v with
       | Value.vstr s => Value.vstr (pyStrip s)
       | x => x) := by
  unfold existingKeyPart
  rw [if_neg hv, if_neg hf1, if_neg hf2]
  cases v <;> rfl

/-- Generic key positions (not date, not amount) are unaffected by the
Excel write coercion: stripping is idempotent. -/
theorem keyPart_coerce (f : String) (hf1 : f ≠ "Purchase Date") (hf2 : f ≠ "PURCHASE_AMT")
    (v : Value) : existingKeyPart f (coerceForExcel v) = existingKeyPart f v := by
  cases v with
  | vnone => rfl
  | vnum q => rfl
  | vdate d => rfl
  | vstr s =>
    show existingKeyPart f (Value.vstr (pyStrip s)) = existingKeyPart f (Value.vstr s)
    rw [existingKeyPart_other f hf1 hf2 _ (by simp), existingKeyPart_other f hf1 hf2 _ (by simp)]
    show Value.vstr (pyStrip (pyStrip s)) = Value.vstr (pyStrip s)
    rw [pyStrip_idempotent]

theorem writeVal_generic (m : String) (hm1 : m ≠ "Amount") (hm2 : m ≠ "Purchase Date")
    (v : Value) : writeVal m v = coerceForExcel v := by
  unfold writeVal
  simp only [hm1, hm2, if_false]

theorem truncSeconds_idem (d : PyDateTime) : truncSeconds (truncSeconds d) = truncSeconds d := rfl

/-- A written Purchase Date cell is always None or a datetime, never a
number: the write loop routes the value through pd.to_datetime. -/
theorem writeVal_date_not_num (v : Value) (q : Rat) :
    writeVal "Purchase Date" v ≠ Value.vnum q := by
  unfold writeVal
  simp only [show ("Purchase Date" = "Amount") = False by simp, if_false, if_pos rfl]
  cases pdToDatetime (coerceForExcel v) <;> simp

/-- The Purchase Date key position of a written cell matches the key
position of the monthly value it was written from. -/
theorem keyPart_date_write (v : Value) :
    existingKeyPart "Purchase Date" (writeVal "Purchase Date" v)
      = existingKeyPart "Purchase Date" v := by
  have hw : writeVal "Purchase Date" v =
      (match pdToDatetime (coerceForExcel v) with
       | none => Value.vnone
       | some d => Value.vdate (truncSeconds d)) := by
    unfold writeVal
    simp
  have hpd : pdToDatetime (coerceForExcel v) = pdToDatetime v := by
    cases v with
    | vnone => rfl
    | vnum q => rfl
    | vdate d => rfl
    | vstr s =>
      show parseDateString (pyStrip (pyStrip s)) = parseDateString (pyStrip s)
      rw [pyStrip_idempotent]
  rw [hw, hpd]
  cases hv : pdToDatetime v with
  | none =>
    show existingKeyPart "Purchase Date" Value.vnone = _
    rw [existingKeyPart_vnone]
    cases v with
    | vnone => rfl
    | vstr s =>
      rw [existingKeyPart_date _ (by simp), hv]
    | vnum q =>
      rw [existingKeyPart_date _ (by simp), hv]
    | vdate d =>
      exact absurd hv (by simp [pdToDatetime])
  | some d =>
    show existingKeyPart "Purchase Date" (Value.vdate (truncSeconds d)) = _
    rw [existingKeyPart_date _ (by simp)]
    have h1 : pdToDatetime (Value.vdate (truncSeconds d)) = some (truncSeconds d) := rfl
    rw [h1]
    show Value.vdate (truncSeconds (truncSeconds d)) = _
    rw [truncSeconds_idem]
    have hvne : v ≠ Value.vnone := by
      intro he
      rw [he] at hv
      cases hv
    rw [existingKeyPart_date _ hvne, hv]

theorem writeVal_amount_str (s : String) :
    writeVal "Amount" (Value.vstr s) =
      (match parseFloat (cleanAmtStr s) with
       | some q => Value.vnum q
       | none => Value.vstr (cleanAmtStr s)) := by
  unfold writeVal
  simp only [coerceForExcel, if_pos rfl,
    if_neg (by decide : ¬("Amount" : String) = "Purchase Date")]
  rw [cleanAmtStr_pyStrip]
  simp

/-- The PURCHASE_AMT key position of a written Amount cell matches the key
position of the coerced monthly amount, whenever the amount is empty,
numeric, or numeric-parseable text. -/
theorem keyPart_amt_write (v : Value) (hok : amountValOk v = true) :
    existingKeyPart "PURCHASE_AMT" (writeVal "Amount" v)
      = existingKeyPart "PURCHASE_AMT" (toNumericCleaned v) := by
  cases v with
  | vnone => rfl
  | vnum q => rfl
  | vdate d => exact absurd hok (by simp [amountValOk])
  | vstr s =>
    have hsome : (parseFloat (cleanAmtStr s)).isSome = true := by
      simpa [amountValOk] using hok
    obtain ⟨q, hq⟩ := Option.isSome_iff_exists.mp hsome
    have hw2 : writeVal "Amount" (Value.vstr s) = Value.vnum q := by
      rw [writeVal_amount_str, hq]
    have hn : toNumericCleaned (Value.vstr s) = Value.vnum q := by
      show (match parseFloat (cleanAmtStr s) with
        | some q2 => Value.vnum q2
        | none => Value.vnone) = Value.vnum q
      rw [hq]
    rw [hw2, hn]

/-! Write-loop lemmas. -/

theorem writeCells_sheet_bool_free (resolved : List (String × Nat)) (cols : List String)
    (row : List Value) (target : Nat) (s0 : Sheet) (b : Bool) :
    (resolved.foldl
      (fun acc mc =>
        let val := writeVal mc.1 (dfGet cols row mc.1)
        (setCell acc.1 target mc.2 val, acc.2 || (val ≠ Value.vnone)))
      (s0, b)).1 = (writeCells resolved cols row target s0).1 := by
  induction resolved generalizing s0 b with
  | nil => rfl
  | cons mc rest ih =>
    unfold writeCells
    simp only [List.foldl_cons]
    exact (ih _ _).trans (ih _ _).symm

theorem writeCells_cons_sheet (mc : String × Nat) (rest : List (String × Nat))
    (cols : List String) (row : List Value) (target : Nat) (s0 : Sheet) :
    (writeCells (mc :: rest) cols row target s0).1 =
      (writeCells rest cols row target
        (setCell s0 target mc.2 (writeVal mc.1 (dfGet cols row mc.1)))).1 := by
  unfold writeCells
  simp only [List.foldl_cons]
  exact writeCells_sheet_bool_free rest cols row target _ _

theorem writeCells_hasAny (resolved : List (String × Nat)) (cols : List String)
    (row : List Value) (target : Nat) (s0 : Sheet) :
    (writeCells resolved cols row target s0).2 = rowHasAny resolved cols row := by
  have h : ∀ (l : List (String × Nat)) (s : Sheet) (b : Bool),
      (l.foldl
        (fun acc mc =>
          let val := writeVal mc.1 (dfGet cols row mc.1)
          (setCell acc.1 target mc.2 val, acc.2 || (val ≠ Value.vnone)))
        (s, b)).2 = (b || rowHasAny l cols row) := by
    intro l
    induction l with
    | nil =>
      intro s b
      simp [rowHasAny]
    | cons mc rest ih =>
      intro s b
      simp only [List.foldl_cons]
      rw [ih]
      simp [rowHasAny, List.any_cons, Bool.or_assoc]
  have h2 := h resolved s0 false
  unfold writeCells
  rw [h2]
  simp

theorem writeCells_getCell_other (resolved : List (String × Nat)) (cols : List String)
    (row : List Value) (target : Nat) (s0 : Sheet) (r2 c2 : Nat)
    (htgt : 1 ≤ target) (hr2 : 1 ≤ r2) (hc2 : 1 ≤ c2)
    (hpos : ∀ mc ∈ resolved, 1 ≤ mc.2)
    (hmiss : r2 ≠ target ∨ c2 ∉ resolved.map Prod.snd) :
    getCell (writeCells resolved cols row target s0).1 r2 c2 = getCell s0 r2 c2 := by
  induction resolved generalizing s0 with
  | nil => rfl
  | cons mc rest ih =>
    rw [writeCells_cons_sheet]
    have hstep : getCell (setCell s0 target mc.2 (writeVal mc.1 (dfGet cols row mc.1))) r2 c2
        = getCell s0 r2 c2 := by
      apply getCell_setCell_ne _ _ _ _ _ _ htgt (hpos mc (List.mem_cons_self mc rest)) hr2 hc2
      rcases hmiss with h | h
      · exact Or.inl h
      · right
        intro he
        exact h (by rw [he]; exact List.mem_cons_self _ _)
    rw [← hstep]
    apply ih
    · intro mc2 hm
      exact hpos mc2 (List.mem_cons_of_mem mc hm)
    · rcases hmiss with h | h
      · exact Or.inl h
      · right
        intro he
        exact h (List.mem_cons_of_mem _ he)

theorem writeCells_getCell_hit (resolved : List (String × Nat)) (cols : List String)
    (row : List Value) (target : Nat) (s0 : Sheet) (m : String) (c : Nat)
    (htgt : 1 ≤ target)
    (hpos : ∀ mc ∈ resolved, 1 ≤ mc.2)
    (hnodup : (resolved.map Prod.snd).Nodup)
    (hmem : (m, c) ∈ resolved) :
    getCell (writeCells resolved cols row target s0).1 target c
      = writeVal m (dfGet cols row m) := by
  induction resolved generalizing s0 with
  | nil => cases hmem
  | cons mc rest ih =>
    rw [writeCells_cons_sheet]
    rcases List.mem_cons.mp hmem with heq | hmem2
    · subst heq
      have hnotin : c ∉ rest.map Prod.snd := by
        have := hnodup
        simp only [List.map_cons, List.nodup_cons] at this
        exact this.1
      rw [writeCells_getCell_other rest cols row target _ target c htgt htgt
        (hpos (m, c) (List.mem_cons_self _ _)) (fun mc2 hm => hpos mc2 (List.mem_cons_of_mem _ hm))
        (Or.inr hnotin)]
      exact getCell_setCell_self _ _ _ _ htgt (hpos (m, c) (List.mem_cons_self _ _))
    · apply ih _ (fun mc2 hm => hpos mc2 (List.mem_cons_of_mem _ hm)) _ hmem2
      have := hnodup
      simp only [List.map_cons, List.nodup_cons] at this
      exact this.2

theorem processRow_dup (resolved : List (String × Nat)) (cols : List String)
    (startRow : Nat) (st : LoopState) (row : List Value)
    (h : makeRowKey cols row ∈ st.keys) :
    processRow resolved cols startRow st row = { st with dups := st.dups + 1 } := by
  unfold processRow
  rw [if_pos h]

theorem processRow_new_hasAny (resolved : List (String × Nat)) (cols : List String)
    (startRow : Nat) (st : LoopState) (row : List Value)
    (h1 : makeRowKey cols row ∉ st.keys) (h2 : rowHasAny resolved cols row = true) :
    processRow resolved cols startRow st row =
      LoopState.mk (writeCells resolved cols row (startRow + st.written) st.sheet).1
        (st.written + 1) st.dups (makeRowKey cols row :: st.keys) := by
  unfold processRow
  rw [if_neg h1]
  simp only [writeCells_hasAny, h2, if_true]

theorem processRow_new_empty (resolved : List (String × Nat)) (cols : List String)
    (startRow : Nat) (st : LoopState) (row : List Value)
    (h1 : makeRowKey cols row ∉ st.keys) (h2 : rowHasAny resolved cols row = false) :
    processRow resolved cols startRow st row =
      { st with sheet := (writeCells resolved cols row (startRow + st.written) st.sheet).1 } := by
  unfold processRow
  rw [if_neg h1]
  simp only [writeCells_hasAny, h2, Bool.false_eq_true, if_false]

theorem processRow_keys_mono (resolved : List (String × Nat)) (cols : List String)
    (startRow : Nat) (st : LoopState) (row : List Value) (k : List Value)
    (h : k ∈ st.keys) : k ∈ (processRow resolved cols startRow st row).keys := by
  unfold processRow
  by_cases hd : makeRowKey cols row ∈ st.keys
  · rw [if_pos hd]
    exact h
  · rw [if_neg hd]
    by_cases hw : (writeCells resolved cols row (startRow + st.written) st.sheet).2 = true
    · simp only [hw, if_true]
      exact List.mem_cons_of_mem _ h
    · simp only [eqFalseOfNeTrue _ hw, Bool.false_eq_true, if_false]
      exact h

theorem foldl_processRow_keys_mono (resolved : List (String × Nat)) (cols : List String)
    (startRow : Nat) (l : List (List Value)) (st : LoopState) (k : List Value)
    (h : k ∈ st.keys) :
    k ∈ (l.foldl (processRow resolved cols startRow) st).keys := by
  induction l generalizing st with
  | nil => exact h
  | cons row rest ih =>
    exact ih _ (processRow_keys_mono resolved cols startRow st row k h)

theorem processRow_mem_keys (resolved : List (String × Nat)) (cols : List String)
    (startRow : Nat) (st : LoopState) (row : List Value)
    (h2 : rowHasAny resolved cols row = true) :
    makeRowKey cols row ∈ (processRow resolved cols startRow st row).keys := by
  by_cases hd : makeRowKey cols row ∈ st.keys
  · rw [processRow_dup _ _ _ _ _ hd]
    exact hd
  · rw [processRow_new_hasAny _ _ _ _ _ hd h2]
    exact List.mem_cons_self _ _

theorem foldl_processRow_mem_keys (resolved : List (String × Nat)) (cols : List String)
    (startRow : Nat) (l : List (List Value)) (st : LoopState)
    (hall : ∀ row ∈ l, rowHasAny resolved cols row = true) (row : List Value) (hrow : row ∈ l) :
    makeRowKey cols row ∈ (l.foldl (processRow resolved cols startRow) st).keys := by
  induction l generalizing st with
  | nil => cases hrow
  | cons r0 rest ih =>
    simp only [List.foldl_cons]
    rcases List.mem_cons.mp hrow with heq | hmem
    · subst heq
      exact foldl_processRow_keys_mono _ _ _ rest _ _
        (processRow_mem_keys _ _ _ _ _ (hall row (List.mem_cons_self _ _)))
    · exact ih _ (fun r2 hm => hall r2 (List.mem_cons_of_mem _ hm)) hmem

/-- If every row key is already known, the loop only counts duplicates:
no row is written and the duplicate counter ends at the batch size. -/
theorem foldl_processRow_all_dup (resolved : List (String × Nat)) (cols : List String)
    (startRow : Nat) (l : List (List Value)) (st : LoopState)
    (hall : ∀ row ∈ l, makeRowKey cols row ∈ st.keys) :
    l.foldl (processRow resolved cols startRow) st =
      { st with dups := st.dups + l.length } := by
  induction l generalizing st with
  | nil => simp
  | cons r0 rest ih =>
    simp only [List.foldl_cons]
    rw [processRow_dup _ _ _ _ _ (hall r0 (List.mem_cons_self _ _))]
    rw [ih]
    · simp only [List.length_cons]
      congr 1
      omega
    · intro row hm
      exact hall row (List.mem_cons_of_mem _ hm)

theorem writeCells_grid_length_mono (resolved : List (String × Nat)) (cols : List String)
    (row : List Value) (target : Nat) (s0 : Sheet) (htgt : 1 ≤ target) :
    s0.grid.length ≤ (writeCells resolved cols row target s0).1.grid.length := by
  induction resolved generalizing s0 with
  | nil => exact Nat.le_refl _
  | cons mc rest ih =>
    rw [writeCells_cons_sheet]
    refine Nat.le_trans ?_ (ih _)
    rw [grid_length_setCell _ _ _ _ htgt]
    omega

theorem writeCells_grid_length_target (resolved : List (String × Nat)) (cols : List String)
    (row : List Value) (target : Nat) (s0 : Sheet) (htgt : 1 ≤ target)
    (hne : resolved ≠ []) :
    target ≤ (writeCells resolved cols row target s0).1.grid.length := by
  cases resolved with
  | nil => exact absurd rfl hne
  | cons mc rest =>
    rw [writeCells_cons_sheet]
    refine Nat.le_trans ?_ (writeCells_grid_length_mono rest cols row target _ htgt)
    rw [grid_length_setCell _ _ _ _ htgt]
    omega

theorem writeCells_headers (resolved : List (String × Nat)) (cols : List String)
    (row : List Value) (target : Nat) (s0 : Sheet) (htgt : 2 ≤ target) :
    headers (writeCells resolved cols row target s0).1 = headers s0 := by
  induction resolved generalizing s0 with
  | nil => rfl
  | cons mc rest ih =>
    rw [writeCells_cons_sheet, ih, headers_setCell _ _ _ _ htgt]

theorem loopInv_init (ws0 : Sheet) (resolved : List (String × Nat)) (cols : List String)
    (start tc : Nat) (keys0 : List (List Value)) (src : List (List Value))
    (hblank : ∀ r c, start ≤ r → 1 ≤ c → c ≤ tc → getCell ws0 r c = Value.vnone) :
    LoopInv ws0 resolved cols start tc keys0 src [] (LoopState.mk ws0 0 0 keys0) := by
  refine ⟨?_, ?_, rfl, ?_, ?_, ?_, rfl, Nat.le_refl _, Or.inl rfl, rfl,
    fun a ha => absurd ha (List.not_mem_nil a)⟩
  · intro r c h1 h2 h3
    rfl
  · intro r c h1 h2 h3
    exact hblank r c (by omega) h2 h3
  · intro k hk
    exact (Nat.not_lt_zero k hk).elim
  · intro k hk
    exact (Nat.not_lt_zero k hk).elim
  · intro k hk
    exact (Nat.not_lt_zero k hk).elim

theorem loopInv_step (ws0 : Sheet) (resolved : List (String × Nat)) (cols : List String)
    (start tc : Nat) (keys0 : List (List Value)) (src : List (List Value))
    (accepted : List (List Value)) (st : LoopState) (row : List Value)
    (hrow : row ∈ src)
    (hstart : 2 ≤ start)
    (hpos : ∀ mc ∈ resolved, 1 ≤ mc.2 ∧ mc.2 ≤ tc)
    (hnodup : (resolved.map Prod.snd).Nodup)
    (I : LoopInv ws0 resolved cols start tc keys0 src accepted st) :
    ∃ acc2, LoopInv ws0 resolved cols start tc keys0 src acc2
      (processRow resolved cols start st row) := by
  have hposl : ∀ mc ∈ resolved, 1 ≤ mc.2 := fun mc hm => (hpos mc hm).1
  have hlen := I.acc_len
  by_cases hd : makeRowKey cols row ∈ st.keys
  · rw [processRow_dup _ _ _ _ _ hd]
    exact ⟨accepted, I.low, I.high, I.acc_len, I.acc_cells, I.acc_blank, I.acc_any,
      I.keys_eq, I.glen, I.glen2, I.hdr, I.acc_src⟩
  · by_cases hw : rowHasAny resolved cols row = true
    · rw [processRow_new_hasAny _ _ _ _ _ hd hw]
      have hne : resolved ≠ [] := by
        intro hE
        rw [hE] at hw
        simp [rowHasAny] at hw
      refine ⟨accepted ++ [row], ?_, ?_, ?_, ?_, ?_, ?_, ?_, ?_, ?_, ?_, ?_⟩
      · intro r c h1 h2 h3
        rw [writeCells_getCell_other resolved cols row _ _ r c (by omega) h1 h3 hposl
          (Or.inl (by omega))]
        exact I.low r c h1 h2 h3
      · intro r c h1 h2 h3
        have h1b : start + (st.written + 1) ≤ r := h1
        rw [writeCells_getCell_other resolved cols row _ _ r c (by omega) (by omega) h2 hposl
          (Or.inl (by omega))]
        exact I.high r c (by omega) h2 h3
      · simp [hlen]
      · intro k hk mc hm
        have hkb : k < st.written + 1 := hk
        rcases Nat.lt_or_ge k st.written with hklt | hkge
        · rw [writeCells_getCell_other resolved cols row _ _ _ _ (by omega) (by omega)
            (hposl mc hm) hposl (Or.inl (by omega))]
          rw [I.acc_cells k hklt mc hm]
          rw [List.getD_append _ _ _ _ (by omega : k < accepted.length)]
        · have hkeq : k = st.written := by omega
          subst hkeq
          rw [writeCells_getCell_hit resolved cols row _ _ mc.1 mc.2 (by omega) hposl hnodup hm]
          have hgd : (accepted ++ [row]).getD st.written [] = row := by
            rw [List.getD_append_right _ _ _ _ (by omega : accepted.length ≤ st.written)]
            have he0 : st.written - accepted.length = 0 := by omega
            rw [he0]
            rfl
          rw [hgd]
      · intro k hk c h1 h2 h3
        have hkb : k < st.written + 1 := hk
        rcases Nat.lt_or_ge k st.written with hklt | hkge
        · rw [writeCells_getCell_other resolved cols row _ _ _ _ (by omega) (by omega) h1 hposl
            (Or.inl (by omega))]
          exact I.acc_blank k hklt c h1 h2 h3
        · have hkeq : k = st.written := by omega
          subst hkeq
          rw [writeCells_getCell_other resolved cols row _ _ _ _ (by omega) (by omega) h1 hposl
            (Or.inr h3)]
          exact I.high _ c (by omega) h1 h2
      · intro k hk
        have hkb : k < st.written + 1 := hk
        rcases Nat.lt_or_ge k st.written with hklt | hkge
        · rw [List.getD_append _ _ _ _ (by omega : k < accepted.length)]
          exact I.acc_any k hklt
        · have hkeq : k = st.written := by omega
          subst hkeq
          have hgd : (accepted ++ [row]).getD st.written [] = row := by
            rw [List.getD_append_right _ _ _ _ (by omega : accepted.length ≤ st.written)]
            have he0 : st.written - accepted.length = 0 := by omega
            rw [he0]
            rfl
          rw [hgd]
          exact hw
      · show makeRowKey cols row :: st.keys = _
        rw [I.keys_eq]
        simp
      · exact Nat.le_trans I.glen (writeCells_grid_length_mono resolved cols row _ _ (by omega))
      · right
        have := writeCells_grid_length_target resolved cols row (start + st.written) st.sheet
          (by omega) hne
        show start + (st.written + 1) - 1 ≤
          (writeCells resolved cols row (start + st.written) st.sheet).1.grid.length
        omega
      · rw [writeCells_headers resolved cols row _ _ (by omega)]
        exact I.hdr
      · intro a ha
        rcases List.mem_append.mp ha with h1 | h1
        · exact I.acc_src a h1
        · rw [List.mem_singleton.mp h1]
          exact hrow
    · have hw2 : rowHasAny resolved cols row = false := eqFalseOfNeTrue _ hw
      rw [processRow_new_empty _ _ _ _ _ hd hw2]
      have hall : ∀ mc ∈ resolved, writeVal mc.1 (dfGet cols row mc.1) = Value.vnone := by
        intro mc hm
        have hx := (List.any_eq_false.mp hw2) mc hm
        simpa using hx
      refine ⟨accepted, ?_, ?_, I.acc_len, ?_, ?_, I.acc_any, I.keys_eq, ?_, ?_, ?_,
        I.acc_src⟩
      · intro r c h1 h2 h3
        rw [writeCells_getCell_other resolved cols row _ _ r c (by omega) h1 h3 hposl
          (Or.inl (by omega))]
        exact I.low r c h1 h2 h3
      · intro r c h1 h2 h3
        have h1b : start + st.written ≤ r := h1
        by_cases hrt : r = start + st.written
        · subst hrt
          by_cases hcin : c ∈ resolved.map Prod.snd
          · obtain ⟨mc, hm, hmc2⟩ := List.mem_map.mp hcin
            rw [← hmc2]
            rw [writeCells_getCell_hit resolved cols row _ _ mc.1 mc.2 (by omega) hposl hnodup hm]
            exact hall mc hm
          · rw [writeCells_getCell_other resolved cols row _ _ _ _ (by omega) (by omega) h2 hposl
              (Or.inr hcin)]
            exact I.high _ c (by omega) h2 h3
        · rw [writeCells_getCell_other resolved cols row _ _ r c (by omega) (by omega) h2 hposl
            (Or.inl hrt)]
          exact I.high r c h1 h2 h3
      · intro k hk mc hm
        have hkb : k < st.written := hk
        rw [writeCells_getCell_other resolved cols row _ _ _ _ (by omega) (by omega)
          (hposl mc hm) hposl (Or.inl (by omega))]
        exact I.acc_cells k hkb mc hm
      · intro k hk c h1 h2 h3
        have hkb : k < st.written := hk
        rw [writeCells_getCell_other resolved cols row _ _ _ _ (by omega) (by omega) h1 hposl
          (Or.inl (by omega))]
        exact I.acc_blank k hkb c h1 h2 h3
      · exact Nat.le_trans I.glen (writeCells_grid_length_mono resolved cols row _ _ (by omega))
      · rcases I.glen2 with h | h
        · exact Or.inl h
        · right
          exact Nat.le_trans h (writeCells_grid_length_mono resolved cols row _ _ (by omega))
      · rw [writeCells_headers resolved cols row _ _ (by omega)]
        exact I.hdr

theorem loopInv_foldl (ws0 : Sheet) (resolved : List (String × Nat)) (cols : List String)
    (start tc : Nat) (keys0 : List (List Value)) (src : List (List Value))
    (l : List (List Value))
    (accepted : List (List Value)) (st : LoopState)
    (hsrc : ∀ row ∈ l, row ∈ src)
    (hstart : 2 ≤ start)
    (hpos : ∀ mc ∈ resolved, 1 ≤ mc.2 ∧ mc.2 ≤ tc)
    (hnodup : (resolved.map Prod.snd).Nodup)
    (I : LoopInv ws0 resolved cols start tc keys0 src accepted st) :
    ∃ acc2, LoopInv ws0 resolved cols start tc keys0 src acc2
      (l.foldl (processRow resolved cols start) st) := by
  induction l generalizing accepted st with
  | nil => exact ⟨accepted, I⟩
  | cons r0 rest ih =>
    simp only [List.foldl_cons]
    obtain ⟨acc2, I2⟩ := loopInv_step ws0 resolved cols start tc keys0 src accepted st r0
      (hsrc r0 (List.mem_cons_self r0 rest)) hstart hpos hnodup I
    exact ih acc2 _ (fun row hm => hsrc row (List.mem_cons_of_mem _ hm)) I2

/-! Lemmas about the last-used-row scan. -/

theorem lastFold_step (P : Nat → Bool) (init r : Nat) (t : List Nat) :
    lastFold P init (r :: t) = lastFold P (if P r = true then r else init) t := rfl

theorem lastFold_all_false (P : Nat → Bool) (init : Nat) (l : List Nat)
    (h : ∀ r ∈ l, P r = false) : lastFold P init l = init := by
  induction l generalizing init with
  | nil => rfl
  | cons r t ih =>
    rw [lastFold_step]
    rw [h r (List.mem_cons_self r t)]
    simp only [Bool.false_eq_true, if_false]
    exact ih init (fun r2 hm => h r2 (List.mem_cons_of_mem _ hm))

theorem lastFold_cases (P : Nat → Bool) (init : Nat) (l : List Nat) :
    lastFold P init l = init ∨
      (lastFold P init l ∈ l ∧ P (lastFold P init l) = true) := by
  induction l generalizing init with
  | nil => exact Or.inl rfl
  | cons r t ih =>
    rw [lastFold_step]
    by_cases hp : P r = true
    · rw [if_pos hp]
      rcases ih r with h2 | h2
      · rw [h2]
        exact Or.inr ⟨List.mem_cons_self _ _, hp⟩
      · exact Or.inr ⟨List.mem_cons_of_mem _ h2.1, h2.2⟩
    · rw [if_neg hp]
      rcases ih init with h2 | h2
      · exact Or.inl h2
      · exact Or.inr ⟨List.mem_cons_of_mem _ h2.1, h2.2⟩

theorem lastFold_ge (P : Nat → Bool) (init : Nat) (a n r : Nat)
    (hr : r ∈ List.range' a n) (hP : P r = true) :
    r ≤ lastFold P init (List.range' a n) := by
  induction n generalizing a init with
  | zero => cases hr
  | succ m ih =>
    rw [show List.range' a (m + 1) = a :: List.range' (a + 1) m from rfl] at hr ⊢
    rw [lastFold_step]
    rcases List.mem_cons.mp hr with heq | hmem
    · subst heq
      rw [if_pos hP]
      rcases lastFold_cases P r (List.range' (r + 1) m) with h2 | h2
      · rw [h2]
      · have hb := (List.mem_range'_1.mp h2.1).1
        omega
    · exact ih _ _ hmem

theorem lastFold_concat (P : Nat → Bool) (init : Nat) (l : List Nat) (b : Nat) :
    lastFold P init (l ++ [b]) = if P b then b else lastFold P init l := by
  unfold lastFold
  rw [List.foldl_append]
  rfl

/-- Full determination of the scan: if M is the last row satisfying P in
2..(1+n) (or 1 when none does), the scan returns M. -/
theorem lastFold_determined (P : Nat → Bool) (n M : Nat)
    (h1 : 2 ≤ M → M < 2 + n ∧ P M = true)
    (h2 : ∀ r, 2 ≤ r → r < 2 + n → M < r → P r = false)
    (h3 : M = 1 ∨ 2 ≤ M) :
    lastFold P 1 (List.range' 2 n) = M := by
  rcases h3 with hM1 | hM2
  · subst hM1
    apply lastFold_all_false
    intro r hr
    have hb := List.mem_range'_1.mp hr
    exact h2 r (by omega) (by omega) (by omega)
  · obtain ⟨hMlt, hMP⟩ := h1 hM2
    have hsplit : List.range' 2 n
        = List.range' 2 (M - 1) ++ List.range' (M + 1) (n - (M - 1)) := by
      have h4 := List.range'_append 2 (M - 1) (n - (M - 1)) 1
      simp only [one_mul] at h4
      have he : 2 + (M - 1) = M + 1 := by omega
      rw [he] at h4
      rw [h4]
      congr 1
      omega
    have hsplit2 : List.range' 2 (M - 1) = List.range' 2 (M - 2) ++ [M] := by
      have h4 := List.range'_append 2 (M - 2) 1 1
      simp only [one_mul] at h4
      have he : 2 + (M - 2) = M := by omega
      rw [he] at h4
      have he2 : List.range' M 1 = [M] := rfl
      rw [he2] at h4
      rw [h4]
      congr 1
      omega
    rw [hsplit]
    unfold lastFold
    rw [List.foldl_append]
    have hfirst : lastFold P 1 (List.range' 2 (M - 1)) = M := by
      rw [hsplit2, lastFold_concat, if_pos hMP]
    show lastFold P (lastFold P 1 (List.range' 2 (M - 1))) (List.range' (M + 1) (n - (M - 1))) = M
    rw [hfirst]
    apply lastFold_all_false
    intro r hr
    have hb := List.mem_range'_1.mp hr
    exact h2 r (by omega) (by omega) (by omega)

theorem getCell_out_of_grid (ws : Sheet) (r c : Nat) (h : ws.grid.length < r) :
    getCell ws r c = Value.vnone := by
  unfold getCell
  rw [List.getD_eq_default _ _ (by omega : ws.grid.length ≤ r - 1)]
  rfl

theorem lastUsedRow_eq_lastFold (ws : Sheet) :
    (lastUsedRow ws).1 = lastFold (fun r2 => rowNonblank ws r2 (headerWidth ws)) 1
      (List.range' 2 (maxRow ws - 1)) := rfl

theorem lastUsedRow_snd (ws : Sheet) : (lastUsedRow ws).2 = headerWidth ws := rfl

theorem lastUsedRow_pos (ws : Sheet) : 1 ≤ (lastUsedRow ws).1 := by
  rw [lastUsedRow_eq_lastFold]
  rcases lastFold_cases (fun r2 => rowNonblank ws r2 (headerWidth ws)) 1
    (List.range' 2 (maxRow ws - 1)) with h | h
  · rw [h]
  · have hb := (List.mem_range'_1.mp h.1).1
    omega

theorem lastUsedRow_le_maxRow (ws : Sheet) : (lastUsedRow ws).1 ≤ maxRow ws := by
  rw [lastUsedRow_eq_lastFold]
  rcases lastFold_cases (fun r2 => rowNonblank ws r2 (headerWidth ws)) 1
    (List.range' 2 (maxRow ws - 1)) with h | h
  · rw [h]
    exact Nat.le_max_right _ _
  · have hb := (List.mem_range'_1.mp h.1).2
    have h1m : 1 ≤ maxRow ws := Nat.le_max_right _ _
    omega

/-- Rows past the last used row are blank within the scanned width. -/
theorem lastUsedRow_blank_above (ws : Sheet) (r c : Nat)
    (hr : (lastUsedRow ws).1 < r) (hc1 : 1 ≤ c) (hc2 : c ≤ (lastUsedRow ws).2) :
    getCell ws r c = Value.vnone := by
  rcases Nat.lt_or_ge (maxRow ws) r with hout | hin
  · apply getCell_out_of_grid
    have h5 : ws.grid.length ≤ maxRow ws := Nat.le_max_left _ _
    omega
  · have hlast1 := lastUsedRow_pos ws
    have h2r : 2 ≤ r := by omega
    have hmem : r ∈ List.range' 2 (maxRow ws - 1) := by
      rw [List.mem_range'_1]
      have h1m : 1 ≤ maxRow ws := Nat.le_max_right _ _
      omega
    have hnb : rowNonblank ws r (headerWidth ws) = false := by
      cases hx : rowNonblank ws r (headerWidth ws) with
      | false => rfl
      | true =>
        exfalso
        have hge := lastFold_ge (fun r2 => rowNonblank ws r2 (headerWidth ws)) 1 2
          (maxRow ws - 1) r hmem hx
        have he := lastUsedRow_eq_lastFold ws
        omega
    unfold rowNonblank at hnb
    have hall := List.any_eq_false.mp hnb
    have hcm : c ∈ List.range' 1 (headerWidth ws) := by
      rw [List.mem_range'_1]
      have he := lastUsedRow_snd ws
      omega
    have hc3 := hall c hcm
    simpa using hc3

/-! Header lookup and column resolution lemmas. -/

theorem foldl_max_ge_init (l : List Nat) (a : Nat) : a ≤ l.foldl max a := by
  induction l generalizing a with
  | nil => exact Nat.le_refl _
  | cons x t ih =>
    simp only [List.foldl_cons]
    exact Nat.le_trans (Nat.le_max_left a x) (ih _)

theorem foldl_max_ge (l : List Nat) (a x : Nat) (h : x ∈ l) : x ≤ l.foldl max a := by
  induction l generalizing a with
  | nil => cases h
  | cons y t ih =>
    simp only [List.foldl_cons]
    rcases List.mem_cons.mp h with heq | hmem
    · subst heq
      exact Nat.le_trans (Nat.le_max_right a x) (foldl_max_ge_init t _)
    · exact ih _ hmem

theorem aprHeaderLookup_spec (ws : Sheet) (key : String) (c : Nat)
    (h : aprHeaderLookup ws key = some c) :
    1 ≤ c ∧ c - 1 < (headers ws).length ∧
    (headers ws).getD (c - 1) Value.vnone ≠ Value.vnone ∧
    normStr (valToStr ((headers ws).getD (c - 1) Value.vnone)) = key := by
  have hmatch : ∀ (v : Value) (acc2 : Option Nat) (i : Nat),
      (match v with
       | Value.vnone => acc2
       | v2 => if normStr (valToStr v2) = key then some (i + 1) else acc2)
      = if v = Value.vnone then acc2
        else if normStr (valToStr v) = key then some (i + 1) else acc2 := by
    intro v acc2 i
    cases v <;> simp
  have hgen : ∀ (l : List Nat) (acc : Option Nat),
      (l.foldl
        (fun acc2 i =>
          match (headers ws).getD i Value.vnone with
          | Value.vnone => acc2
          | v => if normStr (valToStr v) = key then some (i + 1) else acc2)
        acc = some c) →
      acc = some c ∨ ∃ i ∈ l, (headers ws).getD i Value.vnone ≠ Value.vnone ∧
        normStr (valToStr ((headers ws).getD i Value.vnone)) = key ∧ c = i + 1 := by
    intro l
    induction l with
    | nil =>
      intro acc hacc
      exact Or.inl hacc
    | cons i t ih =>
      intro acc hacc
      simp only [List.foldl_cons] at hacc
      rcases ih _ hacc with hstep | hex
      · rw [hmatch] at hstep
        by_cases hnone : (headers ws).getD i Value.vnone = Value.vnone
        · rw [if_pos hnone] at hstep
          exact Or.inl hstep
        · rw [if_neg hnone] at hstep
          by_cases hkey : normStr (valToStr ((headers ws).getD i Value.vnone)) = key
          · rw [if_pos hkey] at hstep
            right
            refine ⟨i, List.mem_cons_self _ _, hnone, hkey, ?_⟩
            exact (Option.some.injEq _ _).mp hstep.symm
          · rw [if_neg hkey] at hstep
            exact Or.inl hstep
      · right
        obtain ⟨i2, hm, rest⟩ := hex
        exact ⟨i2, List.mem_cons_of_mem _ hm, rest⟩
  have h2 := hgen (List.range (headers ws).length) none h
  rcases h2 with habs | hex
  · cases habs
  · obtain ⟨i, hm, hne, hkey, hc⟩ := hex
    have hi := List.mem_range.mp hm
    subst hc
    refine ⟨by omega, by simpa using hi, ?_, ?_⟩
    · simpa using hne
    · simpa using hkey

theorem aprHeaderLookup_le_headerWidth (ws : Sheet) (key : String) (c : Nat)
    (h : aprHeaderLookup ws key = some c) : c ≤ headerWidth ws := by
  obtain ⟨h1, h2, h3, h4⟩ := aprHeaderLookup_spec ws key c h
  unfold headerWidth
  have hmem : c ∈ ((List.range (headers ws).length).filter
      (fun i => (headers ws).getD i Value.vnone ≠ Value.vnone)).map (fun i => i + 1) := by
    rw [List.mem_map]
    refine ⟨c - 1, ?_, by omega⟩
    rw [List.mem_filter]
    constructor
    · exact List.mem_range.mpr (by omega)
    · simpa using h3
  have hne : ((List.range (headers ws).length).filter
      (fun i => (headers ws).getD i Value.vnone ≠ Value.vnone)).map (fun i => i + 1) ≠ [] := by
    intro hE
    rw [hE] at hmem
    cases hmem
  rw [if_neg hne]
  exact foldl_max_ge _ _ _ hmem

theorem aprHeaderLookup_inj (ws : Sheet) (k1 k2 : String) (c : Nat)
    (h1 : aprHeaderLookup ws k1 = some c) (h2 : aprHeaderLookup ws k2 = some c) :
    k1 = k2 := by
  obtain ⟨_, _, _, hk1⟩ := aprHeaderLookup_spec ws k1 c h1
  obtain ⟨_, _, _, hk2⟩ := aprHeaderLookup_spec ws k2 c h2
  rw [← hk1, ← hk2]

theorem resolveTargetCol_spec (ws : Sheet) (targets : List String) (c : Nat)
    (h : resolveTargetCol ws targets = some c) :
    ∃ t ∈ targets, aprHeaderLookup ws (normStr t) = some c := by
  induction targets with
  | nil => cases h
  | cons t rest ih =>
    unfold resolveTargetCol at h
    cases hl : aprHeaderLookup ws (normStr t) with
    | some c2 =>
      rw [hl] at h
      refine ⟨t, List.mem_cons_self _ _, ?_⟩
      rw [hl]
      exact h
    | none =>
      rw [hl] at h
      obtain ⟨t2, hm, hl2⟩ := ih h
      exact ⟨t2, List.mem_cons_of_mem _ hm, hl2⟩

theorem findHeaderCol_spec (ws : Sheet) (hname : String) (c : Nat)
    (h : findHeaderCol ws hname = some c) :
    1 ≤ c ∧ c - 1 < (headers ws).length ∧
    (headers ws).getD (c - 1) Value.vnone ≠ Value.vnone ∧
    normStr (valToStr ((headers ws).getD (c - 1) Value.vnone)) = normStr hname := by
  unfold findHeaderCol at h
  obtain ⟨i, hm, hf⟩ := List.exists_of_findSome?_eq_some h
  have hi := List.mem_range.mp hm
  cases hv : (headers ws).getD i Value.vnone with
  | vnone =>
    rw [hv] at hf
    cases hf
  | vstr s =>
    rw [hv] at hf
    have hf2 : (if normStr (valToStr (Value.vstr s)) = normStr hname
        then some (i + 1) else (none : Option Nat)) = some c := hf
    by_cases hkey : normStr (valToStr (Value.vstr s)) = normStr hname
    · rw [if_pos hkey] at hf2
      have hc : c = i + 1 := ((Option.some.injEq _ _).mp hf2).symm
      subst hc
      refine ⟨by omega, by simpa using hi, ?_, ?_⟩
      · simp only [Nat.add_sub_cancel]
        rw [hv]
        simp
      · simp only [Nat.add_sub_cancel]
        rw [hv]
        exact hkey
    · rw [if_neg hkey] at hf2
      cases hf2
  | vnum q =>
    rw [hv] at hf
    have hf2 : (if normStr (valToStr (Value.vnum q)) = normStr hname
        then some (i + 1) else (none : Option Nat)) = some c := hf
    by_cases hkey : normStr (valToStr (Value.vnum q)) = normStr hname
    · rw [if_pos hkey] at hf2
      have hc : c = i + 1 := ((Option.some.injEq _ _).mp hf2).symm
      subst hc
      refine ⟨by omega, by simpa using hi, ?_, ?_⟩
      · simp only [Nat.add_sub_cancel]
        rw [hv]
        simp
      · simp only [Nat.add_sub_cancel]
        rw [hv]
        exact hkey
    · rw [if_neg hkey] at hf2
      cases hf2
  | vdate d =>
    rw [hv] at hf
    have hf2 : (if normStr (valToStr (Value.vdate d)) = normStr hname
        then some (i + 1) else (none : Option Nat)) = some c := hf
    by_cases hkey : normStr (valToStr (Value.vdate d)) = normStr hname
    · rw [if_pos hkey] at hf2
      have hc : c = i + 1 := ((Option.some.injEq _ _).mp hf2).symm
      subst hc
      refine ⟨by omega, by simpa using hi, ?_, ?_⟩
      · simp only [Nat.add_sub_cancel]
        rw [hv]
        simp
      · simp only [Nat.add_sub_cancel]
        rw [hv]
        exact hkey
    · rw [if_neg hkey] at hf2
      cases hf2

theorem resolveStep_missing (ws : Sheet) (mcols : List String)
    (acc : List (String × Nat) × List (String × List String) × List String)
    (entry : String × List String) (h : mcols.contains entry.1 = false) :
    resolveStep ws mcols acc entry = (acc.1, acc.2.1, acc.2.2 ++ [entry.1]) := by
  unfold resolveStep
  rw [if_pos (by simpa using h)]

theorem resolveStep_unresolved (ws : Sheet) (mcols : List String)
    (acc : List (String × Nat) × List (String × List String) × List String)
    (entry : String × List String) (h : mcols.contains entry.1 = true)
    (hr : resolveTargetCol ws entry.2 = none) :
    resolveStep ws mcols acc entry = (acc.1, acc.2.1 ++ [entry], acc.2.2) := by
  unfold resolveStep
  rw [if_neg (by simpa using h), hr]

theorem resolveStep_resolved (ws : Sheet) (mcols : List String)
    (acc : List (String × Nat) × List (String × List String) × List String)
    (entry : String × List String) (c : Nat) (h : mcols.contains entry.1 = true)
    (hr : resolveTargetCol ws entry.2 = some c) :
    resolveStep ws mcols acc entry = (acc.1 ++ [(entry.1, c)], acc.2.1, acc.2.2) := by
  unfold resolveStep
  rw [if_neg (by simpa using h), hr]

theorem resolveMapping_mem (ws : Sheet) (mcols : List String) (e : String × Nat)
    (h : e ∈ (resolveMapping ws mcols).1) :
    ∃ targets, (e.1, targets) ∈ COLUMN_MAP ∧ mcols.contains e.1 = true ∧
      resolveTargetCol ws targets = some e.2 := by
  have hgen : ∀ (l : List (String × List String))
      (acc : List (String × Nat) × List (String × List String) × List String),
      e ∈ (l.foldl (resolveStep ws mcols) acc).1 →
      e ∈ acc.1 ∨ ∃ targets, (e.1, targets) ∈ l ∧ mcols.contains e.1 = true ∧
        resolveTargetCol ws targets = some e.2 := by
    intro l
    induction l with
    | nil =>
      intro acc hm
      exact Or.inl hm
    | cons entry t ih =>
      intro acc hm
      simp only [List.foldl_cons] at hm
      by_cases hc : mcols.contains entry.1 = true
      · cases hr : resolveTargetCol ws entry.2 with
        | none =>
          rw [resolveStep_unresolved ws mcols acc entry hc hr] at hm
          rcases ih _ hm with h2 | h2
          · exact Or.inl h2
          · obtain ⟨tg, htg, hc2, hr2⟩ := h2
            exact Or.inr ⟨tg, List.mem_cons_of_mem _ htg, hc2, hr2⟩
        | some c =>
          rw [resolveStep_resolved ws mcols acc entry c hc hr] at hm
          rcases ih _ hm with h2 | h2
          · rcases List.mem_append.mp h2 with h3 | h3
            · exact Or.inl h3
            · rcases List.mem_singleton.mp h3 with rfl
              right
              refine ⟨entry.2, ?_, hc, hr⟩
              exact List.mem_cons_self _ _
          · obtain ⟨tg, htg, hc2, hr2⟩ := h2
            exact Or.inr ⟨tg, List.mem_cons_of_mem _ htg, hc2, hr2⟩
      · rw [resolveStep_missing ws mcols acc entry (eqFalseOfNeTrue _ hc)] at hm
        rcases ih _ hm with h2 | h2
        · exact Or.inl h2
        · obtain ⟨tg, htg, hc2, hr2⟩ := h2
          exact Or.inr ⟨tg, List.mem_cons_of_mem _ htg, hc2, hr2⟩
  have h2 := hgen COLUMN_MAP ([], [], []) h
  rcases h2 with habs | hex
  · cases habs
  · exact hex

theorem resolveMapping_fst_sublist (ws : Sheet) (mcols : List String) :
    List.Sublist (((resolveMapping ws mcols).1).map Prod.fst) (COLUMN_MAP.map Prod.fst) := by
  have hgen : ∀ (l : List (String × List String))
      (acc : List (String × Nat) × List (String × List String) × List String),
      List.Sublist (((l.foldl (resolveStep ws mcols) acc).1).map Prod.fst)
        (acc.1.map Prod.fst ++ l.map Prod.fst) := by
    intro l
    induction l with
    | nil =>
      intro acc
      simp
    | cons entry t ih =>
      intro acc
      simp only [List.foldl_cons, List.map_cons]
      by_cases hc : mcols.contains entry.1 = true
      · cases hr : resolveTargetCol ws entry.2 with
        | none =>
          rw [resolveStep_unresolved ws mcols acc entry hc hr]
          refine (ih _).trans ?_
          refine List.Sublist.append_left ?_ _
          exact List.sublist_cons_self _ _
        | some c =>
          rw [resolveStep_resolved ws mcols acc entry c hc hr]
          refine (ih _).trans ?_
          rw [List.map_append, List.append_assoc]
          refine List.Sublist.append_left ?_ _
          simp
      · rw [resolveStep_missing ws mcols acc entry (eqFalseOfNeTrue _ hc)]
        refine (ih _).trans ?_
        refine List.Sublist.append_left ?_ _
        exact List.sublist_cons_self _ _
  have h2 := hgen COLUMN_MAP ([], [], [])
  simpa using h2

theorem resolveMapping_nodup_fst (ws : Sheet) (mcols : List String) :
    (((resolveMapping ws mcols).1).map Prod.fst).Nodup := by
  refine (resolveMapping_fst_sublist ws mcols).nodup ?_
  decide

theorem resolveMapping_nodup_snd (ws : Sheet) (mcols : List String) :
    (((resolveMapping ws mcols).1).map Prod.snd).Nodup := by
  have hfst := resolveMapping_nodup_fst ws mcols
  unfold List.Nodup at hfst ⊢
  rw [List.pairwise_map] at hfst ⊢
  refine List.Pairwise.imp_of_mem ?_ hfst
  intro a b ha hb hne
  intro heq
  obtain ⟨ta, hta, hca, hra⟩ := resolveMapping_mem ws mcols a ha
  obtain ⟨tb, htb, hcb, hrb⟩ := resolveMapping_mem ws mcols b hb
  obtain ⟨t1, ht1m, hl1⟩ := resolveTargetCol_spec ws ta a.2 hra
  obtain ⟨t2, ht2m, hl2⟩ := resolveTargetCol_spec ws tb b.2 hrb
  rw [heq] at hl1
  have hkeys : normStr t1 = normStr t2 := aprHeaderLookup_inj ws _ _ b.2 hl1 hl2
  have hdisj : ∀ e1 ∈ COLUMN_MAP, ∀ e2 ∈ COLUMN_MAP, e1.1 ≠ e2.1 →
      ∀ u1 ∈ e1.2, ∀ u2 ∈ e2.2, normStr u1 ≠ normStr u2 := by decide
  exact hdisj (a.1, ta) hta (b.1, tb) htb hne t1 ht1m t2 ht2m hkeys

theorem resolveMapping_pos (ws : Sheet) (mcols : List String) (e : String × Nat)
    (h : e ∈ (resolveMapping ws mcols).1) : 1 ≤ e.2 ∧ e.2 ≤ headerWidth ws := by
  obtain ⟨tg, htg, hc, hr⟩ := resolveMapping_mem ws mcols e h
  obtain ⟨t, htm, hl⟩ := resolveTargetCol_spec ws tg e.2 hr
  obtain ⟨h1, _, _, _⟩ := aprHeaderLookup_spec ws _ _ hl
  exact ⟨h1, aprHeaderLookup_le_headerWidth ws _ _ hl⟩

/-! Lemmas about the date renormalization pass and range expansion. -/

theorem any_congr_mem (l : List Nat) (p q : Nat → Bool) (h : ∀ x ∈ l, p x = q x) :
    l.any p = l.any q := by
  induction l with
  | nil => rfl
  | cons x t ih =>
    simp only [List.any_cons]
    rw [h x (List.mem_cons_self x t), ih (fun y hy => h y (List.mem_cons_of_mem _ hy))]

theorem lastFold_congr (P Q : Nat → Bool) (init : Nat) (l : List Nat)
    (h : ∀ r ∈ l, P r = Q r) : lastFold P init l = lastFold Q init l := by
  induction l generalizing init with
  | nil => rfl
  | cons r t ih =>
    rw [lastFold_step, lastFold_step, h r (List.mem_cons_self r t)]
    exact ih _ (fun y hy => h y (List.mem_cons_of_mem _ hy))

theorem range'_nodup (s n : Nat) : (List.range' s n).Nodup := by
  induction n generalizing s with
  | zero => exact List.nodup_nil
  | succ m ih =>
    rw [show List.range' s (m + 1) = s :: List.range' (s + 1) m from rfl]
    refine List.nodup_cons.mpr ⟨?_, ih _⟩
    intro hm
    have := (List.mem_range'_1.mp hm).1
    omega

theorem normalizeDateStep_getCell_self (col : Nat) (s : Sheet) (r : Nat)
    (hr : 1 ≤ r) (hc : 1 ≤ col) :
    getCell (normalizeDateStep col s r) r col = normDateVal (getCell s r col) := by
  unfold normalizeDateStep normDateVal
  cases hv : getCell s r col with
  | vnone => exact hv
  | vdate d => exact hv
  | vstr s2 =>
    cases hp : parseDateString (pyStrip (valToStr (Value.vstr s2))) with
    | some d =>
      simp only [hp]
      exact getCell_setCell_self _ _ _ _ hr hc
    | none =>
      simp only [hp]
      exact hv
  | vnum q =>
    cases hp : parseDateString (pyStrip (valToStr (Value.vnum q))) with
    | some d =>
      simp only [hp]
      exact getCell_setCell_self _ _ _ _ hr hc
    | none =>
      simp only [hp]
      exact hv

theorem normalizeDateStep_getCell_other (col : Nat) (s : Sheet) (r r2 c2 : Nat)
    (hr : 1 ≤ r) (hc : 1 ≤ col) (hr2 : 1 ≤ r2) (hc2 : 1 ≤ c2)
    (hne : r2 ≠ r ∨ c2 ≠ col) :
    getCell (normalizeDateStep col s r) r2 c2 = getCell s r2 c2 := by
  unfold normalizeDateStep
  cases hv : getCell s r col with
  | vnone => rfl
  | vdate d => rfl
  | vstr s2 =>
    cases hp : parseDateString (pyStrip (valToStr (Value.vstr s2))) with
    | some d =>
      simp only [hp]
      exact getCell_setCell_ne _ _ _ _ _ _ hr hc hr2 hc2 hne
    | none => simp only [hp]
  | vnum q =>
    cases hp : parseDateString (pyStrip (valToStr (Value.vnum q))) with
    | some d =>
      simp only [hp]
      exact getCell_setCell_ne _ _ _ _ _ _ hr hc hr2 hc2 hne
    | none => simp only [hp]

theorem normFold_getCell_other (col : Nat) (l : List Nat) (s : Sheet) (r2 c2 : Nat)
    (hc : 1 ≤ col) (hr2 : 1 ≤ r2) (hc2 : 1 ≤ c2) (hall : ∀ r ∈ l, 1 ≤ r)
    (hne : r2 ∉ l ∨ c2 ≠ col) :
    getCell (l.foldl (normalizeDateStep col) s) r2 c2 = getCell s r2 c2 := by
  induction l generalizing s with
  | nil => rfl
  | cons r t ih =>
    simp only [List.foldl_cons]
    have hstep : getCell (normalizeDateStep col s r) r2 c2 = getCell s r2 c2 := by
      apply normalizeDateStep_getCell_other col s r r2 c2
        (hall r (List.mem_cons_self r t)) hc hr2 hc2
      rcases hne with h | h
      · left
        intro hE
        exact h (hE ▸ List.mem_cons_self r t)
      · exact Or.inr h
    rw [← hstep]
    apply ih _ (fun y hy => hall y (List.mem_cons_of_mem _ hy))
    rcases hne with h | h
    · exact Or.inl (fun hE => h (List.mem_cons_of_mem _ hE))
    · exact Or.inr h

theorem normFold_getCell_mem (col : Nat) (l : List Nat) (s : Sheet) (r2 : Nat)
    (hc : 1 ≤ col) (hr2 : 1 ≤ r2) (hall : ∀ r ∈ l, 1 ≤ r) (hnd : l.Nodup)
    (hm : r2 ∈ l) :
    getCell (l.foldl (normalizeDateStep col) s) r2 col = normDateVal (getCell s r2 col) := by
  induction l generalizing s with
  | nil => cases hm
  | cons r t ih =>
    simp only [List.foldl_cons]
    have hnd2 := List.nodup_cons.mp hnd
    rcases List.mem_cons.mp hm with heq | hmem
    · subst heq
      rw [normFold_getCell_other col t _ r2 col hc hr2 hc
        (fun y hy => hall y (List.mem_cons_of_mem _ hy)) (Or.inl hnd2.1)]
      exact normalizeDateStep_getCell_self col s r2 hr2 hc
    · have hrne : r2 ≠ r := by
        intro hE
        exact hnd2.1 (hE ▸ hmem)
      rw [ih _ (fun y hy => hall y (List.mem_cons_of_mem _ hy)) hnd2.2 hmem]
      rw [normalizeDateStep_getCell_other col s r r2 col (hall r (List.mem_cons_self r t))
        hc hr2 hc (Or.inl hrne)]

/-- Cell-level description of _normalize_purchase_date_column. -/
theorem normalizePDC_getCell (ws : Sheet) (r c : Nat) (hr : 1 ≤ r) (hc : 1 ≤ c) :
    getCell (normalizePurchaseDateColumn ws) r c =
      (match findHeaderCol ws "Purchase Date" with
       | none => getCell ws r c
       | some col =>
         if c = col ∧ 2 ≤ r ∧ r ≤ (lastUsedRow ws).1 then normDateVal (getCell ws r c)
         else getCell ws r c) := by
  unfold normalizePurchaseDateColumn
  cases hf : findHeaderCol ws "Purchase Date" with
  | none => rfl
  | some col =>
    obtain ⟨hcol1, _, _, _⟩ := findHeaderCol_spec ws _ col hf
    have hall : ∀ r2 ∈ List.range' 2 ((lastUsedRow ws).1 - 1), 1 ≤ r2 := by
      intro r2 hm
      have := (List.mem_range'_1.mp hm).1
      omega
    show getCell ((List.range' 2 ((lastUsedRow ws).1 - 1)).foldl (normalizeDateStep col) ws) r c
        = if c = col ∧ 2 ≤ r ∧ r ≤ (lastUsedRow ws).1 then normDateVal (getCell ws r c)
          else getCell ws r c
    by_cases hcond : c = col ∧ 2 ≤ r ∧ r ≤ (lastUsedRow ws).1
    · rw [if_pos hcond]
      obtain ⟨hceq, hr2, hrle⟩ := hcond
      subst hceq
      apply normFold_getCell_mem c _ ws r hcol1 hr hall (range'_nodup _ _)
      rw [List.mem_range'_1]
      have := lastUsedRow_pos ws
      omega
    · rw [if_neg hcond]
      apply normFold_getCell_other col _ ws r c hcol1 hr hc hall
      by_cases hcc : c = col
      · subst hcc
        left
        intro hm
        have hb := List.mem_range'_1.mp hm
        exact hcond ⟨rfl, by omega, by omega⟩
      · exact Or.inr hcc

theorem normDateVal_vnone_iff (v : Value) : normDateVal v = Value.vnone ↔ v = Value.vnone := by
  cases v with
  | vnone => simp [normDateVal]
  | vdate d => simp [normDateVal]
  | vstr s =>
    unfold normDateVal
    cases hp : parseDateString (pyStrip (valToStr (Value.vstr s))) <;> simp [hp]
  | vnum q =>
    unfold normDateVal
    cases hp : parseDateString (pyStrip (valToStr (Value.vnum q))) <;> simp [hp]

/-- The Purchase Date key position of a non-numeric cell is invariant under
renormalization of the cell.  (A numeric cell is keyed as epoch
nanoseconds by pd.to_datetime(v) but renormalized through
pd.to_datetime(str(v)), which parses the digits as a calendar date, so its
key position can move between runs.) -/
theorem keyPart_date_normDateVal (v : Value) (hnum : ∀ q, v ≠ Value.vnum q) :
    existingKeyPart "Purchase Date" (normDateVal v) = existingKeyPart "Purchase Date" v := by
  cases v with
  | vnone => rfl
  | vdate d => rfl
  | vstr s =>
    have hred : normDateVal (Value.vstr s)
        = match parseDateString (pyStrip (valToStr (Value.vstr s))) with
          | some d => Value.vdate d
          | none => Value.vstr s := rfl
    rw [hred]
    cases hp : parseDateString (pyStrip (valToStr (Value.vstr s))) with
    | none => rfl
    | some d =>
      show existingKeyPart "Purchase Date" (Value.vdate d)
          = existingKeyPart "Purchase Date" (Value.vstr s)
      rw [existingKeyPart_date _ (by simp), existingKeyPart_date _ (by simp)]
      have h1 : pdToDatetime (Value.vdate d) = some d := rfl
      have h2 : pdToDatetime (Value.vstr s) = some d := hp
      rw [h1, h2]
  | vnum q => exact absurd rfl (hnum q)

/-! Header-width and last-used-row congruence lemmas. -/

theorem headerWidth_eq (ws : Sheet) :
    headerWidth ws = if hdrNonNone ws = [] then maxCol ws else (hdrNonNone ws).foldl max 0 := rfl

theorem hdrNonNone_congr (ws1 ws2 : Sheet) (h : headers ws1 = headers ws2) :
    hdrNonNone ws1 = hdrNonNone ws2 := by
  unfold hdrNonNone
  rw [h]

theorem headerWidth_congr (ws1 ws2 : Sheet) (h : headers ws1 = headers ws2)
    (hne : hdrNonNone ws1 ≠ []) : headerWidth ws1 = headerWidth ws2 := by
  have h2 : hdrNonNone ws2 ≠ [] := by
    rw [← hdrNonNone_congr ws1 ws2 h]
    exact hne
  rw [headerWidth_eq, headerWidth_eq, if_neg hne, if_neg h2, hdrNonNone_congr ws1 ws2 h]

theorem hdrNonNone_ne_of_lookup (ws : Sheet) (key : String) (c : Nat)
    (h : aprHeaderLookup ws key = some c) : hdrNonNone ws ≠ [] := by
  obtain ⟨h1, h2, h3, _⟩ := aprHeaderLookup_spec ws key c h
  intro hE
  have hmem : c ∈ hdrNonNone ws := by
    unfold hdrNonNone
    rw [List.mem_map]
    refine ⟨c - 1, ?_, by omega⟩
    rw [List.mem_filter]
    exact ⟨List.mem_range.mpr h2, by simpa using h3⟩
  rw [hE] at hmem
  cases hmem

theorem rowNonblank_congr (ws1 ws2 : Sheet) (r tc : Nat)
    (h : ∀ c, 1 ≤ c → c ≤ tc →
      (getCell ws1 r c = Value.vnone ↔ getCell ws2 r c = Value.vnone)) :
    rowNonblank ws1 r tc = rowNonblank ws2 r tc := by
  unfold rowNonblank
  apply any_congr_mem
  intro c hc
  have hb := List.mem_range'_1.mp hc
  have hiff := h c (by omega) (by omega)
  by_cases h1 : getCell ws1 r c = Value.vnone
  · have h2 := hiff.mp h1
    simp [h1, h2]
  · have h2 : ¬ getCell ws2 r c = Value.vnone := fun hE => h1 (hiff.mpr hE)
    simp [h1, h2]

theorem maxRow_congr (ws1 ws2 : Sheet) (h : ws1.grid.length = ws2.grid.length) :
    maxRow ws1 = maxRow ws2 := by
  unfold maxRow
  rw [h]

theorem lastUsedRow_congr (ws1 ws2 : Sheet)
    (hlen : ws1.grid.length = ws2.grid.length)
    (hhdr : headers ws1 = headers ws2)
    (hne : hdrNonNone ws1 ≠ [])
    (hcell : ∀ r c, 2 ≤ r → 1 ≤ c → c ≤ headerWidth ws1 →
      (getCell ws1 r c = Value.vnone ↔ getCell ws2 r c = Value.vnone)) :
    lastUsedRow ws1 = lastUsedRow ws2 := by
  have hw : headerWidth ws1 = headerWidth ws2 := headerWidth_congr ws1 ws2 hhdr hne
  have hmr : maxRow ws1 = maxRow ws2 := maxRow_congr ws1 ws2 hlen
  have h1 : lastFold (fun r => rowNonblank ws1 r (headerWidth ws1)) 1
        (List.range' 2 (maxRow ws1 - 1))
      = lastFold (fun r => rowNonblank ws2 r (headerWidth ws1)) 1
        (List.range' 2 (maxRow ws1 - 1)) := by
    apply lastFold_congr
    intro r hr
    exact rowNonblank_congr ws1 ws2 r _ (fun c hc1 hc2 => hcell r c
      (by have := (List.mem_range'_1.mp hr).1; omega) hc1 hc2)
  show (lastFold (fun r => rowNonblank ws1 r (headerWidth ws1)) 1
        (List.range' 2 (maxRow ws1 - 1)), headerWidth ws1)
      = (lastFold (fun r => rowNonblank ws2 r (headerWidth ws2)) 1
        (List.range' 2 (maxRow ws2 - 1)), headerWidth ws2)
  rw [← hw, ← hmr, h1]

/-! Preservation of sheet shape by the post-write passes. -/

theorem expand_grid (ws : Sheet) : (expandFiltersAndTables ws).grid = ws.grid := rfl

theorem lastUsedRow_of_grid_eq (ws1 ws2 : Sheet) (h : ws1.grid = ws2.grid) :
    lastUsedRow ws1 = lastUsedRow ws2 := by
  obtain ⟨g1, a1, t1⟩ := ws1
  obtain ⟨g2, a2, t2⟩ := ws2
  have h2 : g1 = g2 := h
  subst h2
  rfl

theorem headers_of_grid_eq (ws1 ws2 : Sheet) (h : ws1.grid = ws2.grid) :
    headers ws1 = headers ws2 := by
  unfold headers
  rw [h]

theorem getCell_of_grid_eq (ws1 ws2 : Sheet) (h : ws1.grid = ws2.grid) (r c : Nat) :
    getCell ws1 r c = getCell ws2 r c := by
  unfold getCell
  rw [h]

theorem normalizeDateStep_grid_length (col : Nat) (s : Sheet) (r : Nat)
    (hr : 1 ≤ r) (hle : r ≤ s.grid.length) :
    (normalizeDateStep col s r).grid.length = s.grid.length := by
  unfold normalizeDateStep
  cases hv : getCell s r col with
  | vnone => rfl
  | vdate d => rfl
  | vstr s2 =>
    cases hp : parseDateString (pyStrip (valToStr (Value.vstr s2))) with
    | some d =>
      simp only [hp]
      rw [grid_length_setCell _ _ _ _ hr]
      omega
    | none => simp only [hp]
  | vnum q =>
    cases hp : parseDateString (pyStrip (valToStr (Value.vnum q))) with
    | some d =>
      simp only [hp]
      rw [grid_length_setCell _ _ _ _ hr]
      omega
    | none => simp only [hp]

theorem normalizeDateStep_headers (col : Nat) (s : Sheet) (r : Nat) (hr : 2 ≤ r) :
    headers (normalizeDateStep col s r) = headers s := by
  unfold normalizeDateStep
  cases hv : getCell s r col with
  | vnone => rfl
  | vdate d => rfl
  | vstr s2 =>
    cases hp : parseDateString (pyStrip (valToStr (Value.vstr s2))) with
    | some d =>
      simp only [hp]
      rw [headers_setCell _ _ _ _ hr]
    | none => simp only [hp]
  | vnum q =>
    cases hp : parseDateString (pyStrip (valToStr (Value.vnum q))) with
    | some d =>
      simp only [hp]
      rw [headers_setCell _ _ _ _ hr]
    | none => simp only [hp]

theorem normalizeDateStep_autoFilterRef (col : Nat) (s : Sheet) (r : Nat) :
    (normalizeDateStep col s r).autoFilterRef = s.autoFilterRef := by
  unfold normalizeDateStep
  cases hv : getCell s r col with
  | vnone => rfl
  | vdate d => rfl
  | vstr s2 =>
    cases hp : parseDateString (pyStrip (valToStr (Value.vstr s2))) with
    | some d => simp only [hp, autoFilterRef_setCell]
    | none => simp only [hp]
  | vnum q =>
    cases hp : parseDateString (pyStrip (valToStr (Value.vnum q))) with
    | some d => simp only [hp, autoFilterRef_setCell]
    | none => simp only [hp]

theorem normalizeDateStep_tables (col : Nat) (s : Sheet) (r : Nat) :
    (normalizeDateStep col s r).tables = s.tables := by
  unfold normalizeDateStep
  cases hv : getCell s r col with
  | vnone => rfl
  | vdate d => rfl
  | vstr s2 =>
    cases hp : parseDateString (pyStrip (valToStr (Value.vstr s2))) with
    | some d => simp only [hp, tables_setCell]
    | none => simp only [hp]
  | vnum q =>
    cases hp : parseDateString (pyStrip (valToStr (Value.vnum q))) with
    | some d => simp only [hp, tables_setCell]
    | none => simp only [hp]

theorem normFold_grid_length (col : Nat) (l : List Nat) (s : Sheet)
    (hall : ∀ r ∈ l, 1 ≤ r ∧ r ≤ s.grid.length) :
    (l.foldl (normalizeDateStep col) s).grid.length = s.grid.length := by
  induction l generalizing s with
  | nil => rfl
  | cons r t ih =>
    simp only [List.foldl_cons]
    have h0 := hall r (List.mem_cons_self r t)
    have hstep : (normalizeDateStep col s r).grid.length = s.grid.length :=
      normalizeDateStep_grid_length col s r h0.1 h0.2
    rw [ih _ ?_]
    · exact hstep
    · intro y hy
      rw [hstep]
      exact hall y (List.mem_cons_of_mem _ hy)

theorem normFold_headers (col : Nat) (l : List Nat) (s : Sheet)
    (hall : ∀ r ∈ l, 2 ≤ r) :
    headers (l.foldl (normalizeDateStep col) s) = headers s := by
  induction l generalizing s with
  | nil => rfl
  | cons r t ih =>
    simp only [List.foldl_cons]
    rw [ih _ (fun y hy => hall y (List.mem_cons_of_mem _ hy))]
    exact normalizeDateStep_headers col s r (hall r (List.mem_cons_self r t))

theorem normFold_autoFilterRef (col : Nat) (l : List Nat) (s : Sheet) :
    (l.foldl (normalizeDateStep col) s).autoFilterRef = s.autoFilterRef := by
  induction l generalizing s with
  | nil => rfl
  | cons r t ih =>
    simp only [List.foldl_cons]
    rw [ih]
    exact normalizeDateStep_autoFilterRef col s r

theorem normFold_tables (col : Nat) (l : List Nat) (s : Sheet) :
    (l.foldl (normalizeDateStep col) s).tables = s.tables := by
  induction l generalizing s with
  | nil => rfl
  | cons r t ih =>
    simp only [List.foldl_cons]
    rw [ih]
    exact normalizeDateStep_tables col s r

theorem range'_two_bounds (ws : Sheet) (r : Nat)
    (hm : r ∈ List.range' 2 ((lastUsedRow ws).1 - 1)) :
    2 ≤ r ∧ r ≤ ws.grid.length := by
  have hb := List.mem_range'_1.mp hm
  have hle := lastUsedRow_le_maxRow ws
  have hp1 := lastUsedRow_pos ws
  have hmr : maxRow ws = max ws.grid.length 1 := rfl
  omega

theorem normalizePDC_grid_length (ws : Sheet) :
    (normalizePurchaseDateColumn ws).grid.length = ws.grid.length := by
  unfold normalizePurchaseDateColumn
  cases hf : findHeaderCol ws "Purchase Date" with
  | none => rfl
  | some col =>
    apply normFold_grid_length
    intro r hm
    have hb := range'_two_bounds ws r hm
    exact ⟨by omega, hb.2⟩

theorem normalizePDC_headers (ws : Sheet) :
    headers (normalizePurchaseDateColumn ws) = headers ws := by
  unfold normalizePurchaseDateColumn
  cases hf : findHeaderCol ws "Purchase Date" with
  | none => rfl
  | some col =>
    apply normFold_headers
    intro r hm
    exact (range'_two_bounds ws r hm).1

theorem normalizePDC_autoFilterRef (ws : Sheet) :
    (normalizePurchaseDateColumn ws).autoFilterRef = ws.autoFilterRef := by
  unfold normalizePurchaseDateColumn
  cases hf : findHeaderCol ws "Purchase Date" with
  | none => rfl
  | some col => exact normFold_autoFilterRef col _ ws

theorem normalizePDC_tables (ws : Sheet) :
    (normalizePurchaseDateColumn ws).tables = ws.tables := by
  unfold normalizePurchaseDateColumn
  cases hf : findHeaderCol ws "Purchase Date" with
  | none => rfl
  | some col => exact normFold_tables col _ ws

theorem normalizePDC_lastUsedRow (ws : Sheet) (hne : hdrNonNone ws ≠ []) :
    lastUsedRow (normalizePurchaseDateColumn ws) = lastUsedRow ws := by
  apply lastUsedRow_congr _ _ (normalizePDC_grid_length ws) (normalizePDC_headers ws)
  · rw [hdrNonNone_congr _ _ (normalizePDC_headers ws)]
    exact hne
  · intro r c hr hc hcw
    rw [normalizePDC_getCell ws r c (by omega) hc]
    cases hf : findHeaderCol ws "Purchase Date" with
    | none => exact Iff.rfl
    | some col =>
      show (if c = col ∧ 2 ≤ r ∧ r ≤ (lastUsedRow ws).1 then normDateVal (getCell ws r c)
          else getCell ws r c) = Value.vnone ↔ getCell ws r c = Value.vnone
      by_cases hcond : c = col ∧ 2 ≤ r ∧ r ≤ (lastUsedRow ws).1
      · rw [if_pos hcond]
        exact normDateVal_vnone_iff _
      · rw [if_neg hcond]

/-! The last used row after the write loop. -/

theorem rowNonblank_true_at_lastUsed (ws : Sheet) (h2 : 2 ≤ (lastUsedRow ws).1) :
    rowNonblank ws (lastUsedRow ws).1 (headerWidth ws) = true := by
  have he := lastUsedRow_eq_lastFold ws
  rcases lastFold_cases (fun r => rowNonblank ws r (headerWidth ws)) 1
    (List.range' 2 (maxRow ws - 1)) with h | h
  · rw [← he] at h
    omega
  · have h3 := h.2
    rw [← he] at h3
    exact h3

/-- After the write loop the last used row has advanced by exactly the
number of accepted rows, and the scanned width is unchanged. -/
theorem lastUsed_after_loop (ws0 : Sheet) (resolved : List (String × Nat)) (cols : List String)
    (tc : Nat) (keys0 : List (List Value)) (src : List (List Value))
    (accepted : List (List Value)) (st : LoopState)
    (I : LoopInv ws0 resolved cols ((lastUsedRow ws0).1 + 1) tc keys0 src accepted st)
    (htc : tc = headerWidth ws0)
    (hne : hdrNonNone ws0 ≠ [])
    (hpos : ∀ mc ∈ resolved, 1 ≤ mc.2 ∧ mc.2 ≤ tc) :
    (lastUsedRow st.sheet).1 = (lastUsedRow ws0).1 + st.written ∧
      headerWidth st.sheet = headerWidth ws0 := by
  have hhdr := I.hdr
  have hnewne : hdrNonNone st.sheet ≠ [] := by
    rw [hdrNonNone_congr _ _ hhdr]
    exact hne
  have hwidth : headerWidth st.sheet = headerWidth ws0 :=
    headerWidth_congr _ _ hhdr hnewne
  refine ⟨?_, hwidth⟩
  have hwtc : headerWidth st.sheet = tc := by rw [hwidth, htc]
  have hp1 := lastUsedRow_pos ws0
  have hglen := I.glen
  have hmr0 : maxRow ws0 = max ws0.grid.length 1 := rfl
  have hmr : maxRow st.sheet = max st.sheet.grid.length 1 := rfl
  have hle0 := lastUsedRow_le_maxRow ws0
  have hMle : (lastUsedRow ws0).1 + st.written ≤ maxRow st.sheet := by
    rcases I.glen2 with h0 | h0
    · omega
    · omega
  rw [lastUsedRow_eq_lastFold]
  apply lastFold_determined
  · intro h2M
    constructor
    · omega
    · show rowNonblank st.sheet ((lastUsedRow ws0).1 + st.written) (headerWidth st.sheet) = true
      rcases Nat.eq_zero_or_pos st.written with hw0 | hwpos
    
      · have hlu2 : 2 ≤ (lastUsedRow ws0).1 := by omega
        have htrue := rowNonblank_true_at_lastUsed ws0 hlu2
        have hcong : rowNonblank st.sheet ((lastUsedRow ws0).1) (headerWidth st.sheet)
            = rowNonblank ws0 ((lastUsedRow ws0).1) (headerWidth st.sheet) := by
          apply rowNonblank_congr
          intro c hc1 hc2
          rw [I.low _ c (by omega) (by omega) hc1]
        rw [hw0, Nat.add_zero, hcong, hwidth]
        exact htrue
      · have hk : st.written - 1 < st.written := by omega
        have hany := I.acc_any (st.written - 1) hk
        obtain ⟨mc, hmcmem, hmcval⟩ := List.any_eq_true.mp hany
        have hval : writeVal mc.1 (dfGet cols (accepted.getD (st.written - 1) []) mc.1)
            ≠ Value.vnone := by simpa using hmcval
        have hcell := I.acc_cells (st.written - 1) hk mc hmcmem
        have hmcpos := hpos mc hmcmem
        unfold rowNonblank
        rw [List.any_eq_true]
        refine ⟨mc.2, ?_, ?_⟩
        · rw [List.mem_range'_1]
          omega
        · have heqrow : (lastUsedRow ws0).1 + st.written
              = ((lastUsedRow ws0).1 + 1) + (st.written - 1) := by omega
          rw [heqrow, hcell]
          simpa using hval
  · intro r h2r hrlt hMr
    show rowNonblank st.sheet r (headerWidth st.sheet) = false
    apply eqFalseOfNeTrue
    intro htrue
    obtain ⟨c, hcm, hcv⟩ := List.any_eq_true.mp htrue
    have hb := List.mem_range'_1.mp hcm
    have hnone := I.high r c (by omega) (by omega) (by omega)
    simp [hnone] at hcv
  · omega

/-! Characterization of the ok paths of ingest_month_into_apr_bundle. -/

theorem readMonthFile_true (raw : DataFrame) (hnd : (canonCols raw).Nodup) :
    readMonthFile true raw = Except.ok (coerceAndDerive (normalizeColumns raw)) := by
  have h0 : readMonthFile true raw
      = if (canonCols raw).Nodup then Except.ok (coerceAndDerive (normalizeColumns raw))
        else Except.error "The truth value of a Series is ambiguous" := rfl
  rw [h0, if_pos hnd]

theorem readMonthFile_dup (raw : DataFrame) (hnd : ¬ (canonCols raw).Nodup) :
    readMonthFile true raw
      = Except.error "The truth value of a Series is ambiguous" := by
  have h0 : readMonthFile true raw
      = if (canonCols raw).Nodup then Except.ok (coerceAndDerive (normalizeColumns raw))
        else Except.error "The truth value of a Series is ambiguous" := rfl
  rw [h0, if_neg hnd]

theorem ingest_ok_flags (m e r : Bool) (wb : List (String × Sheet)) (raw : DataFrame)
    (res : IngestResult) (h : ingest_month_into_apr_bundle m e r wb raw = Except.ok res) :
    m = true ∧ e = true ∧ r = true ∧ (canonCols raw).Nodup
      ∧ ∃ ws, wb.lookup APR_SHEET = some ws := by
  cases m with
  | false => simp [ingest_month_into_apr_bundle] at h
  | true =>
    cases e with
    | false => simp [ingest_month_into_apr_bundle] at h
    | true =>
      cases r with
      | false => simp [ingest_month_into_apr_bundle, readMonthFile] at h
      | true =>
        by_cases hnd : (canonCols raw).Nodup
        · cases hlk : wb.lookup APR_SHEET with
          | none =>
            unfold ingest_month_into_apr_bundle at h
            simp only [readMonthFile_true raw hnd, hlk] at h
            simp at h
          | some ws => exact ⟨rfl, rfl, rfl, hnd, ws, rfl⟩
        · unfold ingest_month_into_apr_bundle at h
          simp only [readMonthFile_dup raw hnd] at h
          simp at h

theorem ingest_true_empty (wb : List (String × Sheet)) (raw : DataFrame) (ws : Sheet)
    (hlk : wb.lookup APR_SHEET = some ws)
    (hres : (resolveMapping ws (coerceAndDerive (normalizeColumns raw)).cols).1 = [])
    (hnd : (canonCols raw).Nodup) :
    ingest_month_into_apr_bundle true true true wb raw = Except.ok
      { master_backup := true,
        rows_before := (lastUsedRow ws).1 - 1,
        rows_added := 0,
        rows_after := (lastUsedRow ws).1 - 1,
        dedupe_skipped := 0,
        unmapped_monthly_columns :=
          (resolveMapping ws (coerceAndDerive (normalizeColumns raw)).cols).2.2,
        unresolved_targets :=
          (resolveMapping ws (coerceAndDerive (normalizeColumns raw)).cols).2.1,
        resolved_map := [],
        sheet := ws } := by
  unfold ingest_month_into_apr_bundle
  simp only [readMonthFile_true raw hnd, hlk]
  rw [if_neg (by simp), if_neg (by simp), if_pos hres]

theorem ingest_true_write (wb : List (String × Sheet)) (raw : DataFrame) (ws : Sheet)
    (hlk : wb.lookup APR_SHEET = some ws)
    (hres : (resolveMapping ws (coerceAndDerive (normalizeColumns raw)).cols).1 ≠ [])
    (hnd : (canonCols raw).Nodup) :
    ingest_month_into_apr_bundle true true true wb raw = Except.ok
      { master_backup := true,
        rows_before := (lastUsedRow ws).1 - 1,
        rows_added := (ingestFinalState ws (coerceAndDerive (normalizeColumns raw))).written,
        rows_after :=
          (lastUsedRow (ingestFinalSheet ws (coerceAndDerive (normalizeColumns raw)))).1 - 1,
        dedupe_skipped := (ingestFinalState ws (coerceAndDerive (normalizeColumns raw))).dups,
        unmapped_monthly_columns :=
          COLUMN_MAP.filterMap
            (fun e => if (coerceAndDerive (normalizeColumns raw)).cols.contains e.1 then none
              else some e.1),
        unresolved_targets :=
          (resolveMapping ws (coerceAndDerive (normalizeColumns raw)).cols).2.1,
        resolved_map := (resolveMapping ws (coerceAndDerive (normalizeColumns raw)).cols).1,
        sheet := ingestFinalSheet ws (coerceAndDerive (normalizeColumns raw)) } := by
  unfold ingest_month_into_apr_bundle
  simp only [readMonthFile_true raw hnd, hlk]
  rw [if_neg (by simp), if_neg (by simp), if_neg hres]
  rfl

theorem resolveMapping_ne_nil_elim (ws : Sheet) (mcols : List String)
    (hres : (resolveMapping ws mcols).1 ≠ []) :
    ∃ e ∈ (resolveMapping ws mcols).1, True := by
  cases hl : (resolveMapping ws mcols).1 with
  | nil => exact absurd hl hres
  | cons a t => exact ⟨a, List.mem_cons_self _ _, trivial⟩

theorem hdrNonNone_ne_of_resolved (ws : Sheet) (mcols : List String)
    (hres : (resolveMapping ws mcols).1 ≠ []) : hdrNonNone ws ≠ [] := by
  obtain ⟨e0, he0, -⟩ := resolveMapping_ne_nil_elim ws mcols hres
  obtain ⟨tg, htg, hc, hrtc⟩ := resolveMapping_mem ws mcols e0 he0
  obtain ⟨t0, ht0, hlkp⟩ := resolveTargetCol_spec ws tg e0.2 hrtc
  exact hdrNonNone_ne_of_lookup ws _ _ hlkp

/-- The loop invariant holds of the final loop state of a run. -/
theorem ingestFinalState_inv (ws : Sheet) (mdf : DataFrame) :
    ∃ acc, LoopInv ws (resolveMapping ws mdf.cols).1 mdf.cols ((lastUsedRow ws).1 + 1)
      (headerWidth ws) (readExistingKeys ws) mdf.rows acc (ingestFinalState ws mdf) := by
  have hblank : ∀ r c, (lastUsedRow ws).1 + 1 ≤ r → 1 ≤ c → c ≤ headerWidth ws →
      getCell ws r c = Value.vnone := by
    intro r c h1 h2 h3
    refine lastUsedRow_blank_above ws r c (by omega) h2 ?_
    rw [lastUsedRow_snd]
    exact h3
  have I0 := loopInv_init ws (resolveMapping ws mdf.cols).1 mdf.cols ((lastUsedRow ws).1 + 1)
    (headerWidth ws) (readExistingKeys ws) mdf.rows hblank
  have hpos : ∀ mc ∈ (resolveMapping ws mdf.cols).1, 1 ≤ mc.2 ∧ mc.2 ≤ headerWidth ws :=
    fun mc hm => resolveMapping_pos ws mdf.cols mc hm
  obtain ⟨acc, I⟩ := loopInv_foldl ws _ mdf.cols _ _ _ mdf.rows mdf.rows [] _
    (fun row hm => hm)
    (by have := lastUsedRow_pos ws; omega) hpos
    (resolveMapping_nodup_snd ws mdf.cols) I0
  exact ⟨acc, I⟩

/-- The last used row of the persisted sheet: the pre-run last used row plus
the number of accepted rows, at the unchanged header width. -/
theorem ingestFinalSheet_lastUsedRow (ws : Sheet) (mdf : DataFrame)
    (hres : (resolveMapping ws mdf.cols).1 ≠ []) :
    lastUsedRow (ingestFinalSheet ws mdf)
      = ((lastUsedRow ws).1 + (ingestFinalState ws mdf).written, headerWidth ws) := by
  have hne : hdrNonNone ws ≠ [] := hdrNonNone_ne_of_resolved ws mdf.cols hres
  obtain ⟨acc, I⟩ := ingestFinalState_inv ws mdf
  have hpos : ∀ mc ∈ (resolveMapping ws mdf.cols).1, 1 ≤ mc.2 ∧ mc.2 ≤ headerWidth ws :=
    fun mc hm => resolveMapping_pos ws mdf.cols mc hm
  obtain ⟨hlast, hwidth⟩ := lastUsed_after_loop ws _ mdf.cols _ _ _ acc _ I rfl hne hpos
  have hexp : lastUsedRow (expandFiltersAndTables (ingestFinalState ws mdf).sheet)
      = lastUsedRow (ingestFinalState ws mdf).sheet :=
    lastUsedRow_of_grid_eq _ _ (expand_grid _)
  have hnorm : lastUsedRow (ingestFinalSheet ws mdf)
      = lastUsedRow (expandFiltersAndTables (ingestFinalState ws mdf).sheet) := by
    apply normalizePDC_lastUsedRow
    rw [hdrNonNone_congr _ _ (headers_of_grid_eq _ _ (expand_grid _))]
    rw [hdrNonNone_congr _ _ I.hdr]
    exact hne
  have h2 : (lastUsedRow (ingestFinalState ws mdf).sheet).2 = headerWidth ws := by
    rw [lastUsedRow_snd]
    exact hwidth
  rw [hnorm, hexp]
  exact Prod.ext hlast h2

/-- C10: row-count consistency of the result: every successful run returns
counts with rows_after = rows_before + rows_added, the last-used-row scan
after the writes landing exactly rows_added rows below the pre-run last
used row. -/
theorem claim_C10_row_count_consistency (m e r : Bool) (wb : List (String × Sheet))
    (raw : DataFrame) (res : IngestResult)
    (h : ingest_month_into_apr_bundle m e r wb raw = Except.ok res) :
    res.rows_after = res.rows_before + res.rows_added := by
  obtain ⟨hm, he, hr, hnd, ws, hlk⟩ := ingest_ok_flags m e r wb raw res h
  subst hm
  subst he
  subst hr
  by_cases hres : (resolveMapping ws (coerceAndDerive (normalizeColumns raw)).cols).1 = []
  · rw [ingest_true_empty wb raw ws hlk hres hnd] at h
    have h2 : _ = res := (Except.ok.injEq _ _).mp h
    rw [← h2]
    show (lastUsedRow ws).1 - 1 = (lastUsedRow ws).1 - 1 + 0
    omega
  · rw [ingest_true_write wb raw ws hlk hres hnd] at h
    have h2 : _ = res := (Except.ok.injEq _ _).mp h
    rw [← h2]
    dsimp only
    rw [ingestFinalSheet_lastUsedRow ws _ hres]
    dsimp only
    have hp := lastUsedRow_pos ws
    omega

theorem claim_C10_witness :
    ∃ res, ingest_month_into_apr_bundle true true true
        [(APR_SHEET, Sheet.mk [[Value.vstr "MSISDN"]] none [])] (DataFrame.mk [] [])
      = Except.ok res ∧ res.rows_after = res.rows_before + res.rows_added := by
  have h : ingest_month_into_apr_bundle true true true
      [(APR_SHEET, Sheet.mk [[Value.vstr "MSISDN"]] none [])] (DataFrame.mk [] [])
    = Except.ok
      { master_backup := true, rows_before := 0, rows_added := 0, rows_after := 0,
        dedupe_skipped := 0,
        unmapped_monthly_columns := ["Cust Name", "Cust Type", "Prod Name", "Amount",
          "Package Status", "API Credit Type", "Prod Code", "CRTR_ID"],
        unresolved_targets := [("Purchase Date", ["Purchase Date"])],
        resolved_map := [("MSISDN", 1)],
        sheet := Sheet.mk [[Value.vstr "MSISDN"]] none [] } := by rfl
  exact ⟨_, h, claim_C10_row_count_consistency _ _ _ _ _ _ h⟩

/-- C2: key determinism across the two reading paths: the ledger-row
normalization of _read_existing_keys and the monthly-row normalization of
_make_row_key are the same function on every field and value (dates
truncated to seconds, amounts parsed as floats with raw fallback, strings
stripped, missing values None), so a monthly row key is exactly the
field-wise ledger normalization of its values, with the same arity. -/
theorem claim_C2_key_determinism (cols : List String) (row : List Value) :
    makeRowKey cols row
      = DEDUPE_FIELDS.map (fun f => existingKeyPart f (dfGet cols row f))
    ∧ (makeRowKey cols row).length = DEDUPE_FIELDS.length :=
  ⟨rfl, by simp [makeRowKey]⟩

/-- C3 (corrected): records whose identity keys are all-None ARE
deduplicated against each other: once one such row is accepted, any later
row with the same all-None key is counted a duplicate and not written.  The
spec's null-safety sentence (all-null keys treated as unique) does not hold
of the code. -/
theorem claim_C3_allnull_dedup (resolved : List (String × Nat)) (cols : List String)
    (start : Nat) (st : LoopState) (r1 r2 : List Value)
    (h1 : makeRowKey cols r1 = DEDUPE_FIELDS.map (fun _ => Value.vnone))
    (h2 : makeRowKey cols r2 = DEDUPE_FIELDS.map (fun _ => Value.vnone))
    (hnotin : makeRowKey cols r1 ∉ st.keys)
    (hw : rowHasAny resolved cols r1 = true) :
    processRow resolved cols start (processRow resolved cols start st r1) r2
      = { processRow resolved cols start st r1 with
          dups := (processRow resolved cols start st r1).dups + 1 }
    ∧ (processRow resolved cols start st r1).written = st.written + 1 := by
  have hst1 := processRow_new_hasAny resolved cols start st r1 hnotin hw
  constructor
  · apply processRow_dup
    rw [hst1]
    show makeRowKey cols r2 ∈ makeRowKey cols r1 :: st.keys
    rw [h2, ← h1]
    exact List.mem_cons_self _ _
  · rw [hst1]

theorem claim_C3_witness :
    processRow [("Cust Name", 7)] ["Cust Name"] 2
        (processRow [("Cust Name", 7)] ["Cust Name"] 2
          (LoopState.mk (Sheet.mk [] none []) 0 0 []) [Value.vstr "A"]) [Value.vstr "B"]
      = { processRow [("Cust Name", 7)] ["Cust Name"] 2
            (LoopState.mk (Sheet.mk [] none []) 0 0 []) [Value.vstr "A"] with
          dups := (processRow [("Cust Name", 7)] ["Cust Name"] 2
            (LoopState.mk (Sheet.mk [] none []) 0 0 []) [Value.vstr "A"]).dups + 1 }
    ∧ (processRow [("Cust Name", 7)] ["Cust Name"] 2
        (LoopState.mk (Sheet.mk [] none []) 0 0 []) [Value.vstr "A"]).written = 0 + 1 :=
  claim_C3_allnull_dedup [("Cust Name", 7)] ["Cust Name"] 2
    (LoopState.mk (Sheet.mk [] none []) 0 0 []) [Value.vstr "A"] [Value.vstr "B"]
    rfl rfl (by simp) rfl

/-- C3 counterexample to the spec's sentence: an end-to-end run on two rows
both of whose keys are all-None writes only the first (rows_added = 1) and
skips the second as a duplicate (dedupe_skipped = 1), instead of ingesting
both. -/
theorem claim_C3_counterexample :
    (ingest_month_into_apr_bundle true true true [(APR_SHEET, exLedger)] exRawNull).map
      (fun r => (r.rows_added, r.dedupe_skipped)) = Except.ok (1, 1) := rfl

/-- C4 (corrected): the ledger-reading path does keep the raw value in the
amount key position when the cleaned text does not parse as a number; but on
the monthly-reading path the amount reaching the key has already been
coerced by _coerce_and_derive (pd.to_numeric errors="coerce"), so the key
position is None there, not the raw trimmed value.  The two paths disagree
on non-numeric amounts. -/
theorem claim_C4_amount_key (v : Value)
    (hnv : v ≠ Value.vnone)
    (hnum : ∀ q : Rat, v ≠ Value.vnum q)
    (hfail : parseFloat (cleanAmtStr (valToStr v)) = none) :
    existingKeyPart "PURCHASE_AMT" v = v ∧
    makeRowKeyPart "PURCHASE_AMT" (toNumericCleaned v) = Value.vnone := by
  constructor
  · rw [existingKeyPart_amt v hnv, hfail]
  · have h2 : toNumericCleaned v = Value.vnone := by
      cases v with
      | vnum q => exact absurd rfl (hnum q)
      | vnone =>
        unfold toNumericCleaned
        simp only [hfail]
      | vstr s =>
        unfold toNumericCleaned
        simp only [hfail]
      | vdate d =>
        unfold toNumericCleaned
        simp only [hfail]
    rw [h2]
    rfl

theorem claim_C4_witness :
    existingKeyPart "PURCHASE_AMT" (Value.vstr "abc") = Value.vstr "abc" ∧
    makeRowKeyPart "PURCHASE_AMT" (toNumericCleaned (Value.vstr "abc")) = Value.vnone :=
  claim_C4_amount_key (Value.vstr "abc") (by simp) (fun q h => Value.noConfusion h) rfl

/-- C4 counterexample to the spec's sentence: for a monthly row whose Amount
is the non-numeric text "abc", the identity key built on the monthly path
holds None in the amount position (fourth element), not the raw trimmed
value — the "never null" part fails on that path. -/
theorem claim_C4_counterexample :
    (readMonthFile true (DataFrame.mk ["MSISDN", "Amount"]
        [[Value.vstr "9", Value.vstr "abc"]])).map
      (fun mdf => mdf.rows.map (makeRowKey mdf.cols))
    = Except.ok [[Value.vstr "9", Value.vnone, Value.vnone, Value.vnone,
        Value.vnone, Value.vnone]] := rfl

/-- C5: append contiguity and cursor discipline: the write loop of any run
yields an acceptance list such that the accepted rows occupy the
consecutive rows immediately after the pre-run last used row (row
last+1+k holds exactly the written values of the k-th accepted row), every
accepted row had some resolved value to write (the cursor advances only
then, so written counts exactly the accepted rows and no blank row is
interposed even when inputs are skipped), all rows beyond last+written
stay blank within the scanned width, and all pre-existing rows are
untouched. -/
theorem claim_C5_append_contiguity (ws : Sheet) (mdf : DataFrame) :
    ∃ accepted : List (List Value),
      accepted.length = (ingestFinalState ws mdf).written
      ∧ (∀ k, k < (ingestFinalState ws mdf).written →
          rowHasAny (resolveMapping ws mdf.cols).1 mdf.cols (accepted.getD k []) = true
          ∧ ∀ mc ∈ (resolveMapping ws mdf.cols).1,
              getCell (ingestFinalState ws mdf).sheet ((lastUsedRow ws).1 + 1 + k) mc.2
                = writeVal mc.1 (dfGet mdf.cols (accepted.getD k []) mc.1))
      ∧ (∀ r c, (lastUsedRow ws).1 + 1 + (ingestFinalState ws mdf).written ≤ r → 1 ≤ c →
          c ≤ headerWidth ws → getCell (ingestFinalState ws mdf).sheet r c = Value.vnone)
      ∧ (∀ r c, 1 ≤ r → r ≤ (lastUsedRow ws).1 → 1 ≤ c →
          getCell (ingestFinalState ws mdf).sheet r c = getCell ws r c) := by
  obtain ⟨acc, I⟩ := ingestFinalState_inv ws mdf
  refine ⟨acc, I.acc_len, ?_, ?_, ?_⟩
  · intro k hk
    exact ⟨I.acc_any k hk, fun mc hm => I.acc_cells k hk mc hm⟩
  · intro r c h1 h2 h3
    exact I.high r c h1 h2 h3
  · intro r c h1 h2 h3
    exact I.low r c h1 (by omega) h3

/-- C6: the end-to-end dedup scenario: with ledger keys K1, K2, K3 (MSISDN
1, 2, 3) and monthly keys K2, K4, K5, K4, K6, the run writes exactly three
rows (4, 5 and 6, in order, right below the three existing ones), returns
rows_added = 3 and counts 2 duplicates (the K2 and the repeated K4), the
repeat being caught because each accepted key joins the key set at once. -/
theorem claim_C6_dedup_scenario :
    (ingest_month_into_apr_bundle true true true [(APR_SHEET, exLedger6)] exRaw6).map
      (fun r => (r.rows_added, r.dedupe_skipped, r.rows_before, r.rows_after,
        getCell r.sheet 5 1, getCell r.sheet 6 1, getCell r.sheet 7 1, getCell r.sheet 8 1))
    = Except.ok (3, 2, 3, 6, Value.vstr "4", Value.vstr "5", Value.vstr "6",
        Value.vnone) := rfl

/-- C7: the zero-mapping outcome is a non-error: for a monthly file whose
headers normalize without clashing (so _normalize_columns returns and the
run reaches the resolve step at all), when the resolved mapping is empty
the run still returns Except.ok with the backup taken, zero rows added,
rows_after = rows_before, the ledger sheet untouched, and the full
diagnostics (unmapped monthly labels and unresolved targets) in the
result. -/
theorem claim_C7_zero_mapping (wb : List (String × Sheet)) (raw : DataFrame) (ws : Sheet)
    (hlk : wb.lookup APR_SHEET = some ws)
    (hnd : (canonCols raw).Nodup)
    (hres : (resolveMapping ws (coerceAndDerive (normalizeColumns raw)).cols).1 = []) :
    ingest_month_into_apr_bundle true true true wb raw = Except.ok
      { master_backup := true,
        rows_before := (lastUsedRow ws).1 - 1,
        rows_added := 0,
        rows_after := (lastUsedRow ws).1 - 1,
        dedupe_skipped := 0,
        unmapped_monthly_columns :=
          (resolveMapping ws (coerceAndDerive (normalizeColumns raw)).cols).2.2,
        unresolved_targets :=
          (resolveMapping ws (coerceAndDerive (normalizeColumns raw)).cols).2.1,
        resolved_map := [],
        sheet := ws } :=
  ingest_true_empty wb raw ws hlk hres hnd

theorem claim_C7_witness :
    ingest_month_into_apr_bundle true true true
        [(APR_SHEET, Sheet.mk [[Value.vstr "Foo"]] none [])] exRawAmt = Except.ok
      { master_backup := true, rows_before := 0, rows_added := 0, rows_after := 0,
        dedupe_skipped := 0,
        unmapped_monthly_columns := ["Cust Type", "Prod Name", "Package Status",
          "API Credit Type", "Prod Code", "CRTR_ID"],
        unresolved_targets := [("Cust Name", ["CUSTOMER_NAME"]), ("MSISDN", ["MSISDN"]),
          ("Purchase Date", ["Purchase Date"]), ("Amount", ["PURCHASE_AMT"])],
        resolved_map := [],
        sheet := Sheet.mk [[Value.vstr "Foo"]] none [] } :=
  claim_C7_zero_mapping [(APR_SHEET, Sheet.mk [[Value.vstr "Foo"]] none [])] exRawAmt
    (Sheet.mk [[Value.vstr "Foo"]] none []) rfl (by decide) rfl

/-- C8 (corrected): a run succeeds exactly when the master file exists, the
month file exists and is readable, the alias rename of the monthly headers
leaves no duplicate canonical label, and the workbook holds the
"APR Bundle" sheet.  Missing files, an unreadable monthly file and a
missing APR sheet are fatal, and every error is raised before the ok-path
sheet is even produced, so the original ledger is untouched on the error
paths and a zero-rows-added success (Except.ok) is always distinguishable
from an error (Except.error); but one data-level header anomaly also
aborts: two monthly headers aliasing to one canonical label make the
empty-column scan of _normalize_columns raise an uncaught ValueError, so
unparseable individual values degrade to null/skip while that header
anomaly is fatal. -/
theorem claim_C8_fatal_errors (m e r : Bool) (wb : List (String × Sheet)) (raw : DataFrame) :
    (∃ res, ingest_month_into_apr_bundle m e r wb raw = Except.ok res)
      ↔ (m = true ∧ e = true ∧ r = true ∧ (canonCols raw).Nodup
          ∧ (wb.lookup APR_SHEET).isSome = true) := by
  constructor
  · intro ⟨res, h⟩
    obtain ⟨hm, he, hr, hnd, ws, hlk⟩ := ingest_ok_flags m e r wb raw res h
    exact ⟨hm, he, hr, hnd, by rw [hlk]; rfl⟩
  · intro ⟨hm, he, hr, hnd, hsome⟩
    subst hm
    subst he
    subst hr
    cases hlk : wb.lookup APR_SHEET with
    | none =>
      rw [hlk] at hsome
      cases hsome
    | some ws =>
      by_cases hres : (resolveMapping ws (coerceAndDerive (normalizeColumns raw)).cols).1 = []
      · exact ⟨_, ingest_true_empty wb raw ws hlk hres hnd⟩
      · exact ⟨_, ingest_true_write wb raw ws hlk hres hnd⟩

/-- C8 counterexample to the spec's sentence: a readable monthly file whose
headers "Amount" and "Purchase Amount" both alias to the canonical label
"Amount" aborts the run with an error even though both input files exist,
the file is readable and the ledger holds the APR Bundle sheet — a
data-level anomaly that does not degrade gracefully. -/
theorem claim_C8_counterexample :
    ingest_month_into_apr_bundle true true true [(APR_SHEET, exLedger)] exRawDup
      = Except.error "The truth value of a Series is ambiguous"
    ∧ ([(APR_SHEET, exLedger)].lookup APR_SHEET).isSome = true := ⟨rfl, rfl⟩

/-- C9 (corrected): after a run the AutoFilter reference is RESET to the
rectangle A1:(header-width column)(new last used row) — its previous start
cell and column span are discarded, not preserved — while every table
anchored at the header row is extended down to the new last used row with
its column letters kept (tables are lengthened, never widened; tables not
anchored at row 1 are left alone). -/
theorem claim_C9_range_extension (ws : Sheet) (rr : RangeRef)
    (haf : ws.autoFilterRef = some rr) :
    (expandFiltersAndTables ws).autoFilterRef
      = some (RangeRef.mk "A" 1 (colLetter (lastUsedRow ws).2) (lastUsedRow ws).1)
    ∧ (expandFiltersAndTables ws).tables = ws.tables.map
        (fun t => if t.startRow = 1 then RangeRef.mk t.startCol 1 t.endCol (lastUsedRow ws).1
          else t) := by
  constructor
  · show (match ws.autoFilterRef with
      | some _ => some (RangeRef.mk "A" 1 (colLetter (lastUsedRow ws).2) (lastUsedRow ws).1)
      | none => none) = _
    rw [haf]
  · rfl

theorem claim_C9_witness :
    (expandFiltersAndTables exLedger9).autoFilterRef
      = some (RangeRef.mk "A" 1 (colLetter (lastUsedRow exLedger9).2) (lastUsedRow exLedger9).1)
    ∧ (expandFiltersAndTables exLedger9).tables = exLedger9.tables.map
        (fun t => if t.startRow = 1 then
            RangeRef.mk t.startCol 1 t.endCol (lastUsedRow exLedger9).1
          else t) :=
  claim_C9_range_extension exLedger9 (RangeRef.mk "B" 1 "B" 2) rfl

/-- C9 counterexample to the spec's sentence: a filter that covered B1:B2
before the run covers A1:G3 after it — both its start column and its column
span changed, refuting "its start row and column span are unchanged". -/
theorem claim_C9_counterexample :
    (expandFiltersAndTables exLedger9).autoFilterRef = some (RangeRef.mk "A" 1 "G" 3)
    ∧ exLedger9.autoFilterRef = some (RangeRef.mk "B" 1 "B" 2) := ⟨rfl, rfl⟩

/-! DataFrame lemmas: column index, access, and the shape of the
_coerce_and_derive pipeline. -/

theorem getD_replicate {α : Type} (a : α) (n k : Nat) :
    (List.replicate n a).getD k a = a := by
  induction n generalizing k with
  | zero => cases k <;> rfl
  | succ m ih =>
    cases k with
    | zero => rfl
    | succ j => exact ih j

theorem indexOf?_some_spec (l : List String) (c : String) (i : Nat)
    (h : l.indexOf? c = some i) : i < l.length ∧ l.getD i "" = c := by
  induction l generalizing i with
  | nil =>
    rw [List.indexOf?_nil] at h
    cases h
  | cons x t ih =>
    rw [List.indexOf?_cons] at h
    by_cases hxc : x = c
    · rw [if_pos (by simpa using hxc)] at h
      have hi : i = 0 := ((Option.some.injEq _ _).mp h).symm
      subst hi
      exact ⟨by simp, by simpa using hxc⟩
    · rw [if_neg (by simpa using hxc)] at h
      cases ht : t.indexOf? c with
      | none =>
        rw [ht] at h
        cases h
      | some j =>
        rw [ht] at h
        have hij : i = j + 1 := ((Option.some.injEq _ _).mp h).symm
        subst hij
        obtain ⟨h1, h2⟩ := ih j ht
        refine ⟨by simpa using Nat.succ_lt_succ h1, by simpa using h2⟩

theorem indexOf?_append_left (l1 l2 : List String) (c : String) (i : Nat)
    (h : l1.indexOf? c = some i) : (l1 ++ l2).indexOf? c = some i := by
  induction l1 generalizing i with
  | nil =>
    rw [List.indexOf?_nil] at h
    cases h
  | cons x t ih =>
    rw [List.indexOf?_cons] at h
    rw [List.cons_append, List.indexOf?_cons]
    by_cases hxc : x = c
    · rw [if_pos (by simpa using hxc)] at h ⊢
      exact h
    · rw [if_neg (by simpa using hxc)] at h ⊢
      cases ht : t.indexOf? c with
      | none =>
        rw [ht] at h
        cases h
      | some j =>
        rw [ht] at h
        rw [ih j ht]
        exact h

theorem indexOf?_append_right (l1 l2 : List String) (c : String)
    (h : l1.indexOf? c = none) :
    (l1 ++ l2).indexOf? c = (l2.indexOf? c).map (fun j => l1.length + j) := by
  induction l1 with
  | nil => simp
  | cons x t ih =>
    rw [List.indexOf?_cons] at h
    rw [List.cons_append, List.indexOf?_cons]
    by_cases hxc : x = c
    · rw [if_pos (by simpa using hxc)] at h
      cases h
    · rw [if_neg (by simpa using hxc)] at h ⊢
      have ht : t.indexOf? c = none := by
        cases ht2 : t.indexOf? c with
        | none => rfl
        | some j =>
          rw [ht2] at h
          cases h
      rw [ih ht]
      cases hl2 : l2.indexOf? c with
      | none => rfl
      | some j =>
        show some (t.length + j + 1) = some ((x :: t).length + j)
        rw [List.length_cons]
        congr 1
        omega

theorem indexOf?_not_mem (l : List String) (c : String) (h : c ∉ l) :
    l.indexOf? c = none := by
  apply List.indexOf?_eq_none_iff.mpr
  intro x hx hbeq
  exact h (beq_iff_eq.mp hbeq ▸ hx)

theorem indexOf?_mem_isSome (l : List String) (c : String) (h : c ∈ l) :
    ∃ i, l.indexOf? c = some i := by
  cases hidx : l.indexOf? c with
  | some i => exact ⟨i, rfl⟩
  | none =>
    have h2 := List.indexOf?_eq_none_iff.mp hidx c h
    simp at h2

theorem contains_false_not_mem (l : List String) (c : String)
    (h : l.contains c = false) : c ∉ l := by
  intro hm
  have h2 : l.contains c = true := by simpa using hm
  rw [h] at h2
  cases h2

theorem contains_true_mem (l : List String) (c : String)
    (h : l.contains c = true) : c ∈ l := by simpa using h

theorem dfGet_not_mem (cols : List String) (row : List Value) (c : String)
    (h : c ∉ cols) : dfGet cols row c = Value.vnone := by
  unfold dfGet
  rw [indexOf?_not_mem cols c h]

theorem normalizeColumns_wf (df : DataFrame) : dfWF (normalizeColumns df) := by
  intro row hrow
  simp only [normalizeColumns, List.mem_map] at hrow
  obtain ⟨r0, _, hr0⟩ := hrow
  simp only [normalizeColumns, ← hr0, List.length_map]
  exact Nat.le_refl _

theorem dfMapCol_cols (df : DataFrame) (c : String) (f : Value → Value) :
    (dfMapCol df c f).cols = df.cols := by
  unfold dfMapCol
  cases hidx : df.cols.indexOf? c with
  | none => rfl
  | some i => rfl

theorem dfMapCol_wf (df : DataFrame) (c : String) (f : Value → Value)
    (hwf : dfWF df) : dfWF (dfMapCol df c f) := by
  intro row hrow
  rw [dfMapCol_cols]
  unfold dfMapCol at hrow
  cases hidx : df.cols.indexOf? c with
  | none =>
    rw [hidx] at hrow
    exact hwf row hrow
  | some i =>
    rw [hidx] at hrow
    have h2 : row ∈ df.rows.map
        (fun r => setAt r i Value.vnone (f (r.getD i Value.vnone))) := hrow
    obtain ⟨r0, hm, he⟩ := List.mem_map.mp h2
    have hlen : row.length = max r0.length (i + 1) := by
      rw [← he]
      exact length_setAt _ _ _ _
    obtain ⟨hilen, _⟩ := indexOf?_some_spec df.cols c i hidx
    have := hwf r0 hm
    omega

theorem dfMapCol_mem (df : DataFrame) (c : String) (f : Value → Value)
    (row2 : List Value) (h : row2 ∈ (dfMapCol df c f).rows) :
    ∃ row ∈ df.rows,
      (c ∈ df.cols → dfGet df.cols row2 c = f (dfGet df.cols row c))
      ∧ ∀ c2, c2 ≠ c → dfGet df.cols row2 c2 = dfGet df.cols row c2 := by
  unfold dfMapCol at h
  cases hidx : df.cols.indexOf? c with
  | none =>
    rw [hidx] at h
    refine ⟨row2, h, ?_, fun c2 _ => rfl⟩
    intro hc
    obtain ⟨i, hi⟩ := indexOf?_mem_isSome df.cols c hc
    rw [hidx] at hi
    cases hi
  | some i =>
    rw [hidx] at h
    have h2 : row2 ∈ df.rows.map
        (fun r => setAt r i Value.vnone (f (r.getD i Value.vnone))) := h
    obtain ⟨row, hrowm, hroweq⟩ := List.mem_map.mp h2
    obtain ⟨hilen, hival⟩ := indexOf?_some_spec df.cols c i hidx
    refine ⟨row, hrowm, ?_, ?_⟩
    · intro hc
      unfold dfGet
      rw [hidx, ← hroweq]
      show (setAt row i Value.vnone (f (row.getD i Value.vnone))).getD i Value.vnone
          = f (row.getD i Value.vnone)
      exact getD_setAt_self _ _ _ _
    · intro c2 hc2
      unfold dfGet
      cases hidx2 : df.cols.indexOf? c2 with
      | none => rfl
      | some j =>
        rw [← hroweq]
        obtain ⟨hjlen, hjval⟩ := indexOf?_some_spec df.cols c2 j hidx2
        have hji : j ≠ i := fun hE => hc2 (hjval.symm.trans (hE ▸ hival))
        show (setAt row i Value.vnone (f (row.getD i Value.vnone))).getD j Value.vnone
            = row.getD j Value.vnone
        exact getD_setAt_ne _ _ _ _ _ hji

theorem dfSetColFrom_cols_over (df : DataFrame) (c : String) (f : List Value → Value)
    (i : Nat) (hidx : df.cols.indexOf? c = some i) :
    (dfSetColFrom df c f).cols = df.cols := by
  unfold dfSetColFrom
  rw [hidx]

theorem dfSetColFrom_cols_app (df : DataFrame) (c : String) (f : List Value → Value)
    (hidx : df.cols.indexOf? c = none) :
    (dfSetColFrom df c f).cols = df.cols ++ [c] := by
  unfold dfSetColFrom
  rw [hidx]

theorem dfSetColFrom_mem_cols (df : DataFrame) (c : String) (f : List Value → Value)
    (c2 : String) (hne : c2 ≠ c) :
    (c2 ∈ (dfSetColFrom df c f).cols ↔ c2 ∈ df.cols) := by
  cases hidx : df.cols.indexOf? c with
  | some i =>
    rw [dfSetColFrom_cols_over df c f i hidx]
  | none =>
    rw [dfSetColFrom_cols_app df c f hidx]
    simp [hne]

theorem dfSetColFrom_wf (df : DataFrame) (c : String) (f : List Value → Value)
    (hwf : dfWF df) : dfWF (dfSetColFrom df c f) := by
  intro row hrow
  unfold dfSetColFrom at hrow
  cases hidx : df.cols.indexOf? c with
  | some i =>
    rw [hidx] at hrow
    have h2 : row ∈ df.rows.map (fun r => setAt r i Value.vnone (f r)) := hrow
    obtain ⟨r0, hm, he⟩ := List.mem_map.mp h2
    obtain ⟨hilen, _⟩ := indexOf?_some_spec df.cols c i hidx
    have := hwf r0 hm
    have hlen : row.length = max r0.length (i + 1) := by
      rw [← he]
      exact length_setAt _ _ _ _
    rw [dfSetColFrom_cols_over df c f i hidx]
    omega
  | none =>
    rw [hidx] at hrow
    have h2 : row ∈ df.rows.map
        (fun r => r ++ List.replicate (df.cols.length - r.length) Value.vnone ++ [f r]) := hrow
    obtain ⟨r0, hm, he⟩ := List.mem_map.mp h2
    have := hwf r0 hm
    have hlen : row.length = r0.length + (df.cols.length - r0.length) + 1 := by
      rw [← he]
      simp [List.length_append]
      omega
    rw [dfSetColFrom_cols_app df c f hidx]
    simp [List.length_append]
    omega

theorem dfSetColFrom_mem (df : DataFrame) (c : String) (f : List Value → Value)
    (hwf : dfWF df) (row2 : List Value) (h : row2 ∈ (dfSetColFrom df c f).rows) :
    ∃ row ∈ df.rows,
      dfGet (dfSetColFrom df c f).cols row2 c = f row
      ∧ ∀ c2, c2 ≠ c → dfGet (dfSetColFrom df c f).cols row2 c2 = dfGet df.cols row c2 := by
  unfold dfSetColFrom at h
  cases hidx : df.cols.indexOf? c with
  | some i =>
    rw [hidx] at h
    have h2 : row2 ∈ df.rows.map (fun r => setAt r i Value.vnone (f r)) := h
    obtain ⟨row, hm, he⟩ := List.mem_map.mp h2
    have hcols := dfSetColFrom_cols_over df c f i hidx
    obtain ⟨hilen, hival⟩ := indexOf?_some_spec df.cols c i hidx
    refine ⟨row, hm, ?_, ?_⟩
    · rw [hcols]
      unfold dfGet
      rw [hidx, ← he]
      show (setAt row i Value.vnone (f row)).getD i Value.vnone = f row
      exact getD_setAt_self _ _ _ _
    · intro c2 hc2
      rw [hcols]
      unfold dfGet
      cases hidx2 : df.cols.indexOf? c2 with
      | none => rfl
      | some j =>
        rw [← he]
        obtain ⟨hjlen, hjval⟩ := indexOf?_some_spec df.cols c2 j hidx2
        have hji : j ≠ i := fun hE => hc2 (hjval.symm.trans (hE ▸ hival))
        show (setAt row i Value.vnone (f row)).getD j Value.vnone = row.getD j Value.vnone
        exact getD_setAt_ne _ _ _ _ _ hji
  | none =>
    rw [hidx] at h
    have h2 : row2 ∈ df.rows.map
        (fun r => r ++ List.replicate (df.cols.length - r.length) Value.vnone ++ [f r]) := h
    obtain ⟨row, hm, he⟩ := List.mem_map.mp h2
    have hcols := dfSetColFrom_cols_app df c f hidx
    have hrl := hwf row hm
    have hlen2 : (row ++ List.replicate (df.cols.length - row.length) Value.vnone).length
        = df.cols.length := by
      simp [List.length_append]
      omega
    refine ⟨row, hm, ?_, ?_⟩
    · rw [hcols]
      unfold dfGet
      have hfull : (df.cols ++ [c]).indexOf? c = some df.cols.length := by
        rw [indexOf?_append_right df.cols [c] c hidx]
        rw [List.indexOf?_cons]
        rw [if_pos (by simp)]
        simp
      rw [hfull, ← he]
      show ((row ++ List.replicate (df.cols.length - row.length) Value.vnone) ++ [f row]).getD
          df.cols.length Value.vnone = f row
      rw [List.getD_append_right _ _ _ _ (le_of_eq hlen2)]
      rw [hlen2]
      simp
    · intro c2 hc2
      rw [hcols]
      unfold dfGet
      cases hidx2 : df.cols.indexOf? c2 with
      | none =>
        have hfull : (df.cols ++ [c]).indexOf? c2 = none := by
          rw [indexOf?_append_right df.cols [c] c2 hidx2]
          rw [List.indexOf?_cons]
          rw [if_neg (by simpa using fun hE => hc2 hE.symm)]
          simp
        rw [hfull]
      | some j =>
        have hfull : (df.cols ++ [c]).indexOf? c2 = some j :=
          indexOf?_append_left _ _ _ _ hidx2
        rw [hfull, ← he]
        obtain ⟨hjlen, _⟩ := indexOf?_some_spec df.cols c2 j hidx2
        show ((row ++ List.replicate (df.cols.length - row.length) Value.vnone) ++ [f row]).getD
            j Value.vnone = row.getD j Value.vnone
        rw [List.getD_append _ _ _ _ (by rw [hlen2]; exact hjlen)]
        rcases Nat.lt_or_ge j row.length with hj | hj
        · rw [List.getD_append _ _ _ _ hj]
        · rw [List.getD_append_right _ _ _ _ hj]
          rw [getD_replicate]
          rw [List.getD_eq_default _ _ hj]

theorem getD_mem_of_lt {α : Type} (l : List α) (i : Nat) (d : α) (h : i < l.length) :
    l.getD i d ∈ l := by
  induction l generalizing i with
  | nil => simp at h
  | cons x t ih =>
    cases i with
    | zero => exact List.mem_cons_self _ _
    | succ j => exact List.mem_cons_of_mem _ (ih j (by simpa using h))

theorem mem_of_indexOf?_some (l : List String) (c : String) (i : Nat)
    (h : l.indexOf? c = some i) : c ∈ l := by
  obtain ⟨h1, h2⟩ := indexOf?_some_spec l c i h
  exact h2 ▸ getD_mem_of_lt l i "" h1

theorem dfEnsureStep_contains (d : DataFrame) (c : String)
    (h : d.cols.contains c = true) : dfEnsureStep d c = d := by
  unfold dfEnsureStep
  rw [if_pos h]

theorem dfEnsureStep_new (d : DataFrame) (c : String)
    (h : d.cols.contains c = false) :
    dfEnsureStep d c = dfSetColFrom d c (fun _ => Value.vnone) := by
  unfold dfEnsureStep
  rw [if_neg (by rw [h]; simp)]

theorem dfEnsureStep_wf (d : DataFrame) (c : String) (hwf : dfWF d) :
    dfWF (dfEnsureStep d c) := by
  cases hc : d.cols.contains c with
  | true =>
    rw [dfEnsureStep_contains d c hc]
    exact hwf
  | false =>
    rw [dfEnsureStep_new d c hc]
    exact dfSetColFrom_wf d c _ hwf

theorem dfEnsure_wf (l : List String) (df : DataFrame) (hwf : dfWF df) :
    dfWF (l.foldl dfEnsureStep df) := by
  induction l generalizing df with
  | nil => exact hwf
  | cons c t ih =>
    simp only [List.foldl_cons]
    exact ih _ (dfEnsureStep_wf df c hwf)

theorem dfEnsure_mem (l : List String) (df : DataFrame) (hwf : dfWF df)
    (row2 : List Value) (h : row2 ∈ (l.foldl dfEnsureStep df).rows) :
    ∃ row ∈ df.rows, ∀ c2,
      dfGet (l.foldl dfEnsureStep df).cols row2 c2 = dfGet df.cols row c2 := by
  induction l generalizing df with
  | nil => exact ⟨row2, h, fun c2 => rfl⟩
  | cons c t ih =>
    simp only [List.foldl_cons] at h ⊢
    cases hc : df.cols.contains c with
    | true =>
      rw [dfEnsureStep_contains df c hc] at h ⊢
      exact ih df hwf h
    | false =>
      rw [dfEnsureStep_new df c hc] at h ⊢
      obtain ⟨row1, hm1, hspec⟩ := ih _ (dfSetColFrom_wf df c _ hwf) h
      obtain ⟨row0, hm0, hself, hother⟩ := dfSetColFrom_mem df c _ hwf row1 hm1
      refine ⟨row0, hm0, fun c2 => ?_⟩
      rw [hspec c2]
      by_cases hc2 : c2 = c
      · subst hc2
        rw [hself]
        rw [dfGet_not_mem df.cols row0 c2 (contains_false_not_mem _ _ hc)]
    
      · rw [hother c2 hc2]

theorem dfEnsure_cols_contains (l : List String) (df : DataFrame) (c2 : String)
    (h : c2 ∉ l) :
    (c2 ∈ (l.foldl dfEnsureStep df).cols ↔ c2 ∈ df.cols) := by
  induction l generalizing df with
  | nil => exact Iff.rfl
  | cons c t ih =>
    simp only [List.foldl_cons]
    have hne : c2 ≠ c := fun hE => h (hE ▸ List.mem_cons_self c t)
    have ht : c2 ∉ t := fun hE => h (List.mem_cons_of_mem _ hE)
    cases hc : df.cols.contains c with
    | true =>
      rw [dfEnsureStep_contains df c hc]
      exact ih df ht
    | false =>
      rw [dfEnsureStep_new df c hc]
      rw [ih _ ht]
      exact dfSetColFrom_mem_cols df c _ c2 hne

theorem dfEnsure_cols_self (l : List String) (df : DataFrame) (c : String) (hc : c ∈ l) :
    c ∈ (l.foldl dfEnsureStep df).cols := by
  induction l generalizing df with
  | nil => cases hc
  | cons x t ih =>
    simp only [List.foldl_cons]
    rcases List.mem_cons.mp hc with heq | hmem
    · subst heq
      by_cases hmem2 : c ∈ t
      · exact ih _ hmem2
      · rw [(dfEnsure_cols_contains t _ c hmem2)]
        cases hcc : df.cols.contains c with
        | true =>
          rw [dfEnsureStep_contains df c hcc]
          exact contains_true_mem _ _ hcc
        | false =>
          rw [dfEnsureStep_new df c hcc]
          cases hidx : df.cols.indexOf? c with
          | some i =>
            exact absurd (mem_of_indexOf?_some df.cols c i hidx)
              (contains_false_not_mem df.cols c hcc)
          | none =>
            rw [dfSetColFrom_cols_app df c _ hidx]
            simp
    · exact ih _ hmem

/-! Shape of the _coerce_and_derive pipeline. -/

theorem contains_of_mem (l : List String) (c : String) (h : c ∈ l) :
    l.contains c = true := by simpa using h

theorem cadDf2_cols (df0 : DataFrame) : (cadDf2 df0).cols = df0.cols := by
  unfold cadDf2 cadDf1
  rw [dfMapCol_cols, dfMapCol_cols]

theorem cadDf2_wf (df0 : DataFrame) (h : dfWF df0) : dfWF (cadDf2 df0) :=
  dfMapCol_wf _ _ _ (dfMapCol_wf _ _ _ h)

theorem cadDf3_true (df0 : DataFrame) (hc : (cadDf2 df0).cols.contains "Amount" = true) :
    cadDf3 df0 = dfSetColFrom (cadDf2 df0) "PURCHASE_AMT"
      (fun row => toNumericCleaned (dfGet (cadDf2 df0).cols row "Amount")) := by
  unfold cadDf3
  rw [if_pos hc]

theorem cadDf3_false (df0 : DataFrame) (hc : (cadDf2 df0).cols.contains "Amount" = false) :
    cadDf3 df0 = dfSetColFrom (cadDf2 df0) "PURCHASE_AMT" (fun _ => Value.vnone) := by
  unfold cadDf3
  rw [if_neg (by rw [hc]; simp)]

theorem cadDf3_wf (df0 : DataFrame) (h : dfWF df0) : dfWF (cadDf3 df0) := by
  cases hc : (cadDf2 df0).cols.contains "Amount" with
  | true =>
    rw [cadDf3_true df0 hc]
    exact dfSetColFrom_wf _ _ _ (cadDf2_wf df0 h)
  | false =>
    rw [cadDf3_false df0 hc]
    exact dfSetColFrom_wf _ _ _ (cadDf2_wf df0 h)

theorem cadDf4_wf (df0 : DataFrame) (h : dfWF df0) : dfWF (cadDf4 df0) :=
  dfSetColFrom_wf _ _ _ (cadDf3_wf df0 h)

theorem cadDf5_wf (df0 : DataFrame) (h : dfWF df0) : dfWF (cadDf5 df0) :=
  dfSetColFrom_wf _ _ _ (cadDf4_wf df0 h)

theorem cadDf6_wf (df0 : DataFrame) (h : dfWF df0) : dfWF (cadDf6 df0) :=
  dfSetColFrom_wf _ _ _ (cadDf5_wf df0 h)

theorem coerceAndDerive_wf (df0 : DataFrame) (h : dfWF df0) : dfWF (coerceAndDerive df0) :=
  dfEnsure_wf _ _ (cadDf6_wf df0 h)

theorem cadDf3_mem_cols (df0 : DataFrame) (c2 : String) (h : c2 ≠ "PURCHASE_AMT") :
    c2 ∈ (cadDf3 df0).cols ↔ c2 ∈ df0.cols := by
  cases hc : (cadDf2 df0).cols.contains "Amount" with
  | true =>
    rw [cadDf3_true df0 hc, dfSetColFrom_mem_cols _ _ _ _ h, cadDf2_cols]
  | false =>
    rw [cadDf3_false df0 hc, dfSetColFrom_mem_cols _ _ _ _ h, cadDf2_cols]

theorem cadDf4_mem_cols (df0 : DataFrame) (c2 : String) (h3 : c2 ≠ "PURCHASE_AMT")
    (h4 : c2 ≠ "PRODUCT_NAME") : c2 ∈ (cadDf4 df0).cols ↔ c2 ∈ df0.cols := by
  unfold cadDf4
  rw [dfSetColFrom_mem_cols _ _ _ _ h4]
  exact cadDf3_mem_cols df0 c2 h3

theorem cadDf5_mem_cols (df0 : DataFrame) (c2 : String) (h3 : c2 ≠ "PURCHASE_AMT")
    (h4 : c2 ≠ "PRODUCT_NAME") (h5 : c2 ≠ "PRODUCT_ID") :
    c2 ∈ (cadDf5 df0).cols ↔ c2 ∈ df0.cols := by
  unfold cadDf5
  rw [dfSetColFrom_mem_cols _ _ _ _ h5]
  exact cadDf4_mem_cols df0 c2 h3 h4

theorem cadDf6_mem_cols (df0 : DataFrame) (c2 : String) (h3 : c2 ≠ "PURCHASE_AMT")
    (h4 : c2 ≠ "PRODUCT_NAME") (h5 : c2 ≠ "PRODUCT_ID") (h6 : c2 ≠ "CONTRACT_ID") :
    c2 ∈ (cadDf6 df0).cols ↔ c2 ∈ df0.cols := by
  unfold cadDf6
  rw [dfSetColFrom_mem_cols _ _ _ _ h6]
  exact cadDf5_mem_cols df0 c2 h3 h4 h5

theorem coerceAndDerive_mem_cols (df0 : DataFrame) (c2 : String) (h : c2 ∉ DEDUPE_FIELDS) :
    c2 ∈ (coerceAndDerive df0).cols ↔ c2 ∈ df0.cols := by
  unfold coerceAndDerive
  rw [dfEnsure_cols_contains _ _ _ h]
  refine cadDf6_mem_cols df0 c2 ?_ ?_ ?_ ?_
  · intro hE
    exact h (by rw [hE]; decide)
  · intro hE
    exact h (by rw [hE]; decide)
  · intro hE
    exact h (by rw [hE]; decide)
  · intro hE
    exact h (by rw [hE]; decide)

theorem coerceAndDerive_has_dedupe (df0 : DataFrame) (f : String) (hf : f ∈ DEDUPE_FIELDS) :
    f ∈ (coerceAndDerive df0).cols :=
  dfEnsure_cols_self _ _ _ hf

/-- Internal consistency of a coerced monthly row: every derived dedupe
column of _coerce_and_derive holds exactly the value its monthly source
label prescribes. -/
theorem coerceAndDerive_row_spec (df0 : DataFrame) (hwf0 : dfWF df0) (row2 : List Value)
    (h : row2 ∈ (coerceAndDerive df0).rows) :
    dfGet (coerceAndDerive df0).cols row2 "PURCHASE_AMT"
        = toNumericCleaned (dfGet (coerceAndDerive df0).cols row2 "Amount")
    ∧ dfGet (coerceAndDerive df0).cols row2 "PRODUCT_NAME"
        = (if "Prod Name" ∈ (coerceAndDerive df0).cols then
            dfGet (coerceAndDerive df0).cols row2 "Prod Name" else Value.vnone)
    ∧ dfGet (coerceAndDerive df0).cols row2 "PRODUCT_ID"
        = (if "Prod Code" ∈ (coerceAndDerive df0).cols then
            dfGet (coerceAndDerive df0).cols row2 "Prod Code" else Value.vnone)
    ∧ dfGet (coerceAndDerive df0).cols row2 "CONTRACT_ID"
        = (if "CRTR_ID" ∈ (coerceAndDerive df0).cols then
            dfGet (coerceAndDerive df0).cols row2 "CRTR_ID" else Value.vnone) := by
  have hwf2 := cadDf2_wf df0 hwf0
  have hwf3 := cadDf3_wf df0 hwf0
  have hwf4 := cadDf4_wf df0 hwf0
  have hwf5 := cadDf5_wf df0 hwf0
  have hfold : row2 ∈ (DEDUPE_FIELDS.foldl dfEnsureStep (cadDf6 df0)).rows := h
  obtain ⟨row6, h6m, h6s⟩ :=
    dfEnsure_mem DEDUPE_FIELDS (cadDf6 df0) (cadDf6_wf df0 hwf0) row2 hfold
  have h6spec : ∀ c2, dfGet (coerceAndDerive df0).cols row2 c2
      = dfGet (cadDf6 df0).cols row6 c2 := h6s
  obtain ⟨row5, h5m, h6self, h6other⟩ :=
    dfSetColFrom_mem (cadDf5 df0) "CONTRACT_ID" _ hwf5 row6 h6m
  obtain ⟨row4, h4m, h5self, h5other⟩ :=
    dfSetColFrom_mem (cadDf4 df0) "PRODUCT_ID" _ hwf4 row5 h5m
  obtain ⟨row3, h3m, h4self, h4other⟩ :=
    dfSetColFrom_mem (cadDf3 df0) "PRODUCT_NAME" _ hwf3 row4 h4m
  have hchain : ∀ c2, c2 ≠ "CONTRACT_ID" → c2 ≠ "PRODUCT_ID" → c2 ≠ "PRODUCT_NAME" →
      dfGet (coerceAndDerive df0).cols row2 c2 = dfGet (cadDf3 df0).cols row3 c2 := by
    intro c2 hn6 hn5 hn4
    rw [h6spec c2]
    rw [show dfGet (cadDf6 df0).cols row6 c2 = dfGet (cadDf5 df0).cols row5 c2
      from h6other c2 hn6]
    rw [show dfGet (cadDf5 df0).cols row5 c2 = dfGet (cadDf4 df0).cols row4 c2
      from h5other c2 hn5]
    exact h4other c2 hn4
  refine ⟨?_, ?_, ?_, ?_⟩
  · rw [hchain "PURCHASE_AMT" (by decide) (by decide) (by decide)]
    rw [hchain "Amount" (by decide) (by decide) (by decide)]
    cases hAmt : (cadDf2 df0).cols.contains "Amount" with
    | true =>
      have h3m2 : row3 ∈ (dfSetColFrom (cadDf2 df0) "PURCHASE_AMT"
          (fun row => toNumericCleaned (dfGet (cadDf2 df0).cols row "Amount"))).rows := by
        rw [← cadDf3_true df0 hAmt]
        exact h3m
      obtain ⟨rowp, hpm, h3self, h3other⟩ :=
        dfSetColFrom_mem (cadDf2 df0) "PURCHASE_AMT" _ hwf2 row3 h3m2
      have e1 : dfGet (cadDf3 df0).cols row3 "PURCHASE_AMT"
          = toNumericCleaned (dfGet (cadDf2 df0).cols rowp "Amount") := by
        rw [cadDf3_true df0 hAmt]
        exact h3self
      have e2 : dfGet (cadDf3 df0).cols row3 "Amount"
          = dfGet (cadDf2 df0).cols rowp "Amount" := by
        rw [cadDf3_true df0 hAmt]
        exact h3other "Amount" (by decide)
      rw [e1, e2]
    | false =>
      have h3m2 : row3 ∈ (dfSetColFrom (cadDf2 df0) "PURCHASE_AMT"
          (fun _ => Value.vnone)).rows := by
        rw [← cadDf3_false df0 hAmt]
        exact h3m
      obtain ⟨rowp, hpm, h3self, h3other⟩ :=
        dfSetColFrom_mem (cadDf2 df0) "PURCHASE_AMT" _ hwf2 row3 h3m2
      have e1 : dfGet (cadDf3 df0).cols row3 "PURCHASE_AMT" = Value.vnone := by
        rw [cadDf3_false df0 hAmt]
        exact h3self
      have hnm : "Amount" ∉ (cadDf3 df0).cols := by
        rw [cadDf3_mem_cols df0 "Amount" (by decide), ← cadDf2_cols df0]
        exact contains_false_not_mem _ _ hAmt
      rw [e1, dfGet_not_mem _ _ _ hnm]
      rfl
  · have epn : dfGet (coerceAndDerive df0).cols row2 "PRODUCT_NAME"
        = dfGet (cadDf4 df0).cols row4 "PRODUCT_NAME" := by
      rw [h6spec _]
      rw [show dfGet (cadDf6 df0).cols row6 "PRODUCT_NAME"
          = dfGet (cadDf5 df0).cols row5 "PRODUCT_NAME" from h6other _ (by decide)]
      exact h5other _ (by decide)
    rw [epn]
    rw [show dfGet (cadDf4 df0).cols row4 "PRODUCT_NAME"
        = (if (cadDf3 df0).cols.contains "Prod Name" = true then
            dfGet (cadDf3 df0).cols row3 "Prod Name" else Value.vnone) from h4self]
    have hcond : ((cadDf3 df0).cols.contains "Prod Name" = true)
        ↔ "Prod Name" ∈ (coerceAndDerive df0).cols := by
      rw [coerceAndDerive_mem_cols df0 "Prod Name" (by decide)]
      rw [← cadDf3_mem_cols df0 "Prod Name" (by decide)]
      constructor
      · exact contains_true_mem _ _
      · exact contains_of_mem _ _
    by_cases hpn : (cadDf3 df0).cols.contains "Prod Name" = true
    · rw [if_pos hpn, if_pos (hcond.mp hpn)]
      rw [hchain "Prod Name" (by decide) (by decide) (by decide)]
    · rw [if_neg hpn, if_neg (fun hE => hpn (hcond.mpr hE))]
  · have epi : dfGet (coerceAndDerive df0).cols row2 "PRODUCT_ID"
        = dfGet (cadDf5 df0).cols row5 "PRODUCT_ID" := by
      rw [h6spec _]
      exact h6other _ (by decide)
    rw [epi]
    rw [show dfGet (cadDf5 df0).cols row5 "PRODUCT_ID"
        = (if (cadDf4 df0).cols.contains "Prod Code" = true then
            dfGet (cadDf4 df0).cols row4 "Prod Code" else Value.vnone) from h5self]
    have hcond : ((cadDf4 df0).cols.contains "Prod Code" = true)
        ↔ "Prod Code" ∈ (coerceAndDerive df0).cols := by
      rw [coerceAndDerive_mem_cols df0 "Prod Code" (by decide)]
      rw [← cadDf4_mem_cols df0 "Prod Code" (by decide) (by decide)]
      constructor
      · exact contains_true_mem _ _
      · exact contains_of_mem _ _
    by_cases hpc : (cadDf4 df0).cols.contains "Prod Code" = true
    · rw [if_pos hpc, if_pos (hcond.mp hpc)]
      rw [hchain "Prod Code" (by decide) (by decide) (by decide)]
      rw [show dfGet (cadDf4 df0).cols row4 "Prod Code"
          = dfGet (cadDf3 df0).cols row3 "Prod Code" from h4other _ (by decide)]
    · rw [if_neg hpc, if_neg (fun hE => hpc (hcond.mpr hE))]
  · rw [h6spec _]
    rw [show dfGet (cadDf6 df0).cols row6 "CONTRACT_ID"
        = (if (cadDf5 df0).cols.contains "CRTR_ID" = true then
            dfGet (cadDf5 df0).cols row5 "CRTR_ID" else Value.vnone) from h6self]
    have hcond : ((cadDf5 df0).cols.contains "CRTR_ID" = true)
        ↔ "CRTR_ID" ∈ (coerceAndDerive df0).cols := by
      rw [coerceAndDerive_mem_cols df0 "CRTR_ID" (by decide)]
      rw [← cadDf5_mem_cols df0 "CRTR_ID" (by decide) (by decide) (by decide)]
      constructor
      · exact contains_true_mem _ _
      · exact contains_of_mem _ _
    by_cases hcr : (cadDf5 df0).cols.contains "CRTR_ID" = true
    · rw [if_pos hcr, if_pos (hcond.mp hcr)]
      rw [hchain "CRTR_ID" (by decide) (by decide) (by decide)]
      rw [show dfGet (cadDf5 df0).cols row5 "CRTR_ID"
          = dfGet (cadDf4 df0).cols row4 "CRTR_ID" from h5other _ (by decide)]
      rw [show dfGet (cadDf4 df0).cols row4 "CRTR_ID"
          = dfGet (cadDf3 df0).cols row3 "CRTR_ID" from h4other _ (by decide)]
    · rw [if_neg hcr, if_neg (fun hE => hcr (hcond.mpr hE))]

/-! Header agreement facts and resolution congruence. -/

theorem dedupeHeadersOk_spec (ws : Sheet) (hok : dedupeHeadersOk ws = true)
    (f : String) (hf : f ∈ DEDUPE_FIELDS) :
    findHeaderCol ws f = some (dcol ws f)
    ∧ aprHeaderLookup ws (normStr f) = some (dcol ws f) := by
  have h := List.all_eq_true.mp hok f hf
  cases hf1 : findHeaderCol ws f with
  | none =>
    cases hf2 : aprHeaderLookup ws (normStr f) with
    | none =>
      rw [hf1, hf2] at h
      simp at h
    | some c2 =>
      rw [hf1, hf2] at h
      simp at h
  | some c1 =>
    cases hf2 : aprHeaderLookup ws (normStr f) with
    | none =>
      rw [hf1, hf2] at h
      simp at h
    | some c2 =>
      rw [hf1, hf2] at h
      have hc : c1 = c2 := by simpa using h
      subst hc
      constructor
      · unfold dcol
        rw [hf1]
        rfl
      · unfold dcol
        rw [hf1]
        rfl

theorem dedupe_norm_inj :
    ∀ f1 ∈ DEDUPE_FIELDS, ∀ f2 ∈ DEDUPE_FIELDS, normStr f1 = normStr f2 → f1 = f2 := by
  decide

theorem dedupe_src_unique :
    ∀ e ∈ COLUMN_MAP, ∀ t ∈ e.2, ∀ f ∈ DEDUPE_FIELDS,
      normStr t = normStr f → e.1 = dedupeSrc f := by
  decide

theorem dedupe_entry_mem :
    ∀ f ∈ DEDUPE_FIELDS, (dedupeSrc f, [f]) ∈ COLUMN_MAP := by
  decide

theorem dcol_inj (ws : Sheet) (hok : dedupeHeadersOk ws = true)
    (f1 : String) (hf1 : f1 ∈ DEDUPE_FIELDS) (f2 : String) (hf2 : f2 ∈ DEDUPE_FIELDS)
    (h : dcol ws f1 = dcol ws f2) : f1 = f2 := by
  have h1 := (dedupeHeadersOk_spec ws hok f1 hf1).2
  have h2 := (dedupeHeadersOk_spec ws hok f2 hf2).2
  rw [h] at h1
  exact dedupe_norm_inj f1 hf1 f2 hf2 (aprHeaderLookup_inj ws _ _ _ h1 h2)

theorem aprHeaderLookup_congr (ws1 ws2 : Sheet) (h : headers ws1 = headers ws2)
    (key : String) : aprHeaderLookup ws1 key = aprHeaderLookup ws2 key := by
  unfold aprHeaderLookup
  simp only [h]

theorem findHeaderCol_congr (ws1 ws2 : Sheet) (h : headers ws1 = headers ws2)
    (key : String) : findHeaderCol ws1 key = findHeaderCol ws2 key := by
  unfold findHeaderCol
  simp only [h]

theorem resolveTargetCol_congr (ws1 ws2 : Sheet) (h : headers ws1 = headers ws2)
    (targets : List String) :
    resolveTargetCol ws1 targets = resolveTargetCol ws2 targets := by
  induction targets with
  | nil => rfl
  | cons t rest ih =>
    unfold resolveTargetCol
    rw [aprHeaderLookup_congr ws1 ws2 h (normStr t), ih]

theorem resolveStep_congr (ws1 ws2 : Sheet) (h : headers ws1 = headers ws2)
    (mcols : List String)
    (acc : List (String × Nat) × List (String × List String) × List String)
    (entry : String × List String) :
    resolveStep ws1 mcols acc entry = resolveStep ws2 mcols acc entry := by
  unfold resolveStep
  rw [resolveTargetCol_congr ws1 ws2 h entry.2]

theorem resolveMapping_congr (ws1 ws2 : Sheet) (h : headers ws1 = headers ws2)
    (mcols : List String) : resolveMapping ws1 mcols = resolveMapping ws2 mcols := by
  unfold resolveMapping
  have hgen : ∀ (l : List (String × List String))
      (acc : List (String × Nat) × List (String × List String) × List String),
      l.foldl (resolveStep ws1 mcols) acc = l.foldl (resolveStep ws2 mcols) acc := by
    intro l
    induction l with
    | nil => intro acc; rfl
    | cons e t ih =>
      intro acc
      simp only [List.foldl_cons]
      rw [resolveStep_congr ws1 ws2 h mcols acc e, ih]
  exact hgen COLUMN_MAP _

theorem presentFields_congr (ws1 ws2 : Sheet) (h : headers ws1 = headers ws2) :
    presentFields ws1 = presentFields ws2 := by
  unfold presentFields
  simp only [findHeaderCol_congr ws1 ws2 h]

theorem presentFields_of_ok (ws : Sheet) (hok : dedupeHeadersOk ws = true) :
    presentFields ws = DEDUPE_FIELDS.map (fun f => (f, dcol ws f)) := by
  unfold presentFields
  have hgen : ∀ l : List String, (∀ f ∈ l, findHeaderCol ws f = some (dcol ws f)) →
      l.filterMap (fun f => (findHeaderCol ws f).map (fun c => (f, c)))
        = l.map (fun f => (f, dcol ws f)) := by
    intro l
    induction l with
    | nil => intro hl; rfl
    | cons f t ih =>
      intro hl
      rw [List.filterMap_cons, hl f (List.mem_cons_self _ _)]
      show (f, dcol ws f) :: t.filterMap (fun g => (findHeaderCol ws g).map (fun c => (g, c)))
          = (f, dcol ws f) :: t.map (fun g => (g, dcol ws g))
      rw [ih (fun g hg => hl g (List.mem_cons_of_mem _ hg))]
  exact hgen DEDUPE_FIELDS (fun f hf => (dedupeHeadersOk_spec ws hok f hf).1)

theorem presentFields_of_ok_ne (ws : Sheet) (hok : dedupeHeadersOk ws = true) :
    presentFields ws ≠ [] := by
  rw [presentFields_of_ok ws hok]
  simp [DEDUPE_FIELDS]

theorem readExistingKeys_eq (ws : Sheet) (hne : presentFields ws ≠ []) :
    readExistingKeys ws
      = (List.range' 2 ((lastUsedRow ws).1 - 1)).map (rowKeyAt ws (presentFields ws)) := by
  unfold readExistingKeys
  rw [if_neg hne]

theorem resolveMapping_mem_of (ws : Sheet) (mcols : List String) (entry : String × List String)
    (hentry : entry ∈ COLUMN_MAP) (hc : mcols.contains entry.1 = true) (c : Nat)
    (hr : resolveTargetCol ws entry.2 = some c) :
    (entry.1, c) ∈ (resolveMapping ws mcols).1 := by
  have hmono : ∀ (l : List (String × List String))
      (acc : List (String × Nat) × List (String × List String) × List String)
      (e0 : String × Nat), e0 ∈ acc.1 →
      e0 ∈ (l.foldl (resolveStep ws mcols) acc).1 := by
    intro l
    induction l with
    | nil => intro acc e0 h0; exact h0
    | cons e t ih =>
      intro acc e0 h0
      simp only [List.foldl_cons]
      apply ih
      by_cases hce : mcols.contains e.1 = true
      · cases hrt : resolveTargetCol ws e.2 with
        | none =>
          rw [resolveStep_unresolved ws mcols acc e hce hrt]
          exact h0
        | some c2 =>
          rw [resolveStep_resolved ws mcols acc e c2 hce hrt]
          exact List.mem_append_left _ h0
      · rw [resolveStep_missing ws mcols acc e (eqFalseOfNeTrue _ hce)]
        exact h0
  have hgen : ∀ (l : List (String × List String))
      (acc : List (String × Nat) × List (String × List String) × List String),
      entry ∈ l → (entry.1, c) ∈ (l.foldl (resolveStep ws mcols) acc).1 := by
    intro l
    induction l with
    | nil => intro acc h0; cases h0
    | cons e t ih =>
      intro acc h0
      simp only [List.foldl_cons]
      rcases List.mem_cons.mp h0 with heq | hmem
      · subst heq
        apply hmono
        rw [resolveStep_resolved ws mcols acc entry c hc hr]
        exact List.mem_append_right _ (List.mem_singleton.mpr rfl)
      · exact ih _ hmem
  exact hgen COLUMN_MAP _ hentry

theorem resolveTargetCol_single (ws : Sheet) (t : String) :
    resolveTargetCol ws [t] = aprHeaderLookup ws (normStr t) := by
  unfold resolveTargetCol
  cases h : aprHeaderLookup ws (normStr t) with
  | some c => rfl
  | none => rfl

/-! Cells of the persisted sheet. -/

theorem ingestFinalSheet_headers (ws : Sheet) (mdf : DataFrame) :
    headers (ingestFinalSheet ws mdf) = headers ws := by
  obtain ⟨acc, I⟩ := ingestFinalState_inv ws mdf
  unfold ingestFinalSheet
  rw [normalizePDC_headers, headers_of_grid_eq _ _ (expand_grid _)]
  exact I.hdr

theorem ingestFinalSheet_getCell (ws : Sheet) (mdf : DataFrame) (r c : Nat)
    (hr : 1 ≤ r) (hc : 1 ≤ c) :
    getCell (ingestFinalSheet ws mdf) r c
      = (match findHeaderCol ws "Purchase Date" with
         | none => getCell (ingestFinalState ws mdf).sheet r c
         | some col =>
           if c = col ∧ 2 ≤ r ∧ r ≤ (lastUsedRow (ingestFinalState ws mdf).sheet).1
           then normDateVal (getCell (ingestFinalState ws mdf).sheet r c)
           else getCell (ingestFinalState ws mdf).sheet r c) := by
  obtain ⟨acc, I⟩ := ingestFinalState_inv ws mdf
  have hgr := expand_grid (ingestFinalState ws mdf).sheet
  have hhd : headers (expandFiltersAndTables (ingestFinalState ws mdf).sheet)
      = headers ws := by
    rw [headers_of_grid_eq _ _ hgr]
    exact I.hdr
  have h1 := normalizePDC_getCell (expandFiltersAndTables (ingestFinalState ws mdf).sheet)
    r c hr hc
  rw [findHeaderCol_congr _ ws hhd] at h1
  rw [lastUsedRow_of_grid_eq _ _ hgr] at h1
  simp only [getCell_of_grid_eq _ _ hgr] at h1
  exact h1

theorem mem_exists_getD {α : Type} (l : List α) (a : α) (d : α) (h : a ∈ l) :
    ∃ k, k < l.length ∧ l.getD k d = a := by
  induction l with
  | nil => cases h
  | cons x t ih =>
    rcases List.mem_cons.mp h with heq | hm
    · exact ⟨0, by simp, heq.symm⟩
    · obtain ⟨k, hk, he⟩ := ih hm
      exact ⟨k + 1, by simpa using Nat.succ_lt_succ hk, he⟩

theorem map_congr_mem {α β : Type} (l : List α) (f g : α → β)
    (h : ∀ a ∈ l, f a = g a) : l.map f = l.map g := by
  induction l with
  | nil => rfl
  | cons x t ih =>
    simp only [List.map_cons]
    rw [h x (List.mem_cons_self x t), ih (fun a ha => h a (List.mem_cons_of_mem _ ha))]

/-- The written cell of a new row in a dedupe column: the coerced monthly
value when the monthly source label exists, otherwise still blank. -/
theorem finalCell (ws : Sheet) (mdf : DataFrame) (hok : dedupeHeadersOk ws = true)
    (acc : List (List Value))
    (I : LoopInv ws (resolveMapping ws mdf.cols).1 mdf.cols ((lastUsedRow ws).1 + 1)
      (headerWidth ws) (readExistingKeys ws) mdf.rows acc (ingestFinalState ws mdf))
    (k : Nat) (hk : k < (ingestFinalState ws mdf).written)
    (f : String) (hf : f ∈ DEDUPE_FIELDS) :
    getCell (ingestFinalState ws mdf).sheet ((lastUsedRow ws).1 + 1 + k) (dcol ws f)
      = (if (dedupeSrc f) ∈ mdf.cols then
          writeVal (dedupeSrc f) (dfGet mdf.cols (acc.getD k []) (dedupeSrc f))
        else Value.vnone) := by
  obtain ⟨hfind, hlkp⟩ := dedupeHeadersOk_spec ws hok f hf
  by_cases hsrc : (dedupeSrc f) ∈ mdf.cols
  · rw [if_pos hsrc]
    have hres : ((dedupeSrc f, [f]).1, dcol ws f) ∈ (resolveMapping ws mdf.cols).1 := by
      apply resolveMapping_mem_of ws mdf.cols (dedupeSrc f, [f]) (dedupe_entry_mem f hf)
        (contains_of_mem _ _ hsrc)
      rw [resolveTargetCol_single]
      exact hlkp
    exact I.acc_cells k hk (dedupeSrc f, dcol ws f) hres
  · rw [if_neg hsrc]
    apply I.acc_blank k hk
    · obtain ⟨h1, _, _, _⟩ := aprHeaderLookup_spec ws _ _ hlkp
      exact h1
    · exact aprHeaderLookup_le_headerWidth ws _ _ hlkp
    · intro hmem
      obtain ⟨e, he, he2⟩ := List.mem_map.mp hmem
      obtain ⟨tg, htg, hcont, hrtc⟩ := resolveMapping_mem ws mdf.cols e he
      obtain ⟨t, htm, hl⟩ := resolveTargetCol_spec ws tg e.2 hrtc
      rw [he2] at hl
      have hnorm : normStr t = normStr f := aprHeaderLookup_inj ws _ _ _ hl hlkp
      have hsrceq : e.1 = dedupeSrc f :=
        dedupe_src_unique (e.1, tg) htg t htm f hf hnorm
      rw [hsrceq] at hcont
      exact hsrc (contains_true_mem _ _ hcont)

theorem generic_keyPart_write (f m : String)
    (hf1 : f ≠ "Purchase Date") (hf2 : f ≠ "PURCHASE_AMT")
    (hm1 : m ≠ "Amount") (hm2 : m ≠ "Purchase Date") (v : Value) :
    existingKeyPart f (writeVal m v) = makeRowKeyPart f v := by
  rw [writeVal_generic m hm1 hm2, keyPart_coerce f hf1 hf2]
  rfl

set_option maxHeartbeats 2000000 in
/-- The identity key _read_existing_keys computes from a freshly written row
of the persisted sheet is exactly the monthly key of the accepted row it was
written from. -/
theorem newRow_key (ws : Sheet) (mdf : DataFrame) (hok : dedupeHeadersOk ws = true)
    (hE : ∀ row ∈ mdf.rows,
      dfGet mdf.cols row "PURCHASE_AMT" = toNumericCleaned (dfGet mdf.cols row "Amount")
      ∧ dfGet mdf.cols row "PRODUCT_NAME"
          = (if "Prod Name" ∈ mdf.cols then dfGet mdf.cols row "Prod Name" else Value.vnone)
      ∧ dfGet mdf.cols row "PRODUCT_ID"
          = (if "Prod Code" ∈ mdf.cols then dfGet mdf.cols row "Prod Code" else Value.vnone)
      ∧ dfGet mdf.cols row "CONTRACT_ID"
          = (if "CRTR_ID" ∈ mdf.cols then dfGet mdf.cols row "CRTR_ID" else Value.vnone))
    (hamt : ∀ row ∈ mdf.rows, amountValOk (dfGet mdf.cols row "Amount") = true)
    (acc : List (List Value))
    (I : LoopInv ws (resolveMapping ws mdf.cols).1 mdf.cols ((lastUsedRow ws).1 + 1)
      (headerWidth ws) (readExistingKeys ws) mdf.rows acc (ingestFinalState ws mdf))
    (k : Nat) (hk : k < (ingestFinalState ws mdf).written) :
    rowKeyAt (ingestFinalSheet ws mdf) (presentFields ws) ((lastUsedRow ws).1 + 1 + k)
      = makeRowKey mdf.cols (acc.getD k []) := by
  have hlk_ms := (dedupeHeadersOk_spec ws hok "MSISDN" (by decide)).2
  have hnn : hdrNonNone ws ≠ [] := hdrNonNone_ne_of_lookup ws _ _ hlk_ms
  have hpos : ∀ mc ∈ (resolveMapping ws mdf.cols).1, 1 ≤ mc.2 ∧ mc.2 ≤ headerWidth ws :=
    fun mc hm => resolveMapping_pos ws mdf.cols mc hm
  obtain ⟨hlast, hwidth⟩ := lastUsed_after_loop ws _ mdf.cols _ _ _ acc _ I rfl hnn hpos
  have hrowmem : acc.getD k [] ∈ mdf.rows := by
    apply I.acc_src
    apply getD_mem_of_lt
    rw [I.acc_len]
    exact hk
  obtain ⟨hE1, hE2, hE3, hE4⟩ := hE _ hrowmem
  have hamt2 := hamt _ hrowmem
  have hD := dedupeHeadersOk_spec ws hok "Purchase Date" (by decide)
  have hlu1 := lastUsedRow_pos ws
  rw [presentFields_of_ok ws hok]
  unfold rowKeyAt makeRowKey
  rw [List.map_map]
  apply map_congr_mem
  intro f hf
  have specf := dedupeHeadersOk_spec ws hok f hf
  have hcpos : 1 ≤ dcol ws f := (aprHeaderLookup_spec ws _ _ specf.2).1
  show existingKeyPart f
      (getCell (ingestFinalSheet ws mdf) ((lastUsedRow ws).1 + 1 + k) (dcol ws f))
      = makeRowKeyPart f (dfGet mdf.cols (acc.getD k []) f)
  rw [ingestFinalSheet_getCell ws mdf _ _ (by omega) hcpos, hD.1]
  show existingKeyPart f
      (if dcol ws f = dcol ws "Purchase Date" ∧ 2 ≤ (lastUsedRow ws).1 + 1 + k
          ∧ (lastUsedRow ws).1 + 1 + k ≤ (lastUsedRow (ingestFinalState ws mdf).sheet).1
        then normDateVal (getCell (ingestFinalState ws mdf).sheet
          ((lastUsedRow ws).1 + 1 + k) (dcol ws f))
        else getCell (ingestFinalState ws mdf).sheet
          ((lastUsedRow ws).1 + 1 + k) (dcol ws f))
      = makeRowKeyPart f (dfGet mdf.cols (acc.getD k []) f)
  have hcell := finalCell ws mdf hok acc I k hk f hf
  by_cases hfD : f = "Purchase Date"
  · subst hfD
    rw [if_pos ⟨rfl, by omega, by omega⟩]
    rw [hcell]
    rw [show dedupeSrc "Purchase Date" = "Purchase Date" from rfl]
    by_cases hmem : "Purchase Date" ∈ mdf.cols
    · rw [if_pos hmem]
      rw [keyPart_date_normDateVal _ (fun q => writeVal_date_not_num _ q), keyPart_date_write]
      rfl
    · rw [if_neg hmem]
      rw [show normDateVal Value.vnone = Value.vnone from rfl]
      rw [dfGet_not_mem _ _ _ hmem]
      rfl
  · have hnecol : dcol ws f ≠ dcol ws "Purchase Date" := by
      intro hEq
      exact hfD (dcol_inj ws hok f hf "Purchase Date" (by decide) hEq)
    rw [if_neg (fun hAnd => hnecol hAnd.1)]
    rw [hcell]
    have hf6 : f = "MSISDN" ∨ f = "Purchase Date" ∨ f = "PRODUCT_NAME"
        ∨ f = "PURCHASE_AMT" ∨ f = "CONTRACT_ID" ∨ f = "PRODUCT_ID" := by
      simpa [DEDUPE_FIELDS] using hf
    rcases hf6 with rfl | rfl | rfl | rfl | rfl | rfl
    · rw [show dedupeSrc "MSISDN" = "MSISDN" from rfl]
      by_cases hmem : "MSISDN" ∈ mdf.cols
      · rw [if_pos hmem]
        exact generic_keyPart_write _ _ (by decide) (by decide) (by decide) (by decide) _
      · rw [if_neg hmem, dfGet_not_mem _ _ _ hmem]
        rfl
    · exact absurd rfl hfD
    · rw [show dedupeSrc "PRODUCT_NAME" = "Prod Name" from rfl]
      by_cases hmem : "Prod Name" ∈ mdf.cols
      · rw [if_pos hmem]
        rw [generic_keyPart_write _ _ (by decide) (by decide) (by decide) (by decide) _]
        rw [hE2, if_pos hmem]
      · rw [if_neg hmem, hE2, if_neg hmem]
        rfl
    · rw [show dedupeSrc "PURCHASE_AMT" = "Amount" from rfl]
      by_cases hmem : "Amount" ∈ mdf.cols
      · rw [if_pos hmem]
        rw [keyPart_amt_write _ hamt2]
        rw [hE1]
        rfl
      · rw [if_neg hmem, hE1, dfGet_not_mem _ _ _ hmem]
        rfl
    · rw [show dedupeSrc "CONTRACT_ID" = "CRTR_ID" from rfl]
      by_cases hmem : "CRTR_ID" ∈ mdf.cols
      · rw [if_pos hmem]
        rw [generic_keyPart_write _ _ (by decide) (by decide) (by decide) (by decide) _]
        rw [hE4, if_pos hmem]
      · rw [if_neg hmem, hE4, if_neg hmem]
        rfl
    · rw [show dedupeSrc "PRODUCT_ID" = "Prod Code" from rfl]
      by_cases hmem : "Prod Code" ∈ mdf.cols
      · rw [if_pos hmem]
        rw [generic_keyPart_write _ _ (by decide) (by decide) (by decide) (by decide) _]
        rw [hE3, if_pos hmem]
      · rw [if_neg hmem, hE3, if_neg hmem]
        rfl

set_option maxHeartbeats 1000000 in
/-- The identity key of a pre-existing ledger row is unchanged by the run:
the write loop leaves rows at or below the old last used row alone, and the
date renormalization of the Purchase Date column does not move the date key
position. -/
theorem oldRow_key (ws : Sheet) (mdf : DataFrame) (hok : dedupeHeadersOk ws = true)
    (acc : List (List Value))
    (I : LoopInv ws (resolveMapping ws mdf.cols).1 mdf.cols ((lastUsedRow ws).1 + 1)
      (headerWidth ws) (readExistingKeys ws) mdf.rows acc (ingestFinalState ws mdf))
    (r : Nat) (h2 : 2 ≤ r) (hle : r ≤ (lastUsedRow ws).1)
    (hdater : ∀ q, getCell ws r (dcol ws "Purchase Date") ≠ Value.vnum q) :
    rowKeyAt (ingestFinalSheet ws mdf) (presentFields ws) r
      = rowKeyAt ws (presentFields ws) r := by
  have hD := dedupeHeadersOk_spec ws hok "Purchase Date" (by decide)
  have hlk_ms := (dedupeHeadersOk_spec ws hok "MSISDN" (by decide)).2
  have hnn : hdrNonNone ws ≠ [] := hdrNonNone_ne_of_lookup ws _ _ hlk_ms
  have hpos : ∀ mc ∈ (resolveMapping ws mdf.cols).1, 1 ≤ mc.2 ∧ mc.2 ≤ headerWidth ws :=
    fun mc hm => resolveMapping_pos ws mdf.cols mc hm
  obtain ⟨hlast, hwidth⟩ := lastUsed_after_loop ws _ mdf.cols _ _ _ acc _ I rfl hnn hpos
  rw [presentFields_of_ok ws hok]
  unfold rowKeyAt
  rw [List.map_map, List.map_map]
  apply map_congr_mem
  intro f hf
  have specf := dedupeHeadersOk_spec ws hok f hf
  have hcpos : 1 ≤ dcol ws f := (aprHeaderLookup_spec ws _ _ specf.2).1
  show existingKeyPart f (getCell (ingestFinalSheet ws mdf) r (dcol ws f))
      = existingKeyPart f (getCell ws r (dcol ws f))
  rw [ingestFinalSheet_getCell ws mdf r _ (by omega) hcpos, hD.1]
  show existingKeyPart f
      (if dcol ws f = dcol ws "Purchase Date" ∧ 2 ≤ r
          ∧ r ≤ (lastUsedRow (ingestFinalState ws mdf).sheet).1
        then normDateVal (getCell (ingestFinalState ws mdf).sheet r (dcol ws f))
        else getCell (ingestFinalState ws mdf).sheet r (dcol ws f))
      = existingKeyPart f (getCell ws r (dcol ws f))
  have hlow := I.low r (dcol ws f) (by omega) (by omega) hcpos
  by_cases hfD : f = "Purchase Date"
  · subst hfD
    rw [if_pos ⟨rfl, h2, by omega⟩]
    rw [hlow, keyPart_date_normDateVal _ hdater]
  · have hnecol : dcol ws f ≠ dcol ws "Purchase Date" := by
      intro hEq
      exact hfD (dcol_inj ws hok f hf "Purchase Date" (by decide) hEq)
    rw [if_neg (fun hAnd => hnecol hAnd.1)]
    rw [hlow]

/-- After a run, every monthly row key is already among the identity keys
the engine would read back from the persisted sheet: accepted rows are found
at the rows they were written to, duplicate rows at whichever earlier row
carried their key. -/
theorem secondRun_keys (ws : Sheet) (mdf : DataFrame) (hok : dedupeHeadersOk ws = true)
    (hres : (resolveMapping ws mdf.cols).1 ≠ [])
    (hdate : ∀ r, 2 ≤ r → r ≤ (lastUsedRow ws).1 →
      ∀ q, getCell ws r (dcol ws "Purchase Date") ≠ Value.vnum q)
    (hE : ∀ row ∈ mdf.rows,
      dfGet mdf.cols row "PURCHASE_AMT" = toNumericCleaned (dfGet mdf.cols row "Amount")
      ∧ dfGet mdf.cols row "PRODUCT_NAME"
          = (if "Prod Name" ∈ mdf.cols then dfGet mdf.cols row "Prod Name" else Value.vnone)
      ∧ dfGet mdf.cols row "PRODUCT_ID"
          = (if "Prod Code" ∈ mdf.cols then dfGet mdf.cols row "Prod Code" else Value.vnone)
      ∧ dfGet mdf.cols row "CONTRACT_ID"
          = (if "CRTR_ID" ∈ mdf.cols then dfGet mdf.cols row "CRTR_ID" else Value.vnone))
    (hamt : ∀ row ∈ mdf.rows, amountValOk (dfGet mdf.cols row "Amount") = true)
    (hany : ∀ row ∈ mdf.rows,
      rowHasAny (resolveMapping ws mdf.cols).1 mdf.cols row = true) :
    ∀ row ∈ mdf.rows,
      makeRowKey mdf.cols row ∈ readExistingKeys (ingestFinalSheet ws mdf) := by
  obtain ⟨acc, I⟩ := ingestFinalState_inv ws mdf
  intro row hrow
  have hk1 : makeRowKey mdf.cols row ∈ (ingestFinalState ws mdf).keys :=
    foldl_processRow_mem_keys _ _ _ mdf.rows _ hany row hrow
  rw [I.keys_eq] at hk1
  have hpres2 : presentFields (ingestFinalSheet ws mdf) = presentFields ws :=
    presentFields_congr _ _ (ingestFinalSheet_headers ws mdf)
  have hpne2 : presentFields (ingestFinalSheet ws mdf) ≠ [] := by
    rw [hpres2]
    exact presentFields_of_ok_ne ws hok
  rw [readExistingKeys_eq _ hpne2, hpres2]
  have hlu2 := ingestFinalSheet_lastUsedRow ws mdf hres
  rw [hlu2]
  have hlu1 := lastUsedRow_pos ws
  rcases List.mem_append.mp hk1 with hnew | hold
  · rw [List.mem_reverse] at hnew
    obtain ⟨arow, harowm, hkeyeq⟩ := List.mem_map.mp hnew
    obtain ⟨k, hkacc, hgd⟩ := mem_exists_getD acc arow [] harowm
    have hklt : k < (ingestFinalState ws mdf).written := by
      rw [← I.acc_len]
      exact hkacc
    apply List.mem_map.mpr
    refine ⟨(lastUsedRow ws).1 + 1 + k, ?_, ?_⟩
    · rw [List.mem_range'_1]
      constructor
      · omega
      · show (lastUsedRow ws).1 + 1 + k
            < 2 + ((lastUsedRow ws).1 + (ingestFinalState ws mdf).written - 1)
        omega
    · rw [newRow_key ws mdf hok hE hamt acc I k hklt, hgd]
      exact hkeyeq
  · have hpne : presentFields ws ≠ [] := presentFields_of_ok_ne ws hok
    rw [readExistingKeys_eq ws hpne] at hold
    obtain ⟨r, hrm, hval⟩ := List.mem_map.mp hold
    have hb := List.mem_range'_1.mp hrm
    apply List.mem_map.mpr
    refine ⟨r, ?_, ?_⟩
    · rw [List.mem_range'_1]
      constructor
      · omega
      · show r < 2 + ((lastUsedRow ws).1 + (ingestFinalState ws mdf).written - 1)
        omega
    · rw [oldRow_key ws mdf hok acc I r (by omega) (by omega)
        (hdate r (by omega) (by omega))]
      exact hval

/-- A run all of whose monthly keys are already known only counts
duplicates. -/
theorem run2_state (ws2 : Sheet) (mdf : DataFrame)
    (hall : ∀ row ∈ mdf.rows, makeRowKey mdf.cols row ∈ readExistingKeys ws2) :
    ingestFinalState ws2 mdf
      = LoopState.mk ws2 0 (0 + mdf.rows.length) (readExistingKeys ws2) := by
  unfold ingestFinalState
  rw [foldl_processRow_all_dup _ _ _ _ _ (fun row hrow => hall row hrow)]

set_option maxHeartbeats 1000000 in
/-- C1 (corrected): idempotence of ingestion holds only under the
amount-coercion and date-cell provisos.  When every dedupe header resolves
consistently, no pre-existing Purchase Date cell is a raw number (a numeric
cell is keyed as epoch nanoseconds by pd.to_datetime(v) but rewritten by
the renormalization pass through pd.to_datetime(str(v)), which can change
its key between runs), every monthly Amount is empty, numeric, or
numeric-parseable text, and every monthly row writes at least one value, a
second run of the same monthly file against the ledger produced by the
first returns rows_added = 0 with every monthly row counted a duplicate.
(Without the amount proviso idempotence fails: see the counterexample,
where a non-numeric Amount is written back as text whose ledger key keeps
the raw value while the monthly key holds None, so the row is re-ingested
on every run.) -/
theorem claim_C1_idempotence (wb : List (String × Sheet)) (raw : DataFrame) (ws : Sheet)
    (res : IngestResult)
    (hlk : wb.lookup APR_SHEET = some ws)
    (h1 : ingest_month_into_apr_bundle true true true wb raw = Except.ok res)
    (hok : dedupeHeadersOk ws = true)
    (hdate : ∀ r, 2 ≤ r → r ≤ (lastUsedRow ws).1 →
      ∀ q, getCell ws r (dcol ws "Purchase Date") ≠ Value.vnum q)
    (hamt : ∀ row ∈ (coerceAndDerive (normalizeColumns raw)).rows,
      amountValOk (dfGet (coerceAndDerive (normalizeColumns raw)).cols row "Amount") = true)
    (hany : ∀ row ∈ (coerceAndDerive (normalizeColumns raw)).rows,
      rowHasAny (resolveMapping ws (coerceAndDerive (normalizeColumns raw)).cols).1
        (coerceAndDerive (normalizeColumns raw)).cols row = true) :
    ∃ res2, ingest_month_into_apr_bundle true true true [(APR_SHEET, res.sheet)] raw
        = Except.ok res2
      ∧ res2.rows_added = 0
      ∧ res2.dedupe_skipped = (coerceAndDerive (normalizeColumns raw)).rows.length := by
  obtain ⟨-, -, -, hnd, -⟩ := ingest_ok_flags true true true wb raw res h1
  by_cases hres : (resolveMapping ws (coerceAndDerive (normalizeColumns raw)).cols).1 = []
  · have hrows : (coerceAndDerive (normalizeColumns raw)).rows = [] := by
      cases hl : (coerceAndDerive (normalizeColumns raw)).rows with
      | nil => rfl
      | cons r t =>
        have h2 := hany r (by rw [hl]; exact List.mem_cons_self r t)
        rw [hres] at h2
        simp [rowHasAny] at h2
    rw [ingest_true_empty wb raw ws hlk hres hnd] at h1
    have hreseq : _ = res := (Except.ok.injEq _ _).mp h1
    have hsheet : res.sheet = ws := by
      rw [← hreseq]
    have hres2 : (resolveMapping res.sheet (coerceAndDerive (normalizeColumns raw)).cols).1
        = [] := by
      rw [hsheet]
      exact hres
    refine ⟨_, ingest_true_empty [(APR_SHEET, res.sheet)] raw res.sheet rfl hres2 hnd, rfl, ?_⟩
    rw [hrows]
    rfl
  · rw [ingest_true_write wb raw ws hlk hres hnd] at h1
    have hreseq : _ = res := (Except.ok.injEq _ _).mp h1
    have hsheet : res.sheet = ingestFinalSheet ws (coerceAndDerive (normalizeColumns raw)) := by
      rw [← hreseq]
    have hE := fun row hr =>
      coerceAndDerive_row_spec (normalizeColumns raw) (normalizeColumns_wf raw) row hr
    have hall := secondRun_keys ws _ hok hres hdate hE hamt hany
    have hhd2 := ingestFinalSheet_headers ws (coerceAndDerive (normalizeColumns raw))
    have hres2 : (resolveMapping (ingestFinalSheet ws (coerceAndDerive (normalizeColumns raw)))
        (coerceAndDerive (normalizeColumns raw)).cols).1 ≠ [] := by
      rw [resolveMapping_congr _ ws hhd2]
      exact hres
    have hrun2 := ingest_true_write
      [(APR_SHEET, ingestFinalSheet ws (coerceAndDerive (normalizeColumns raw)))] raw
      (ingestFinalSheet ws (coerceAndDerive (normalizeColumns raw))) rfl hres2 hnd
    have hfinal2 := run2_state (ingestFinalSheet ws (coerceAndDerive (normalizeColumns raw)))
      (coerceAndDerive (normalizeColumns raw)) hall
    rw [hsheet]
    refine ⟨_, hrun2, ?_, ?_⟩
    · dsimp only
      rw [hfinal2]
    · dsimp only
      rw [hfinal2]
      dsimp only
      omega

theorem claim_C1_witness :
    ∃ res2, ingest_month_into_apr_bundle true true true [(APR_SHEET, exRun1Sheet)] exRaw6
        = Except.ok res2
      ∧ res2.rows_added = 0
      ∧ res2.dedupe_skipped = (coerceAndDerive (normalizeColumns exRaw6)).rows.length :=
  claim_C1_idempotence [(APR_SHEET, exLedger)] exRaw6 exLedger
    (IngestResult.mk true 0 4 4 1
      ["Cust Name", "Cust Type", "Prod Name", "Amount", "Package Status",
       "API Credit Type", "Prod Code", "CRTR_ID"]
      [] [("MSISDN", 1), ("Purchase Date", 2)] exRun1Sheet)
    rfl rfl rfl
    (fun r h1 h2 q => absurd (h1.trans h2) (by decide))
    (by decide) (by decide)

/-- C1 counterexample to the spec's sentence, in both failure modes.
First: ingesting the monthly sheet exRawAmt (one row whose Amount is the
non-numeric text "abc") twice against the same ledger re-adds the row on
the second run (rows_added = 1, dedupe_skipped = 0): the ledger-side key
keeps the raw text while the monthly-side key holds None, so the written
row never matches itself.  Second: a ledger whose Purchase Date cell holds
the raw number 20240102 keys as epoch nanoseconds (1970-01-01) on the
first run — deduplicating the matching monthly row — but the
renormalization pass rewrites the cell through str() to the calendar date
2024-01-02, so the same monthly row is re-added on the second run even
though the first run wrote nothing. -/
theorem claim_C1_counterexample :
    ((ingest_month_into_apr_bundle true true true [(APR_SHEET, exLedger)] exRawAmt).bind
        (fun r => ingest_month_into_apr_bundle true true true [(APR_SHEET, r.sheet)] exRawAmt)).map
      (fun r => (r.rows_added, r.dedupe_skipped)) = Except.ok (1, 0)
    ∧ (ingest_month_into_apr_bundle true true true
          [(APR_SHEET, exLedgerNumDate)] exRawNumDate).map
        (fun r => (r.rows_added, r.dedupe_skipped)) = Except.ok (0, 1)
    ∧ ((ingest_month_into_apr_bundle true true true
          [(APR_SHEET, exLedgerNumDate)] exRawNumDate).bind
        (fun r => ingest_month_into_apr_bundle true true true
          [(APR_SHEET, r.sheet)] exRawNumDate)).map
      (fun r => (r.rows_added, r.dedupe_skipped)) = Except.ok (1, 0) :=
  ⟨rfl, rfl, rfl⟩
